import Mathlib

/-!
Verification of the Simsam ↔ BPMN converter
(`bpmn.io_converter/simsam_bpmn_converter.py`, class `SimsamToBPMNFixed`).

Shallow embedding conventions:
* Python/JSON values are modelled by `JVal`; JSON numbers are kept as their
  Python-canonical decimal text (`JVal.num "0.7"`), so `str(v)` is exact.
* Python strings are modelled as `List Char` internally and `String` at the
  interface; `str.replace` is `pyReplace` (left-to-right, non-overlapping),
  `str.strip()` is `pyStrip` over Python's whitespace class.
* File I/O is modelled by `LoadResult` (a required input is loaded, missing,
  or unparsable); exceptions are modelled with `Except`.
* The XML layer (ElementTree): the text emitted by `convert` is denoted by a
  structured tree (`XNode`) whose attribute values and text are stored exactly
  as written (escaped); attribute/text access in the reverse converter
  unescapes entities (`xmlUnescape`), as `xml.etree.ElementTree` does.
* Python floats are modelled as exact rationals; the `:.1f` formatting uses
  exact decimal round-half-to-even (binary floating-point artifacts are out of
  scope of the claims checked here).
Recursions that a proof or witness must evaluate are structured on an explicit
fuel counter large enough to never be exhausted, so that kernel reduction
works.
-/

/-- JSON/Python values as loaded by `json.load`.  Numbers are stored as their
Python-canonical textual form (what `str(v)` returns). -/
inductive JVal where
  | str (s : String)
  | num (s : String)
  | bool (b : Bool)
  | null
  | arr (xs : List JVal)
  | obj (kvs : List (String × JVal))

/-- A JSON object (Python dict), insertion ordered. -/
abbrev JObj := List (String × JVal)

/-- Ordered-dict lookup (first binding wins, as in Python dicts which hold
unique keys). -/
def dget {α : Type} (o : List (String × α)) (k : String) : Option α :=
  (o.find? (fun kv => kv.1 = k)).map (·.2)

/-- Ordered-dict insert-or-update, as Python dict assignment `d[k] = v`. -/
def dinsert {α : Type} (k : String) (v : α) :
    List (String × α) → List (String × α)
  | [] => [(k, v)]
  | (k', v') :: rest =>
    if k' = k then (k, v) :: rest else (k', v') :: dinsert k v rest

/-- Python numeric-text zero test: a numeric literal denotes zero iff all its
digits are `0` (signs, dot, exponent markers carry no magnitude). -/
def numTextIsZero (s : String) : Bool :=
  (s.toList.filter Char.isDigit).all (· = '0')

mutual

/-- Python `repr` of a value (used by `str` on containers).  String quoting
subtleties are immaterial to the claims; single quotes are used as Python does
in the common case. -/
def pyRepr : JVal → String
  | .str s => "'" ++ s ++ "'"
  | .num s => s
  | .bool b => if b then "True" else "False"
  | .null => "None"
  | .arr xs => "[" ++ pyReprList xs ++ "]"
  | .obj kvs => "\x7b" ++ pyReprObj kvs ++ "\x7d"

/-- Comma-joined reprs of a list's items. -/
def pyReprList : List JVal → String
  | [] => ""
  | [x] => pyRepr x
  | x :: xs => pyRepr x ++ ", " ++ pyReprList xs

/-- Comma-joined `key: value` reprs of a dict's items. -/
def pyReprObj : List (String × JVal) → String
  | [] => ""
  | [(k, v)] => "'" ++ k ++ "': " ++ pyRepr v
  | (k, v) :: kvs => "'" ++ k ++ "': " ++ pyRepr v ++ ", " ++ pyReprObj kvs

end

/-- Python `str()` of a value. -/
def pyStr : JVal → String
  | .str s => s
  | v => pyRepr v

/-- Python truthiness (`if not x`). -/
def JVal.truthy : JVal → Bool
  | .str s => s ≠ ""
  | .num s => ¬ numTextIsZero s
  | .bool b => b
  | .null => false
  | .arr xs => ¬ xs.isEmpty
  | .obj kvs => ¬ kvs.isEmpty

/-- Python's `str.strip()` whitespace class (ASCII part plus the Unicode
whitespace code points Python strips), expressed on code points. -/
def isPySpace (c : Char) : Bool :=
  let n := c.toNat
  n = 0x20 || n = 0x09 || n = 0x0a || n = 0x0d ||
  n = 0x0b || n = 0x0c ||
  (0x1c ≤ n && n ≤ 0x1f) || n = 0x85 || n = 0xa0 ||
  n = 0x1680 || (0x2000 ≤ n && n ≤ 0x200a) ||
  n = 0x2028 || n = 0x2029 || n = 0x202f || n = 0x205f ||
  n = 0x3000

/-- Python `str.strip()` on a char list. -/
def pyStripL (cs : List Char) : List Char :=
  ((cs.dropWhile isPySpace).reverse.dropWhile isPySpace).reverse

/-- Python `str.strip()`. -/
def pyStrip (s : String) : String := String.mk (pyStripL s.toList)

/-- One fuel-counted pass of Python `str.replace(old, new)`: scan left to
right, replacing non-overlapping occurrences of `old`.  The fuel only bounds
the number of loop steps (one per consumed character group); callers supply
fuel `≥ length + 1` so it is never exhausted. -/
def replLoop (old new : List Char) : Nat → List Char → List Char
  | 0, s => s
  | _ + 1, [] => []
  | f + 1, c :: rest =>
    if old ≠ [] && old.isPrefixOf (c :: rest) then
      new ++ replLoop old new f (rest.drop (old.length - 1))
    else
      c :: replLoop old new f rest

/-- Python `str.replace(old, new)` on char lists. -/
def pyReplaceL (old new s : List Char) : List Char :=
  replLoop old new (s.length + 1) s

/-- Python `str.replace(old, new)`. -/
def pyReplace (s old new : String) : String :=
  String.mk (pyReplaceL old.toList new.toList s.toList)

/-- The control characters removed by `escape_xml_thoroughly`'s final
`re.sub(r'[\x00-\x08\x0B-\x0C\x0E-\x1F\x7F]', '', text)`. -/
def isCtrlRemoved (c : Char) : Bool :=
  let n := c.toNat
  n ≤ 0x08 || n = 0x0b || n = 0x0c || (0x0e ≤ n && n ≤ 0x1f) || n = 0x7f

/-- The replacement table of `escape_xml_thoroughly`, in source order
(`&` first, then the other XML specials, then whitespace collapsing). -/
def escapeReplacements : List (List Char × List Char) :=
  [ (['&'], ['&', 'a', 'm', 'p', ';']),
    (['<'], ['&', 'l', 't', ';']),
    (['>'], ['&', 'g', 't', ';']),
    (['"'], ['&', 'q', 'u', 'o', 't', ';']),
    (['\''], ['&', 'a', 'p', 'o', 's', ';']),
    (['\r', '\n'], [' ']),
    (['\n'], [' ']),
    (['\r'], [' ']),
    (['\t'], [' ']) ]

/-- The replacement loop of `escape_xml_thoroughly`. -/
def escapeSteps (cs : List Char) : List Char :=
  escapeReplacements.foldl (fun s p => pyReplaceL p.1 p.2 s) cs

/-- Body of `escape_xml_thoroughly` after the truthiness guard: the ordered
replacements, then control-character removal, then `strip()`. -/
def escapeCore (cs : List Char) : List Char :=
  pyStripL ((escapeSteps cs).filter (fun c => !isCtrlRemoved c))

/-- `SimsamToBPMNFixed.escape_xml_thoroughly` (lines 173–198): escape the XML
specials, collapse newlines/tabs to spaces, drop control characters, strip. -/
def escape_xml_thoroughly (text : JVal) : String :=
  if ¬ text.truthy then "" else String.mk (escapeCore (pyStr text).toList)

/-- String-input shortcut for `escape_xml_thoroughly`. -/
def escapeXmlStr (s : String) : String := escape_xml_thoroughly (.str s)

/-- The character class kept verbatim by `make_xml_safe_id`'s
`re.sub(r'[^a-zA-Z0-9_.-]', '_', ...)`. -/
def isSafeIdChar (c : Char) : Bool :=
  let n := c.toNat
  (0x61 ≤ n && n ≤ 0x7a) || (0x41 ≤ n && n ≤ 0x5a) || (0x30 ≤ n && n ≤ 0x39) ||
  n = 0x5f || n = 0x2e || n = 0x2d

/-- ASCII alphabetic test (after the substitution every character is ASCII,
so Python's `str.isalpha` coincides with this on the first character). -/
def isAsciiAlpha (c : Char) : Bool :=
  let n := c.toNat
  (0x61 ≤ n && n ≤ 0x7a) || (0x41 ≤ n && n ≤ 0x5a)

/-- The head-fix step of `make_xml_safe_id`: `if safe_id and not
(safe_id[0].isalpha() or safe_id[0] == '_'): safe_id = 'el_' + safe_id`. -/
def mkSafeHead : List Char → List Char
  | [] => []
  | c :: rest =>
    if isAsciiAlpha c || c = '_' then c :: rest else 'e' :: 'l' :: '_' :: c :: rest

/-- `SimsamToBPMNFixed.make_xml_safe_id` (lines 200–211): fall back to
`"element_1"` on falsy input, strip, substitute unsafe characters by `_`,
prepend `el_` when the first character is not a letter or underscore. -/
def make_xml_safe_id (id_string : JVal) : String :=
  if ¬ id_string.truthy then "element_1"
  else
    let safe1 := pyStripL (pyStr id_string).toList
    let safe2 := safe1.map (fun c => if isSafeIdChar c then c else '_')
    let safe3 := mkSafeHead safe2
    if safe3 = [] then "element_1" else String.mk safe3

/-- String-input shortcut for `make_xml_safe_id`. -/
def safeIdStr (s : String) : String := make_xml_safe_id (.str s)

/-- The spec's pattern `[A-Za-z_][A-Za-z0-9_.-]*` as a Bool predicate. -/
def matchesIdPattern (s : String) : Bool :=
  match s.toList with
  | [] => false
  | c :: rest => (isAsciiAlpha c || c = '_') && rest.all isSafeIdChar

/-! ### Basic facts about the character classes and list helpers -/

lemma isSafeIdChar_not_pySpace {c : Char} (h : isSafeIdChar c = true) :
    isPySpace c = false := by
  simp only [isSafeIdChar, Bool.or_eq_true, Bool.and_eq_true, decide_eq_true_eq] at h
  simp only [isPySpace, Bool.or_eq_false_iff, Bool.and_eq_false_iff,
    decide_eq_false_iff_not]
  omega

lemma isAsciiAlpha_safe {c : Char} (h : isAsciiAlpha c = true) :
    isSafeIdChar c = true := by
  simp only [isAsciiAlpha, Bool.or_eq_true, Bool.and_eq_true, decide_eq_true_eq] at h
  simp only [isSafeIdChar, Bool.or_eq_true, Bool.and_eq_true, decide_eq_true_eq]
  omega

lemma dropWhile_eq_self_of {p : Char → Bool} {l : List Char}
    (h : ∀ c ∈ l, p c = false) : l.dropWhile p = l := by
  cases l with
  | nil => rfl
  | cons a t => simp [List.dropWhile, h a (by simp)]

lemma pyStripL_eq_self {l : List Char} (h : ∀ c ∈ l, isPySpace c = false) :
    pyStripL l = l := by
  unfold pyStripL
  rw [dropWhile_eq_self_of h, dropWhile_eq_self_of (fun c hc => h c (by
    simpa using hc)), List.reverse_reverse]

/-- Every character in the output of the unsafe-character substitution is in
the safe class. -/
lemma mem_mapSafe {l : List Char} {c : Char}
    (hc : c ∈ l.map (fun c => if isSafeIdChar c then c else '_')) :
    isSafeIdChar c = true := by
  simp only [List.mem_map] at hc
  obtain ⟨a, _, rfl⟩ := hc
  by_cases h : isSafeIdChar a = true
  · simp [h]
  · simp only [Bool.not_eq_true] at h
    simp only [h, Bool.false_eq_true, if_false]
    decide

lemma mapSafe_eq_self {l : List Char} (h : ∀ c ∈ l, isSafeIdChar c = true) :
    l.map (fun c => if isSafeIdChar c then c else '_') = l := by
  induction l with
  | nil => rfl
  | cons a t ih =>
    simp only [List.map_cons, h a (by simp), if_true, List.cons.injEq, true_and]
    exact ih (fun c hc => h c (by simp [hc]))

lemma toList_mk (l : List Char) : (String.mk l).toList = l := rfl

lemma mk_toList (s : String) : String.mk s.toList = s := by
  cases s
  rfl

/-! ### Claim C7: `make_xml_safe_id` output shape and idempotence -/

lemma make_xml_safe_id_matches (v : JVal) :
    matchesIdPattern (make_xml_safe_id v) = true := by
  simp only [make_xml_safe_id]
  by_cases h1 : v.truthy = true
  · rw [if_neg (not_not_intro h1)]
    rcases hs2 : (pyStripL (pyStr v).toList).map
        (fun c => if isSafeIdChar c then c else '_') with _ | ⟨c, rest⟩
    · decide
    · have hmem : ∀ x ∈ c :: rest, isSafeIdChar x = true := by
        intro x hx
        exact mem_mapSafe (hs2 ▸ hx)
      simp only [mkSafeHead]
      by_cases h3 : (isAsciiAlpha c || c = '_') = true
      · rw [if_pos h3, if_neg (by simp : ¬(c :: rest) = ([] : List Char))]
        simp only [matchesIdPattern, toList_mk, h3, Bool.true_and, List.all_eq_true]
        intro x hx
        exact hmem x (List.mem_cons_of_mem c hx)
      · rw [if_neg h3,
          if_neg (by simp : ¬('e' :: 'l' :: '_' :: c :: rest) = ([] : List Char))]
        simp only [matchesIdPattern, toList_mk]
        refine Bool.and_eq_true_iff.mpr ⟨by decide, ?_⟩
        simp only [List.all_cons, Bool.and_eq_true, List.all_eq_true]
        exact ⟨by decide, by decide, hmem c (List.mem_cons_self c rest),
          fun x hx => hmem x (List.mem_cons_of_mem c hx)⟩
  · rw [if_pos h1]
    decide

lemma matchesIdPattern_ne_empty {s : String} (h : matchesIdPattern s = true) :
    s ≠ "" := by
  intro he
  subst he
  simp [matchesIdPattern] at h

lemma safeIdStr_of_matches {s : String} (h : matchesIdPattern s = true) :
    safeIdStr s = s := by
  have hne : s ≠ "" := matchesIdPattern_ne_empty h
  rcases hl : s.toList with _ | ⟨c, rest⟩
  · exfalso
    apply hne
    have := congrArg String.mk hl
    rwa [mk_toList] at this
  · unfold matchesIdPattern at h
    rw [hl] at h
    have hhead := (Bool.and_eq_true_iff.mp h).1
    have hAll : ∀ x ∈ s.toList, isSafeIdChar x = true := by
      rw [hl]
      intro x hx
      rcases List.mem_cons.mp hx with rfl | hx'
      · rcases Bool.or_eq_true_iff.mp hhead with ha | he
        · exact isAsciiAlpha_safe ha
        · rw [decide_eq_true_eq] at he
          subst he
          decide
      · exact List.all_eq_true.mp (Bool.and_eq_true_iff.mp h).2 x hx'
    simp only [safeIdStr, make_xml_safe_id]
    rw [if_neg (by simp [JVal.truthy, hne])]
    have hstrip : pyStripL (pyStr (.str s)).toList = s.toList :=
      pyStripL_eq_self (fun x hx => isSafeIdChar_not_pySpace (hAll x hx))
    rw [hstrip, mapSafe_eq_self hAll, hl]
    simp only [mkSafeHead]
    rw [if_pos hhead, if_neg (by simp : ¬ (c :: rest) = ([] : List Char)), ← hl,
      mk_toList]

/-- C7: for every input value (strings, the empty string, `None`, …),
`make_xml_safe_id` returns a non-empty string matching
`[A-Za-z_][A-Za-z0-9_.-]*`, and it is idempotent: re-sanitizing its output
changes nothing. -/
theorem C7_make_xml_safe_id (v : JVal) :
    make_xml_safe_id v ≠ "" ∧
    matchesIdPattern (make_xml_safe_id v) = true ∧
    safeIdStr (make_xml_safe_id v) = make_xml_safe_id v := by
  have h := make_xml_safe_id_matches v
  exact ⟨matchesIdPattern_ne_empty h, h, safeIdStr_of_matches h⟩

/-! ### Claim C8: machinery for `escape_xml_thoroughly` -/

/-- The entity bodies that may follow an `&` in output emitted by the
converter (the five entities its escaping produces). -/
def entityBodies : List (List Char) :=
  [['a', 'm', 'p', ';'], ['l', 't', ';'], ['g', 't', ';'],
   ['q', 'u', 'o', 't', ';'], ['a', 'p', 'o', 's', ';']]

/-- Does the text start with one of the five entity bodies? -/
def bodiesPre (t : List Char) : Bool :=
  entityBodies.any (fun b => b.isPrefixOf t)

/-- Every ampersand starts one of the five emitted entities. -/
def ampOk : List Char → Bool
  | [] => true
  | c :: rest => (c != '&' || bodiesPre rest) && ampOk rest

/-- Control characters in the sense of the spec (C0 controls and DEL). -/
def isCtrlChar (c : Char) : Bool :=
  c.toNat < 0x20 || c.toNat = 0x7f

/-- Replace each character by a string (the shape a single-character
`str.replace` has). -/
def charExpand (f : Char → List Char) : List Char → List Char
  | [] => []
  | c :: t => f c ++ charExpand f t

lemma replLoop_mem {old new : List Char} {x : Char} :
    ∀ {f : Nat} {s : List Char}, x ∈ replLoop old new f s → x ∈ s ∨ x ∈ new := by
  intro f
  induction f with
  | zero => intro s h; exact Or.inl h
  | succ f ih =>
    intro s h
    cases s with
    | nil => simp [replLoop] at h
    | cons c rest =>
      rw [replLoop] at h
      split_ifs at h with hc
      · rcases List.mem_append.mp h with h1 | h2
        · exact Or.inr h1
        · rcases ih h2 with h3 | h4
          · exact Or.inl (List.mem_cons_of_mem c (List.mem_of_mem_drop h3))
          · exact Or.inr h4
      · rcases List.mem_cons.mp h with rfl | h2
        · exact Or.inl (List.mem_cons_self _ _)
        · rcases ih h2 with h3 | h4
          · exact Or.inl (List.mem_cons_of_mem c h3)
          · exact Or.inr h4


lemma replLoop_id {c : Char} {old' new : List Char} :
    ∀ {f : Nat} {s : List Char}, c ∉ s → replLoop (c :: old') new f s = s := by
  intro f
  induction f with
  | zero => intro s _; rfl
  | succ f ih =>
    intro s hc
    cases s with
    | nil => rfl
    | cons a rest =>
      have hca : (c == a) = false := by
        simp only [beq_eq_false_iff_ne, ne_eq]
        intro h
        exact hc (h ▸ List.mem_cons_self a rest)
      rw [replLoop, if_neg (by simp [List.isPrefixOf, hca]),
        ih (fun h => hc (List.mem_cons_of_mem a h))]

lemma replLoop_single_eq {c : Char} {new : List Char} :
    ∀ {f : Nat} {s : List Char}, s.length ≤ f →
      replLoop [c] new f s = charExpand (fun a => if a = c then new else [a]) s := by
  intro f
  induction f with
  | zero =>
    intro s h
    rw [Nat.le_zero, List.length_eq_zero] at h
    subst h
    rfl
  | succ f ih =>
    intro s h
    cases s with
    | nil => rfl
    | cons a rest =>
      rw [List.length_cons, Nat.succ_le_succ_iff] at h
      rw [replLoop, charExpand]
      by_cases hac : a = c
      · subst hac
        rw [if_pos (by simp [List.isPrefixOf])]
        simp only [List.length_singleton, Nat.sub_self, List.drop_zero]
        rw [ih h]
        simp
      · rw [if_neg (by simp [List.isPrefixOf]; intro h'; exact absurd h'.symm hac),
          ih h]
        simp [hac]

lemma isPrefixOf_replLoop {c : Char} {old' new : List Char} :
    ∀ {b : List Char}, (∀ d ∈ b, d ≠ c) →
      ∀ {f : Nat} {t : List Char}, b.isPrefixOf t = true →
        b.isPrefixOf (replLoop (c :: old') new f t) = true := by
  intro b
  induction b with
  | nil => intro _ f t _; simp [List.isPrefixOf]
  | cons d b' ihb =>
    intro hb f t hp
    cases t with
    | nil => simp [List.isPrefixOf] at hp
    | cons a t' =>
      simp only [List.isPrefixOf, Bool.and_eq_true, beq_iff_eq] at hp
      obtain ⟨rfl, hp'⟩ := hp
      cases f with
      | zero => simp [replLoop, List.isPrefixOf, hp']
      | succ f =>
        have hcd : (c == d) = false := by
          simp only [beq_eq_false_iff_ne, ne_eq]
          exact fun h => (hb d (List.mem_cons_self d b')) h.symm
        rw [replLoop, if_neg (by simp [List.isPrefixOf, hcd])]
        simp only [List.isPrefixOf, Bool.and_eq_true, beq_self_eq_true, true_and]
        exact ihb (fun x hx => hb x (List.mem_cons_of_mem d hx)) hp'

lemma ampOk_tail {c : Char} {t : List Char} (h : ampOk (c :: t) = true) :
    ampOk t = true := by
  rw [ampOk] at h
  exact (Bool.and_eq_true_iff.mp h).2

lemma ampOk_drop {t : List Char} (h : ampOk t = true) :
    ∀ k, ampOk (t.drop k) = true := by
  induction t with
  | nil => intro k; simp [List.drop_nil, ampOk]
  | cons c t ih =>
    intro k
    cases k with
    | zero => exact h
    | succ k => exact ih (ampOk_tail h) k

lemma ampOk_replLoop {c : Char} {old' new : List Char}
    (hbody : ∀ b ∈ entityBodies, ∀ d ∈ b, d ≠ c)
    (hnew : ∀ t, ampOk t = true → ampOk (new ++ t) = true) :
    ∀ {f : Nat} {s : List Char}, ampOk s = true →
      ampOk (replLoop (c :: old') new f s) = true := by
  intro f
  induction f with
  | zero => intro s h; exact h
  | succ f ih =>
    intro s h
    cases s with
    | nil => exact h
    | cons a rest =>
      rw [ampOk] at h
      obtain ⟨h1, h2⟩ := Bool.and_eq_true_iff.mp h
      rw [replLoop]
      split_ifs with hm
      · exact hnew _ (ih (ampOk_drop h2 _))
      · rw [ampOk]
        refine Bool.and_eq_true_iff.mpr ⟨?_, ih h2⟩
        rcases Bool.or_eq_true_iff.mp h1 with ha | hpre
        · exact Bool.or_eq_true_iff.mpr (Or.inl ha)
        · refine Bool.or_eq_true_iff.mpr (Or.inr ?_)
          simp only [bodiesPre, List.any_eq_true] at hpre ⊢
          obtain ⟨b, hbmem, hbp⟩ := hpre
          exact ⟨b, hbmem, isPrefixOf_replLoop (hbody b hbmem) hbp⟩

/-- The effect of the first replacement (`&` → `&amp;`) on one character. -/
def ampExpand (a : Char) : List Char :=
  if a = '&' then ['&', 'a', 'm', 'p', ';'] else [a]

lemma ampOk_cons (c : Char) (t : List Char) :
    ampOk (c :: t) = ((c != '&' || bodiesPre t) && ampOk t) := rfl

lemma ampOk_cons_nonAmp {a : Char} {t : List Char} (ha : (a != '&') = true)
    (h : ampOk t = true) : ampOk (a :: t) = true := by
  rw [ampOk]
  exact Bool.and_eq_true_iff.mpr ⟨Bool.or_eq_true_iff.mpr (Or.inl ha), h⟩

lemma ampOk_charExpand_amp : ∀ {s : List Char},
    ampOk (charExpand ampExpand s) = true := by
  intro s
  induction s with
  | nil => rfl
  | cons a t ih =>
    rw [charExpand]
    by_cases ha : a = '&'
    · subst ha
      rw [show ampExpand '&' = ['&', 'a', 'm', 'p', ';'] from rfl]
      simp only [List.cons_append, List.nil_append]
      rw [ampOk_cons]
      refine Bool.and_eq_true_iff.mpr ⟨?_, ?_⟩
      · refine Bool.or_eq_true_iff.mpr (Or.inr ?_)
        simp [bodiesPre, entityBodies, List.isPrefixOf]
      · exact ampOk_cons_nonAmp (by decide) (ampOk_cons_nonAmp (by decide)
          (ampOk_cons_nonAmp (by decide) (ampOk_cons_nonAmp (by decide) ih)))
    · simp only [ampExpand, if_neg ha, List.cons_append, List.nil_append]
      exact ampOk_cons_nonAmp (by simp [bne, ha]) ih

lemma mem_charExpand {f : Char → List Char} {x : Char} :
    ∀ {s : List Char}, x ∈ charExpand f s → ∃ a ∈ s, x ∈ f a := by
  intro s
  induction s with
  | nil => intro h; simp [charExpand] at h
  | cons a t ih =>
    intro h
    rw [charExpand] at h
    rcases List.mem_append.mp h with h1 | h2
    · exact ⟨a, List.mem_cons_self a t, h1⟩
    · obtain ⟨b, hb, hx⟩ := ih h2
      exact ⟨b, List.mem_cons_of_mem a hb, hx⟩

lemma charExpand_ne_nil {f : Char → List Char} (hf : ∀ a, f a ≠ [])
    {s : List Char} (hs : s ≠ []) : charExpand f s ≠ [] := by
  cases s with
  | nil => exact absurd rfl hs
  | cons a t =>
    rw [charExpand]
    intro h
    exact hf a (List.append_eq_nil.mp h).1

lemma isPrefixOf_filter {g : Char → Bool} :
    ∀ {b : List Char}, (∀ d ∈ b, g d = true) →
      ∀ {t : List Char}, b.isPrefixOf t = true →
        b.isPrefixOf (t.filter g) = true := by
  intro b
  induction b with
  | nil => intro _ t _; simp [List.isPrefixOf]
  | cons d b' ihb =>
    intro hb t hp
    cases t with
    | nil => simp [List.isPrefixOf] at hp
    | cons a t' =>
      simp only [List.isPrefixOf, Bool.and_eq_true, beq_iff_eq] at hp
      obtain ⟨rfl, hp'⟩ := hp
      rw [List.filter_cons, if_pos (hb d (List.mem_cons_self d b'))]
      simp only [List.isPrefixOf, Bool.and_eq_true, beq_self_eq_true, true_and]
      exact ihb (fun x hx => hb x (List.mem_cons_of_mem d hx)) hp'

lemma bodyChars_not_ctrl :
    ∀ b ∈ entityBodies, ∀ d ∈ b, (!isCtrlRemoved d) = true := by decide

lemma bodyChars_not_space :
    ∀ b ∈ entityBodies, ∀ d ∈ b, isPySpace d = false := by decide

lemma ampOk_filter {g : Char → Bool}
    (hg : ∀ b ∈ entityBodies, ∀ d ∈ b, g d = true) :
    ∀ {t : List Char}, ampOk t = true → ampOk (t.filter g) = true := by
  intro t
  induction t with
  | nil => intro h; exact h
  | cons c t ih =>
    intro h
    rw [List.filter_cons]
    obtain ⟨h1, h2⟩ := Bool.and_eq_true_iff.mp (by rwa [ampOk] at h)
    split_ifs with hgc
    · rw [ampOk]
      refine Bool.and_eq_true_iff.mpr ⟨?_, ih h2⟩
      rcases Bool.or_eq_true_iff.mp h1 with hc | hpre
      · exact Bool.or_eq_true_iff.mpr (Or.inl hc)
      · refine Bool.or_eq_true_iff.mpr (Or.inr ?_)
        simp only [bodiesPre, List.any_eq_true] at hpre ⊢
        obtain ⟨b, hbm, hbp⟩ := hpre
        exact ⟨b, hbm, isPrefixOf_filter (hg b hbm) hbp⟩
    · exact ih h2

lemma isPrefixOf_append_left {m : List Char}
    (hm : ∀ d ∈ m, isPySpace d = true) :
    ∀ {b l : List Char}, (∀ d ∈ b, isPySpace d = false) →
      b.isPrefixOf (l ++ m) = true → b.isPrefixOf l = true := by
  intro b
  induction b with
  | nil => intro l _ _; simp [List.isPrefixOf]
  | cons d b' ihb =>
    intro l hb hp
    cases l with
    | nil =>
      rw [List.nil_append] at hp
      cases m with
      | nil => simp [List.isPrefixOf] at hp
      | cons e m' =>
        simp only [List.isPrefixOf, Bool.and_eq_true, beq_iff_eq] at hp
        obtain ⟨rfl, _⟩ := hp
        have h1 := hm d (List.mem_cons_self _ _)
        have h2 := hb d (List.mem_cons_self _ _)
        rw [h1] at h2
        exact absurd h2 (by simp)
    | cons a l' =>
      simp only [List.cons_append, List.isPrefixOf, Bool.and_eq_true,
        beq_iff_eq] at hp ⊢
      exact ⟨hp.1, ihb (fun x hx => hb x (List.mem_cons_of_mem d hx)) hp.2⟩

lemma ampOk_append_spaces {m : List Char} (hm : ∀ d ∈ m, isPySpace d = true) :
    ∀ {l : List Char}, ampOk (l ++ m) = true → ampOk l = true := by
  intro l
  induction l with
  | nil => intro _; rfl
  | cons c l' ih =>
    intro h
    rw [List.cons_append] at h
    obtain ⟨h1, h2⟩ := Bool.and_eq_true_iff.mp (by rwa [ampOk] at h)
    rw [ampOk]
    refine Bool.and_eq_true_iff.mpr ⟨?_, ih h2⟩
    rcases Bool.or_eq_true_iff.mp h1 with hc | hpre
    · exact Bool.or_eq_true_iff.mpr (Or.inl hc)
    · refine Bool.or_eq_true_iff.mpr (Or.inr ?_)
      simp only [bodiesPre, List.any_eq_true] at hpre ⊢
      obtain ⟨b, hbm, hbp⟩ := hpre
      exact ⟨b, hbm,
        isPrefixOf_append_left hm (bodyChars_not_space b hbm) hbp⟩

lemma ampOk_dropWhile {p : Char → Bool} :
    ∀ {t : List Char}, ampOk t = true → ampOk (t.dropWhile p) = true := by
  intro t
  induction t with
  | nil => intro h; exact h
  | cons c t ih =>
    intro h
    rw [List.dropWhile_cons]
    split_ifs with hp
    · exact ih (ampOk_tail h)
    · exact h

lemma ampOk_pyStripL {t : List Char} (h : ampOk t = true) :
    ampOk (pyStripL t) = true := by
  unfold pyStripL
  have hAo : ampOk (t.dropWhile isPySpace) = true := ampOk_dropWhile h
  have hsplit :
      ((t.dropWhile isPySpace).reverse.dropWhile isPySpace).reverse ++
        ((t.dropWhile isPySpace).reverse.takeWhile isPySpace).reverse =
        t.dropWhile isPySpace := by
    rw [← List.reverse_append, List.takeWhile_append_dropWhile,
      List.reverse_reverse]
  refine ampOk_append_spaces (fun d hd => ?_) (by rw [hsplit]; exact hAo)
  rw [List.mem_reverse] at hd
  exact List.mem_takeWhile_imp hd

lemma mem_pyStripL {x : Char} {l : List Char} (h : x ∈ pyStripL l) : x ∈ l := by
  unfold pyStripL at h
  rw [List.mem_reverse] at h
  have h2 : x ∈ (l.dropWhile isPySpace).reverse :=
    (List.dropWhile_sublist _).mem h
  rw [List.mem_reverse] at h2
  exact (List.dropWhile_sublist _).mem h2

lemma escapeSteps_eq (cs : List Char) :
    escapeSteps cs =
      pyReplaceL ['\t'] [' ']
        (pyReplaceL ['\r'] [' ']
          (pyReplaceL ['\n'] [' ']
            (pyReplaceL ['\r', '\n'] [' ']
              (pyReplaceL ['\''] ['&', 'a', 'p', 'o', 's', ';']
                (pyReplaceL ['"'] ['&', 'q', 'u', 'o', 't', ';']
                  (pyReplaceL ['>'] ['&', 'g', 't', ';']
                    (pyReplaceL ['<'] ['&', 'l', 't', ';']
                      (pyReplaceL ['&'] ['&', 'a', 'm', 'p', ';'] cs)))))))) :=
  rfl

lemma notMem_pyReplaceL {x : Char} {old new s : List Char}
    (hs : x ∉ s) (hn : x ∉ new) : x ∉ pyReplaceL old new s :=
  fun h => (replLoop_mem h).elim hs hn

lemma charExpand_not_mem {c : Char} {new : List Char} (hc : c ∉ new) :
    ∀ {s : List Char}, c ∉ charExpand (fun a => if a = c then new else [a]) s := by
  intro s
  induction s with
  | nil => simp [charExpand]
  | cons a t ih =>
    rw [charExpand]
    intro h
    rcases List.mem_append.mp h with h1 | h2
    · by_cases hac : a = c
      · rw [if_pos hac] at h1
        exact hc h1
      · rw [if_neg hac] at h1
        exact hac (List.mem_singleton.mp h1).symm
    · exact ih h2

lemma pyReplaceL_single_not_mem {c : Char} {new : List Char} (hc : c ∉ new)
    (s : List Char) : c ∉ pyReplaceL [c] new s := by
  rw [pyReplaceL, replLoop_single_eq (Nat.le_succ _)]
  exact charExpand_not_mem hc

lemma escapeSteps_not_mem (cs : List Char) :
    '<' ∉ escapeSteps cs ∧ '>' ∉ escapeSteps cs ∧ '"' ∉ escapeSteps cs ∧
    '\'' ∉ escapeSteps cs ∧ '\t' ∉ escapeSteps cs ∧ '\n' ∉ escapeSteps cs ∧
    '\r' ∉ escapeSteps cs := by
  rw [escapeSteps_eq]
  refine ⟨?_, ?_, ?_, ?_, ?_, ?_, ?_⟩
  · exact notMem_pyReplaceL (notMem_pyReplaceL (notMem_pyReplaceL
      (notMem_pyReplaceL (notMem_pyReplaceL (notMem_pyReplaceL
        (notMem_pyReplaceL (pyReplaceL_single_not_mem (by decide) _)
          (by decide)) (by decide)) (by decide)) (by decide)) (by decide))
      (by decide)) (by decide)
  · exact notMem_pyReplaceL (notMem_pyReplaceL (notMem_pyReplaceL
      (notMem_pyReplaceL (notMem_pyReplaceL (notMem_pyReplaceL
        (pyReplaceL_single_not_mem (by decide) _) (by decide)) (by decide))
        (by decide)) (by decide)) (by decide)) (by decide)
  · exact notMem_pyReplaceL (notMem_pyReplaceL (notMem_pyReplaceL
      (notMem_pyReplaceL (notMem_pyReplaceL
        (pyReplaceL_single_not_mem (by decide) _) (by decide)) (by decide))
        (by decide)) (by decide)) (by decide)
  · exact notMem_pyReplaceL (notMem_pyReplaceL (notMem_pyReplaceL
      (notMem_pyReplaceL (pyReplaceL_single_not_mem (by decide) _)
        (by decide)) (by decide)) (by decide)) (by decide)
  · exact pyReplaceL_single_not_mem (by decide) _
  · exact notMem_pyReplaceL (notMem_pyReplaceL
      (pyReplaceL_single_not_mem (by decide) _) (by decide)) (by decide)
  · exact notMem_pyReplaceL (pyReplaceL_single_not_mem (by decide) _)
      (by decide)

lemma ampOk_entLt {t : List Char} (h : ampOk t = true) :
    ampOk (['&', 'l', 't', ';'] ++ t) = true := by
  simp only [List.cons_append, List.nil_append]
  rw [ampOk_cons]
  refine Bool.and_eq_true_iff.mpr ⟨?_, ?_⟩
  · refine Bool.or_eq_true_iff.mpr (Or.inr ?_)
    simp [bodiesPre, entityBodies, List.isPrefixOf]
  · exact ampOk_cons_nonAmp (by decide) (ampOk_cons_nonAmp (by decide)
      (ampOk_cons_nonAmp (by decide) h))

lemma ampOk_entGt {t : List Char} (h : ampOk t = true) :
    ampOk (['&', 'g', 't', ';'] ++ t) = true := by
  simp only [List.cons_append, List.nil_append]
  rw [ampOk_cons]
  refine Bool.and_eq_true_iff.mpr ⟨?_, ?_⟩
  · refine Bool.or_eq_true_iff.mpr (Or.inr ?_)
    simp [bodiesPre, entityBodies, List.isPrefixOf]
  · exact ampOk_cons_nonAmp (by decide) (ampOk_cons_nonAmp (by decide)
      (ampOk_cons_nonAmp (by decide) h))

lemma ampOk_entQuot {t : List Char} (h : ampOk t = true) :
    ampOk (['&', 'q', 'u', 'o', 't', ';'] ++ t) = true := by
  simp only [List.cons_append, List.nil_append]
  rw [ampOk_cons]
  refine Bool.and_eq_true_iff.mpr ⟨?_, ?_⟩
  · refine Bool.or_eq_true_iff.mpr (Or.inr ?_)
    simp [bodiesPre, entityBodies, List.isPrefixOf]
  · exact ampOk_cons_nonAmp (by decide) (ampOk_cons_nonAmp (by decide)
      (ampOk_cons_nonAmp (by decide) (ampOk_cons_nonAmp (by decide)
        (ampOk_cons_nonAmp (by decide) h))))

lemma ampOk_entApos {t : List Char} (h : ampOk t = true) :
    ampOk (['&', 'a', 'p', 'o', 's', ';'] ++ t) = true := by
  simp only [List.cons_append, List.nil_append]
  rw [ampOk_cons]
  refine Bool.and_eq_true_iff.mpr ⟨?_, ?_⟩
  · refine Bool.or_eq_true_iff.mpr (Or.inr ?_)
    simp [bodiesPre, entityBodies, List.isPrefixOf]
  · exact ampOk_cons_nonAmp (by decide) (ampOk_cons_nonAmp (by decide)
      (ampOk_cons_nonAmp (by decide) (ampOk_cons_nonAmp (by decide)
        (ampOk_cons_nonAmp (by decide) h))))

lemma ampOk_space {t : List Char} (h : ampOk t = true) :
    ampOk ([' '] ++ t) = true := by
  rw [List.singleton_append]
  exact ampOk_cons_nonAmp (by decide) h

lemma escapeSteps_ampOk (cs : List Char) : ampOk (escapeSteps cs) = true := by
  rw [escapeSteps_eq]
  simp only [pyReplaceL]
  apply ampOk_replLoop (by decide) (fun t ht => ampOk_space ht)
  apply ampOk_replLoop (by decide) (fun t ht => ampOk_space ht)
  apply ampOk_replLoop (by decide) (fun t ht => ampOk_space ht)
  apply ampOk_replLoop (by decide) (fun t ht => ampOk_space ht)
  apply ampOk_replLoop (by decide) (fun t ht => ampOk_entApos ht)
  apply ampOk_replLoop (by decide) (fun t ht => ampOk_entQuot ht)
  apply ampOk_replLoop (by decide) (fun t ht => ampOk_entGt ht)
  apply ampOk_replLoop (by decide) (fun t ht => ampOk_entLt ht)
  rw [replLoop_single_eq (Nat.le_succ _)]
  exact ampOk_charExpand_amp

lemma escapeCore_ampOk (cs : List Char) : ampOk (escapeCore cs) = true :=
  ampOk_pyStripL (ampOk_filter bodyChars_not_ctrl (escapeSteps_ampOk cs))

lemma char_eq_of_toNat (x c : Char) (h : x.toNat = c.toNat) : x = c :=
  Char.ext (UInt32.ext h)

lemma escapeCore_chars (cs : List Char) :
    ∀ x ∈ escapeCore cs,
      (x != '<' && x != '>' && x != '"' && x != '\'' && !isCtrlChar x) = true := by
  intro x hx
  have hf : x ∈ (escapeSteps cs).filter (fun c => !isCtrlRemoved c) :=
    mem_pyStripL hx
  have hmem : x ∈ escapeSteps cs := (List.mem_filter.mp hf).1
  have hctrlR : (!isCtrlRemoved x) = true := (List.mem_filter.mp hf).2
  obtain ⟨h1, h2, h3, h4, h5, h6, h7⟩ := escapeSteps_not_mem cs
  have b1 : (x != '<') = true := by
    simp only [bne_iff_ne, ne_eq]
    rintro rfl
    exact h1 hmem
  have b2 : (x != '>') = true := by
    simp only [bne_iff_ne, ne_eq]
    rintro rfl
    exact h2 hmem
  have b3 : (x != '"') = true := by
    simp only [bne_iff_ne, ne_eq]
    rintro rfl
    exact h3 hmem
  have b4 : (x != '\'') = true := by
    simp only [bne_iff_ne, ne_eq]
    rintro rfl
    exact h4 hmem
  have b5 : (!isCtrlChar x) = true := by
    rw [Bool.not_eq_true'] at hctrlR ⊢
    by_contra hcc
    rw [Bool.not_eq_false] at hcc
    simp only [isCtrlChar, Bool.or_eq_true, decide_eq_true_eq] at hcc
    simp only [isCtrlRemoved, Bool.or_eq_false_iff, Bool.and_eq_false_iff,
      decide_eq_false_iff_not] at hctrlR
    have h9 : x.toNat = 9 ∨ x.toNat = 10 ∨ x.toNat = 13 := by omega
    rcases h9 with h9 | h9 | h9
    · exact h5 (char_eq_of_toNat x '\t' (by rw [h9]; decide) ▸ hmem)
    · exact h6 (char_eq_of_toNat x '\n' (by rw [h9]; decide) ▸ hmem)
    · exact h7 (char_eq_of_toNat x '\r' (by rw [h9]; decide) ▸ hmem)
  simp [b1, b2, b3, b4, b5]

lemma dropWhile_headNot {p : Char → Bool} :
    ∀ {l : List Char} {c : Char} {t : List Char},
      l.dropWhile p = c :: t → p c = false := by
  intro l
  induction l with
  | nil => intro c t h; simp [List.dropWhile] at h
  | cons a l' ih =>
    intro c t h
    rw [List.dropWhile_cons] at h
    split_ifs at h with hpa
    · exact ih h
    · injection h with h1 _
      subst h1
      exact Bool.not_eq_true _ ▸ (by simpa using hpa)

lemma pyStripL_split (l : List Char) :
    pyStripL l ++ ((l.dropWhile isPySpace).reverse.takeWhile isPySpace).reverse
      = l.dropWhile isPySpace := by
  unfold pyStripL
  rw [← List.reverse_append, List.takeWhile_append_dropWhile,
    List.reverse_reverse]

lemma pyStripL_head {l : List Char} {c : Char}
    (h : (pyStripL l).head? = some c) : isPySpace c = false := by
  rcases hr : pyStripL l with _ | ⟨a, t⟩
  · rw [hr] at h
    simp at h
  · rw [hr] at h
    simp only [List.head?_cons, Option.some.injEq] at h
    subst h
    have hsp := pyStripL_split l
    rw [hr, List.cons_append] at hsp
    exact dropWhile_headNot hsp.symm

lemma pyStripL_last {l : List Char} {c : Char}
    (h : (pyStripL l).getLast? = some c) : isPySpace c = false := by
  unfold pyStripL at h
  rw [List.getLast?_reverse] at h
  rcases hr : (l.dropWhile isPySpace).reverse.dropWhile isPySpace with _ | ⟨a, t⟩
  · rw [hr] at h
    simp at h
  · rw [hr] at h
    simp only [List.head?_cons, Option.some.injEq] at h
    subst h
    exact dropWhile_headNot hr

lemma pyStripL_eq_self_of_ends {l : List Char}
    (hh : ∀ c, l.head? = some c → isPySpace c = false)
    (hl : ∀ c, l.getLast? = some c → isPySpace c = false) :
    pyStripL l = l := by
  unfold pyStripL
  have h1 : l.dropWhile isPySpace = l := by
    cases l with
    | nil => rfl
    | cons a t =>
      rw [List.dropWhile_cons, if_neg]
      simp [hh a rfl]
  rw [h1]
  have h2 : l.reverse.dropWhile isPySpace = l.reverse := by
    rcases hr : l.reverse with _ | ⟨a, t⟩
    · rfl
    · rw [List.dropWhile_cons, if_neg]
      have ha : l.getLast? = some a := by
        rw [← List.head?_reverse, hr]
        rfl
      simp [hl a ha]
  rw [h2, List.reverse_reverse]

lemma ampExpand_ne_nil (a : Char) : ampExpand a ≠ [] := by
  unfold ampExpand
  split_ifs <;> simp

lemma charExpand_getLast {x : Char} :
    ∀ {s : List Char}, (charExpand ampExpand s).getLast? = some x →
      x = ';' ∨ s.getLast? = some x := by
  intro s
  induction s with
  | nil => intro h; simp [charExpand] at h
  | cons a t ih =>
    intro h
    rw [charExpand] at h
    cases t with
    | nil =>
      rw [show charExpand ampExpand [] = [] from rfl, List.append_nil] at h
      by_cases ha : a = '&'
      · subst ha
        rw [show ampExpand '&' = ['&', 'a', 'm', 'p', ';'] from rfl] at h
        simp at h
        exact Or.inl h.symm
      · rw [ampExpand, if_neg ha] at h
        simp at h
        subst h
        exact Or.inr rfl
    | cons b t' =>
      have hne : charExpand ampExpand (b :: t') ≠ [] :=
        charExpand_ne_nil ampExpand_ne_nil (by simp)
      rw [List.getLast?_append] at h
      rcases hg : (charExpand ampExpand (b :: t')).getLast? with _ | y
      · exact absurd (List.getLast?_eq_none_iff.mp hg) hne
      · rw [hg] at h
        simp only [Option.or_some, Option.some.injEq] at h
        subst h
        rcases ih hg with h1 | h2
        · exact Or.inl h1
        · rw [List.getLast?_cons_cons]
          exact Or.inr h2

lemma isCtrlRemoved_of_not_ctrlChar {x : Char} (h : isCtrlChar x = false) :
    isCtrlRemoved x = false := by
  simp only [isCtrlChar, Bool.or_eq_false_iff, decide_eq_false_iff_not] at h
  simp only [isCtrlRemoved, Bool.or_eq_false_iff, Bool.and_eq_false_iff,
    decide_eq_false_iff_not]
  omega

/-- Re-escaping an already-escaped text only doubles the ampersands: on a
string whose characters are free of the XML specials and control characters
and whose ends are not whitespace, `escapeCore` is exactly the
`&`-to-`&amp;` expansion. -/
lemma escapeCore_of_clean {r : List Char}
    (hchars : ∀ x ∈ r,
      (x != '<' && x != '>' && x != '"' && x != '\'' && !isCtrlChar x) = true)
    (hh : ∀ c, r.head? = some c → isPySpace c = false)
    (hl : ∀ c, r.getLast? = some c → isPySpace c = false) :
    escapeCore r = charExpand ampExpand r := by
  have hcharsP : ∀ x ∈ r, x ≠ '<' ∧ x ≠ '>' ∧ x ≠ '"' ∧ x ≠ '\'' ∧
      isCtrlChar x = false := by
    intro x hx
    have := hchars x hx
    simp only [Bool.and_eq_true, bne_iff_ne, ne_eq, Bool.not_eq_true'] at this
    exact ⟨this.1.1.1.1, this.1.1.1.2, this.1.1.2, this.1.2, this.2⟩
  have hE : pyReplaceL ['&'] ['&', 'a', 'm', 'p', ';'] r =
      charExpand ampExpand r := by
    rw [pyReplaceL, replLoop_single_eq (Nat.le_succ _)]
    rfl
  have hEmem : ∀ x ∈ charExpand ampExpand r,
      x ∈ r ∨ x ∈ ['&', 'a', 'm', 'p', ';'] := by
    intro x hx
    obtain ⟨a, ha, hpiece⟩ := mem_charExpand hx
    by_cases hamp : a = '&'
    · rw [ampExpand, if_pos hamp] at hpiece
      exact Or.inr hpiece
    · rw [ampExpand, if_neg hamp] at hpiece
      rw [List.mem_singleton.mp hpiece]
      exact Or.inl ha
  have hnoChar : ∀ y : Char, y ∉ ['&', 'a', 'm', 'p', ';'] →
      (∀ x ∈ r, x ≠ y) → y ∉ charExpand ampExpand r := by
    intro y hyent hyr hy
    rcases hEmem y hy with h1 | h2
    · exact hyr y h1 rfl
    · exact hyent h2
  have hlt : '<' ∉ charExpand ampExpand r :=
    hnoChar _ (by decide) (fun x hx h => ((hcharsP x hx).1 h).elim)
  have hgt : '>' ∉ charExpand ampExpand r :=
    hnoChar _ (by decide) (fun x hx h => ((hcharsP x hx).2.1 h).elim)
  have hqu : '"' ∉ charExpand ampExpand r :=
    hnoChar _ (by decide) (fun x hx h => ((hcharsP x hx).2.2.1 h).elim)
  have hap : '\'' ∉ charExpand ampExpand r :=
    hnoChar _ (by decide) (fun x hx h => ((hcharsP x hx).2.2.2.1 h).elim)
  have hcr : '\r' ∉ charExpand ampExpand r := by
    refine hnoChar _ (by decide) (fun x hx h => ?_)
    have := (hcharsP x hx).2.2.2.2
    rw [h] at this
    exact absurd this (by decide)
  have hnl : '\n' ∉ charExpand ampExpand r := by
    refine hnoChar _ (by decide) (fun x hx h => ?_)
    have := (hcharsP x hx).2.2.2.2
    rw [h] at this
    exact absurd this (by decide)
  have htb : '\t' ∉ charExpand ampExpand r := by
    refine hnoChar _ (by decide) (fun x hx h => ?_)
    have := (hcharsP x hx).2.2.2.2
    rw [h] at this
    exact absurd this (by decide)
  have pyReplaceL_id : ∀ {c : Char} {old' new s : List Char}, c ∉ s →
      pyReplaceL (c :: old') new s = s := fun h => replLoop_id h
  unfold escapeCore
  rw [escapeSteps_eq, hE, pyReplaceL_id hlt, pyReplaceL_id hgt,
    pyReplaceL_id hqu, pyReplaceL_id hap, pyReplaceL_id hcr,
    pyReplaceL_id hnl, pyReplaceL_id hcr, pyReplaceL_id htb]
  have hfilter : (charExpand ampExpand r).filter (fun c => !isCtrlRemoved c)
      = charExpand ampExpand r := by
    refine List.filter_eq_self.mpr (fun x hx => ?_)
    rcases hEmem x hx with h1 | h2
    · rw [Bool.not_eq_true']
      exact isCtrlRemoved_of_not_ctrlChar (hcharsP x h1).2.2.2.2
    · fin_cases h2 <;> decide
  rw [hfilter]
  refine pyStripL_eq_self_of_ends (fun c hc => ?_) (fun c hc => ?_)
  · cases r with
    | nil => simp [charExpand] at hc
    | cons a t =>
      rw [charExpand] at hc
      by_cases ha : a = '&'
      · subst ha
        rw [show ampExpand '&' = ['&', 'a', 'm', 'p', ';'] from rfl] at hc
        simp only [List.cons_append, List.head?_cons, Option.some.injEq] at hc
        subst hc
        decide
      · rw [ampExpand, if_neg ha, List.singleton_append] at hc
        simp only [List.head?_cons, Option.some.injEq] at hc
        subst hc
        exact hh a rfl
  · rcases charExpand_getLast hc with h1 | h2
    · subst h1
      decide
    · exact hl c h2

lemma escape_reescape_core (L : List Char) :
    escape_xml_thoroughly (.str (String.mk (escapeCore L))) =
      String.mk (pyReplaceL ['&'] ['&', 'a', 'm', 'p', ';'] (escapeCore L)) := by
  rcases hrn : escapeCore L with _ | ⟨c0, t0⟩
  · decide
  · have hne : String.mk (c0 :: t0) ≠ "" := by
      intro h
      simpa using congrArg String.data h
    have hT2 : (JVal.str (String.mk (c0 :: t0))).truthy = true := by
      simp [JVal.truthy, hne]
    unfold escape_xml_thoroughly
    rw [if_neg (not_not_intro hT2),
      show pyStr (JVal.str (String.mk (c0 :: t0))) = String.mk (c0 :: t0)
        from rfl, toList_mk]
    have hchars : ∀ x ∈ c0 :: t0,
        (x != '<' && x != '>' && x != '"' && x != '\'' && !isCtrlChar x)
          = true := by
      intro x hx
      rw [← hrn] at hx
      exact escapeCore_chars _ x hx
    have hh : ∀ c, (c0 :: t0).head? = some c → isPySpace c = false := by
      intro c hc
      have hc2 : (escapeCore L).head? = some c := by
        rw [hrn]; exact hc
      exact pyStripL_head hc2
    have hl : ∀ c, (c0 :: t0).getLast? = some c → isPySpace c = false := by
      intro c hc
      have hc2 : (escapeCore L).getLast? = some c := by
        rw [hrn]; exact hc
      exact pyStripL_last hc2
    rw [escapeCore_of_clean hchars hh hl]
    congr 1
    rw [pyReplaceL, replLoop_single_eq (Nat.le_succ _)]
    rfl

/-- C8: for every input text, the output of `escape_xml_thoroughly` contains
no literal `<`, `>`, `"`, no control character, and every `&` occurs only as
the start of an emitted entity; escaping is not idempotent with respect to
`&`: re-escaping an already-escaped string is exactly the `&`→`&amp;`
expansion (doubling entity ampersands, leaving every other character
unchanged), and on `"<"` re-escaping visibly changes the string. -/
theorem C8_escape_xml_thoroughly (v : JVal) :
    (escape_xml_thoroughly v).toList.all
      (fun c => c != '<' && c != '>' && c != '"' && !isCtrlChar c) = true ∧
    ampOk (escape_xml_thoroughly v).toList = true ∧
    escape_xml_thoroughly (.str (escape_xml_thoroughly v)) =
      String.mk (pyReplaceL ['&'] ['&', 'a', 'm', 'p', ';']
        (escape_xml_thoroughly v).toList) ∧
    (escapeXmlStr (escapeXmlStr "<") == escapeXmlStr "<") = false := by
  by_cases hT : v.truthy = true
  · have he : escape_xml_thoroughly v = String.mk (escapeCore (pyStr v).toList) := by
      unfold escape_xml_thoroughly
      rw [if_neg (not_not_intro hT)]
    rw [he]
    refine ⟨?_, ?_, ?_, by decide⟩
    · rw [toList_mk]
      refine List.all_eq_true.mpr (fun x hx => ?_)
      have h := escapeCore_chars (pyStr v).toList x hx
      simp only [Bool.and_eq_true] at h ⊢
      exact ⟨⟨⟨h.1.1.1.1, h.1.1.1.2⟩, h.1.1.2⟩, h.2⟩
    · rw [toList_mk]
      exact escapeCore_ampOk (pyStr v).toList
    · rw [toList_mk]
      exact escape_reescape_core (pyStr v).toList
  · have he : escape_xml_thoroughly v = "" := by
      unfold escape_xml_thoroughly
      rw [if_pos hT]
    rw [he]
    exact ⟨rfl, rfl, by decide, by decide⟩

/-! ### The forward converter (`SimsamToBPMNFixed.convert`, lines 250–382) -/

/-- Outcome of loading one JSON input file: loaded value, file absent, or
unparsable JSON. -/
inductive LoadResult (α : Type) where
  | ok (v : α)
  | missing
  | unparsable

/-- The exceptions the forward converter can raise: a required file failing
to load (`open`/`json.load`), a required dict key being absent (Python
`KeyError`), or `.replace` called on a non-string connection id (Python
`AttributeError`). -/
inductive ConvErr where
  | ioError
  | keyError (k : String)
  | attrError
deriving DecidableEq

/-- Python `d[k]` on a dict: the value, or a `KeyError`. -/
def dindex (o : JObj) (k : String) : Except ConvErr JVal :=
  match dget o k with
  | some v => .ok v
  | none => .error (.keyError k)

/-- `self.type_mapping` (lines 25–30). -/
def type_mapping : List (String × String) :=
  [("Resource", "startEvent"), ("Action", "task"),
   ("Decision", "exclusiveGateway"), ("State", "endEvent")]

/-- `self.subtype_mapping` (lines 32–46). -/
def subtype_mapping : List (String × String) :=
  [("Form Incoming", "receiveTask"), ("Mail Outgoing", "sendTask"),
   ("SMS Outgoing", "sendTask"), ("Call Outgoing", "serviceTask"),
   ("Call Incoming", "receiveTask"), ("Message Outgoing", "sendTask"),
   ("Message Incoming", "receiveTask"), ("Manual Form Fillout", "userTask"),
   ("Manual Account Generation", "userTask"), ("Manual Form Update", "userTask"),
   ("Videocall", "userTask"), ("Video Incoming", "receiveTask"),
   ("Fundraising", "userTask")]

/-- Membership/lookup of a Python value among a dict's string keys: only a
string can be a key of these tables. -/
def jkeyLookup (tbl : List (String × String)) (v : JVal) : Option String :=
  match v with
  | .str s => dget tbl s
  | _ => none

/-- The BPMN tag chosen for an element (lines 300–306): the subtype mapping
wins when `subType` is a known key, else the type mapping with default
`"task"`. -/
def elementTag (element : JObj) : String :=
  let element_type := (dget element "type").getD (.str "Action")
  let subtype := (dget element "subType").getD (.str "")
  match jkeyLookup subtype_mapping subtype with
  | some t => t
  | none => (jkeyLookup type_mapping element_type).getD "task"

/-- Is a value JSON/Python `null`/`None`? -/
def jvalIsNull : JVal → Bool
  | .null => true
  | _ => false

/-- The custom properties of an element (lines 314–316): every binding whose
key is not `id`/`name`/`type`, whose value is not `None`, and whose value's
string form is non-blank. -/
def customProps (element : JObj) : List (String × JVal) :=
  element.filter (fun kv =>
    !(kv.1 == "id" || kv.1 == "name" || kv.1 == "type") &&
    !jvalIsNull kv.2 && pyStrip (pyStr kv.2) != "")

/-- Emission of one element (lines 299–337): the XML lines and the
`(element_id, bpmn_type)` info collected for the DI builder. -/
def elementEmit (element : JObj) :
    Except ConvErr (List String × (String × String)) := do
  let bpmn_type := elementTag element
  let idv ← dindex element "id"
  let element_id := make_xml_safe_id idv
  let element_name :=
    escape_xml_thoroughly ((dget element "name").getD (.str ""))
  let openLine := "    <" ++ bpmn_type ++ " id=\"" ++ element_id ++
    "\" name=\"" ++ element_name ++ "\">"
  let props := customProps element
  let propLines := props.filterMap (fun kv =>
    let safe_key := make_xml_safe_id (.str kv.1)
    let safe_value := escape_xml_thoroughly (.str (pyStr kv.2))
    if safe_value ≠ "" then
      some ("          <simsam:property name=\"" ++ safe_key ++
        "\" value=\"" ++ safe_value ++ "\" />")
    else none)
  let extLines :=
    if props.isEmpty then []
    else ["      <extensionElements>", "        <simsam:properties>"] ++
      propLines ++
      ["        </simsam:properties>", "      </extensionElements>"]
  pure (([openLine] ++ extLines ++ ["    </" ++ bpmn_type ++ ">", ""]),
    (element_id, bpmn_type))

/-- The skip test for the probability condition (line 352):
`prob is not None and str(prob).strip() not in ["", "None", "1"]`. -/
def probEmits (prob : JVal) : Bool :=
  !jvalIsNull prob && !(["", "None", "1"].contains (pyStrip (pyStr prob)))

/-- Emission of one connection (lines 343–362): the XML lines and the
`(conn_id, source_ref, target_ref)` info collected for the DI builder. -/
def connectionEmit (connection : JObj) :
    Except ConvErr (List String × (String × String × String)) := do
  let idv ← dindex connection "id"
  let idStr ← match idv with
    | .str s => Except.ok s
    | _ => Except.error ConvErr.attrError
  let conn_id := make_xml_safe_id (.str (pyReplace idStr "->" "_to_"))
  let fromv ← dindex connection "fromId"
  let source_ref := make_xml_safe_id fromv
  let tov ← dindex connection "toId"
  let target_ref := make_xml_safe_id tov
  let openLine := "    <sequenceFlow id=\"" ++ conn_id ++ "\" sourceRef=\"" ++
    source_ref ++ "\" targetRef=\"" ++ target_ref ++ "\">"
  let prob := (dget connection "probability").getD .null
  let condLines :=
    if probEmits prob then
      ["      <conditionExpression xsi:type=\"tFormalExpression\">",
       "        $\x7bMath.random() &lt;= " ++ pyStr prob ++ "\x7d",
       "      </conditionExpression>"]
    else []
  pure (([openLine] ++ condLines ++ ["    </sequenceFlow>", ""]),
    (conn_id, source_ref, target_ref))

/-! ### Layout resolver (`_layout_map`, lines 60–101) and DI builder -/

/-- Exact fractions with positive denominator, modelling Python floats by
their exact values (never normalized, so every operation is pure integer
arithmetic the kernel can evaluate). -/
structure Frac where
  num : Int
  den : Int
deriving DecidableEq

/-- Embed an integer. -/
def Frac.ofInt (n : Int) : Frac := ⟨n, 1⟩

/-- Fraction addition (no normalization). -/
def Frac.add (a b : Frac) : Frac := ⟨a.num * b.den + b.num * a.den, a.den * b.den⟩

/-- Fraction multiplication (no normalization). -/
def Frac.mul (a b : Frac) : Frac := ⟨a.num * b.num, a.den * b.den⟩

/-- Fraction division, keeping the denominator positive.  (Division by zero
never occurs in the modelled code paths: divisors are 2 and powers of 10.) -/
def Frac.div (a b : Frac) : Frac :=
  let r : Frac := ⟨a.num * b.den, a.den * b.num⟩
  if r.den < 0 then ⟨-r.num, -r.den⟩ else r

instance : Add Frac := ⟨Frac.add⟩
instance : Mul Frac := ⟨Frac.mul⟩
instance : Div Frac := ⟨Frac.div⟩

/-- Value equality of fractions (cross multiplication). -/
def fracEq (a b : Frac) : Bool := a.num * b.den = b.num * a.den

/-- Value of digit characters accumulated left to right. -/
def digitsToNat (ds : List Char) : Nat :=
  ds.foldl (fun n c => n * 10 + (c.toNat - 48)) 0

/-- Parse a decimal numeral (optional sign, digits, optional fraction,
optional exponent) into an exact fraction — the exact-value fragment of
Python `float()` (whitespace is trimmed by callers; `inf`/`nan`/underscore
forms are out of the claims' scope). -/
def ratParseL (cs : List Char) : Option Frac :=
  let p1 : Int × List Char :=
    match cs with
    | '+' :: t => (1, t)
    | '-' :: t => (-1, t)
    | t => (1, t)
  let ip := p1.2.takeWhile Char.isDigit
  let cs2 := p1.2.dropWhile Char.isDigit
  let p2 : List Char × List Char :=
    match cs2 with
    | '.' :: t => (t.takeWhile Char.isDigit, t.dropWhile Char.isDigit)
    | t => ([], t)
  if ip.isEmpty && p2.1.isEmpty then none
  else
    let scale : Int := (10 : Int) ^ p2.1.length
    let mant : Frac :=
      ⟨p1.1 * ((digitsToNat ip : Int) * scale + (digitsToNat p2.1 : Int)), scale⟩
    match p2.2 with
    | [] => some mant
    | e :: t =>
      if e = 'e' || e = 'E' then
        let p3 : Bool × List Char :=
          match t with
          | '+' :: t2 => (true, t2)
          | '-' :: t2 => (false, t2)
          | t2 => (true, t2)
        let ed := p3.2.takeWhile Char.isDigit
        let t2 := p3.2.dropWhile Char.isDigit
        if ed.isEmpty || !t2.isEmpty then none
        else
          let esc : Int := (10 : Int) ^ digitsToNat ed
          some (if p3.1 then ⟨mant.num * esc, mant.den⟩
                else ⟨mant.num, mant.den * esc⟩)
      else none

/-- `ratParseL` on a string. -/
def ratParse (s : String) : Option Frac := ratParseL s.toList

/-- Python `float(v)` on a JSON value: numbers and numeric strings parse,
booleans coerce to 0/1, everything else raises (modelled as `none`; callers
catch). -/
def pyFloatVal : JVal → Option Frac
  | .num s => ratParse s
  | .str s => ratParse (pyStrip s)
  | .bool b => some (if b then ⟨1, 1⟩ else ⟨0, 1⟩)
  | _ => none

/-- Python `a or b` on values (first truthy wins). -/
def pyOr (a b : JVal) : JVal := if a.truthy then a else b

/-- `d.get(k)` returning `None` when absent. -/
def getOrNull (o : JObj) (k : String) : JVal := (dget o k).getD .null

/-- Key-presence test (`'x' in d`). -/
def hasKey (o : JObj) (k : String) : Bool := (dget o k).isSome

/-- Extract `float(o['x']), float(o['y'])`; `none` when either float raises
(the caller's `try/except` then skips the whole entry). -/
def xyFrom (o : JObj) : Option (Frac × Frac) :=
  match pyFloatVal (getOrNull o "x"), pyFloatVal (getOrNull o "y") with
  | some xq, some yq => some (xq, yq)
  | _, _ => none

/-- The `bounds` fallback branch of the node-list loop (lines 80–84). -/
def boundsCase (o : JObj) (eid : JVal) : Option (String × Frac × Frac) :=
  match dget o "bounds" with
  | some (.obj b) =>
    if hasKey b "x" && hasKey b "y" then
      (xyFrom b).map (fun q => (pyStr eid, q.1, q.2))
    else none
  | _ => none

/-- One iteration of the node-list loop of `_layout_map` (lines 68–87):
derive an id from `id`/`key`/`elementId`, then coordinates from direct
`x`/`y`, nested `position`, or nested `bounds`; any failure inside the
`try` body skips the entry. -/
def layoutNodeEntry (n : JVal) : Option (String × Frac × Frac) :=
  match n with
  | .obj o =>
    let eid := pyOr (pyOr (getOrNull o "id") (getOrNull o "key"))
      (getOrNull o "elementId")
    if ¬ eid.truthy then none
    else if hasKey o "x" && hasKey o "y" then
      (xyFrom o).map (fun q => (pyStr eid, q.1, q.2))
    else
      match dget o "position" with
      | some (.obj p) =>
        if hasKey p "x" && hasKey p "y" then
          (xyFrom p).map (fun q => (pyStr eid, q.1, q.2))
        else boundsCase o eid
      | _ => boundsCase o eid
  | _ => none

/-- One iteration of the flat-dict fallback loop of `_layout_map`
(lines 91–100). -/
def layoutFlatEntry (v : JVal) : Option (Frac × Frac) :=
  match v with
  | .obj o =>
    if hasKey o "x" && hasKey o "y" then xyFrom o
    else
      match dget o "position" with
      | some (.obj p) => if hasKey p "x" && hasKey p "y" then xyFrom p else none
      | _ => none
  | _ => none

/-- `SimsamToBPMNFixed._layout_map` (lines 60–101): normalize heterogeneous
layout JSON into an ordered id → (x, y) map. -/
def layout_map (layout : JVal) : List (String × Frac × Frac) :=
  match layout with
  | .obj kvs =>
    let nodes := pyOr (pyOr (getOrNull kvs "nodes") (getOrNull kvs "elements"))
      (getOrNull kvs "items")
    let lm1 :=
      match nodes with
      | .arr ns =>
        ns.foldl (fun lm n =>
          match layoutNodeEntry n with
          | some kxy => dinsert kxy.1 (kxy.2.1, kxy.2.2) lm
          | none => lm) []
      | _ => []
    if lm1.isEmpty then
      kvs.foldl (fun lm kv =>
        match layoutFlatEntry kv.2 with
        | some xy => dinsert kv.1 (xy.1, xy.2) lm
        | none => lm) []
    else lm1
  | _ => []

/-- The decimal digit character for `d` (0–9). -/
def digitChar (d : Nat) : Char :=
  ['0', '1', '2', '3', '4', '5', '6', '7', '8', '9'].getD d '0'

/-- Decimal digits of a natural number (fuel-structured so the kernel can
evaluate it; fuel `≥ n + 1` suffices). -/
def natDigits : Nat → Nat → List Char
  | 0, _ => []
  | f + 1, n =>
    if n < 10 then [digitChar n]
    else natDigits f (n / 10) ++ [digitChar (n % 10)]

/-- Round a fraction (positive denominator) to the nearest integer, ties to
even, in pure integer arithmetic. -/
def roundHalfEven (q : Frac) : Int :=
  let fl := q.num.fdiv q.den
  let rem := q.num - fl * q.den
  if 2 * rem < q.den then fl
  else if q.den < 2 * rem then fl + 1
  else if fl % 2 = 0 then fl else fl + 1

/-- Python's `f'{x:.1f}'` on an exact fraction: round to tenths
(half-to-even) and print with one decimal digit. -/
def fmt1 (q : Frac) : String :=
  let n := roundHalfEven ⟨q.num * 10, q.den⟩
  let m := n.natAbs
  (if n < 0 then "-" else "") ++ String.mk (natDigits (m / 10 + 1) (m / 10)) ++
    "." ++ String.mk [digitChar (m % 10)]

/-- `size_map` of `_build_di` (lines 105–114). -/
def sizeMap : List (String × (Frac × Frac)) :=
  [("startEvent", (⟨36, 1⟩, ⟨36, 1⟩)), ("endEvent", (⟨36, 1⟩, ⟨36, 1⟩)),
   ("exclusiveGateway", (⟨50, 1⟩, ⟨50, 1⟩)), ("task", (⟨100, 1⟩, ⟨80, 1⟩)),
   ("userTask", (⟨100, 1⟩, ⟨80, 1⟩)), ("serviceTask", (⟨100, 1⟩, ⟨80, 1⟩)),
   ("sendTask", (⟨100, 1⟩, ⟨80, 1⟩)), ("receiveTask", (⟨100, 1⟩, ⟨80, 1⟩))]

/-- Fuel-counted search for the least `k` with `n ≤ k * k`. -/
def ceilSqrtLoop (n : Nat) : Nat → Nat → Nat
  | 0, k => k
  | f + 1, k => if n ≤ k * k then k else ceilSqrtLoop n f (k + 1)

/-- `math.ceil(math.sqrt n)` on naturals — the least `k` with `k * k ≥ n`
(exact; the float detour of the source cannot differ on the diagram sizes in
scope). -/
def ceilSqrt (n : Nat) : Nat := ceilSqrtLoop n (n + 1) 0

/-- The fallback-grid position for the element at `idx` (lines 134–138):
column/row on a `cols`-wide grid with 200×150 spacing and origin
(100, 100). -/
def gridPos (cols idx : Nat) : Frac × Frac :=
  (⟨100 + ((idx % cols : Nat) : Int) * 200, 1⟩,
   ⟨100 + ((idx / cols : Nat) : Int) * 150, 1⟩)

/-- The `(x, y)` assigned to one element by `_build_di` (lines 126–138):
the layout position when the id is in the resolved map, else the grid
fallback. -/
def diPos (lmap : List (String × Frac × Frac)) (cols idx : Nat) (eid : String) :
    Frac × Frac :=
  match dget lmap eid with
  | some q => (q.1, q.2)
  | none => gridPos cols idx

/-- The `cols` of the fallback grid (line 120):
`max(1, math.ceil(math.sqrt(max(1, n))))`. -/
def diCols (n : Nat) : Nat := max 1 (ceilSqrt (max 1 n))

/-- One loop iteration of the bounds assignment (lines 126–140): the
`(x, y, w, h)` computed for the enumerated element `p`. -/
def diEntry (lmap : List (String × Frac × Frac)) (cols : Nat)
    (p : Nat × (String × String)) : Frac × Frac × Frac × Frac :=
  let wh := (dget sizeMap p.2.2).getD (⟨100, 1⟩, ⟨80, 1⟩)
  let xy := diPos lmap cols p.1 p.2.1
  (xy.1, xy.2, wh.1, wh.2)

/-- The `bounds` dict of `_build_di` (lines 124–140): ordered map from
element id to `(x, y, w, h)`. -/
def diBounds (element_infos : List (String × String)) (layout : JVal) :
    List (String × (Frac × Frac × Frac × Frac)) :=
  let lmap := layout_map layout
  let cols := diCols element_infos.length
  element_infos.enum.foldl (fun bounds p =>
    dinsert p.2.1 (diEntry lmap cols p) bounds) []

/-- `SimsamToBPMNFixed._build_di` (lines 103–171): the DI section lines. -/
def build_di (element_infos : List (String × String))
    (connection_infos : List (String × String × String)) (layout : JVal) :
    List String :=
  let bounds := diBounds element_infos layout
  let shapeLines := (bounds.map (fun kv =>
    ["      <bpmndi:BPMNShape id=\"DI_" ++ kv.1 ++ "\" bpmnElement=\"" ++
       kv.1 ++ "\">",
     "        <dc:Bounds x=\"" ++ fmt1 kv.2.1 ++ "\" y=\"" ++ fmt1 kv.2.2.1 ++
       "\" width=\"" ++ fmt1 kv.2.2.2.1 ++ "\" height=\"" ++
       fmt1 kv.2.2.2.2 ++ "\" />",
     "      </bpmndi:BPMNShape>"])).flatten
  let edgeLines := (connection_infos.filterMap (fun ci =>
    match dget bounds ci.2.1, dget bounds ci.2.2 with
    | some s, some t =>
      some ["      <bpmndi:BPMNEdge id=\"DI_" ++ ci.1 ++ "\" bpmnElement=\"" ++
              ci.1 ++ "\">",
            "        <di:waypoint x=\"" ++ fmt1 (s.1 + s.2.2.1 / ⟨2, 1⟩) ++
              "\" y=\"" ++ fmt1 (s.2.1 + s.2.2.2 / ⟨2, 1⟩) ++ "\" />",
            "        <di:waypoint x=\"" ++ fmt1 (t.1 + t.2.2.1 / ⟨2, 1⟩) ++
              "\" y=\"" ++ fmt1 (t.2.1 + t.2.2.2 / ⟨2, 1⟩) ++ "\" />",
            "      </bpmndi:BPMNEdge>"]
    | _, _ => none)).flatten
  ["  <bpmndi:BPMNDiagram id=\"BPMNDiagram_1\">",
   "    <bpmndi:BPMNPlane id=\"BPMNPlane_1\" bpmnElement=\"Process_simsam\">"] ++
  shapeLines ++ edgeLines ++
  ["    </bpmndi:BPMNPlane>", "  </bpmndi:BPMNDiagram>"]

/-- The constant header of the emitted document (lines 281–293). -/
def headerLines : List String :=
  ["<?xml version=\"1.0\" encoding=\"UTF-8\"?>",
   "<definitions xmlns=\"http://www.omg.org/spec/BPMN/20100524/MODEL\"",
   "  xmlns:bpmndi=\"http://www.omg.org/spec/BPMN/20100524/DI\"",
   "  xmlns:dc=\"http://www.omg.org/spec/DD/20100524/DC\"",
   "  xmlns:di=\"http://www.omg.org/spec/DD/20100524/DI\"",
   "  xmlns:simsam=\"http://simsam.process/extension\"",
   "  xmlns:xsi=\"http://www.w3.org/2001/XMLSchema-instance\"",
   "  id=\"Definitions_simsam\"",
   "  targetNamespace=\"http://bpmn.io/schema/bpmn\">",
   "",
   "  <process id=\"Process_simsam\" isExecutable=\"false\">"]

/-- Sequential per-record processing: stop at the first exception, as the
source's `for` loops do. -/
def mapExcept {α β : Type} (f : α → Except ConvErr β) :
    List α → Except ConvErr (List β)
  | [] => .ok []
  | x :: rest => do
    let y ← f x
    let ys ← mapExcept f rest
    pure (y :: ys)

/-- The in-memory body of `convert` (lines 281–371): all emitted XML lines,
or the first exception raised while iterating elements then connections. -/
def convertCore (elements connections : List JObj) (layout : JVal) :
    Except ConvErr (List String) := do
  let elemPairs ← mapExcept elementEmit elements
  let connPairs ← mapExcept connectionEmit connections
  let element_infos := elemPairs.map (·.2)
  let connection_infos := connPairs.map (·.2)
  pure (headerLines ++ (elemPairs.map (·.1)).flatten ++
    (connPairs.map (·.1)).flatten ++ ["  </process>"] ++
    build_di element_infos connection_infos layout ++ ["</definitions>"])

/-- `SimsamToBPMNFixed.convert` (lines 250–382) up to file writing: the
required elements/connections files must load (else the error propagates),
the optional variables/layout files fall back to `{}` on any failure, then
the XML lines are produced.  The `variables` input is loaded but never used
by the source. -/
def convert (elementsF connectionsF : LoadResult (List JObj))
    (variablesF layoutF : LoadResult JVal) : Except ConvErr (List String) :=
  match elementsF with
  | .ok elements =>
    match connectionsF with
    | .ok connections =>
      let _variables : JVal :=
        match variablesF with
        | .ok v => v
        | _ => .obj []
      let layout : JVal :=
        match layoutF with
        | .ok v => v
        | _ => .obj []
      convertCore elements connections layout
    | _ => .error .ioError
  | _ => .error .ioError

/-! ### Claim C2: the concrete four-element scenario -/

/-- Contiguous-sublist test. -/
def listInfix {α : Type} [BEq α] (sub : List α) : List α → Bool
  | [] => sub.isEmpty
  | c :: rest => sub.isPrefixOf (c :: rest) || listInfix sub rest

/-- Number of emitted lines containing the given substring. -/
def countContain (sub : String) (lines : List String) : Nat :=
  (lines.filter (fun l => listInfix sub.toList l.toList)).length

/-- The four elements of the spec's scenario. -/
def scenarioElements : List JObj :=
  [[("id", .str "E1"), ("type", .str "Resource")],
   [("id", .str "A1"), ("type", .str "Action"), ("subType", .str "Mail Outgoing")],
   [("id", .str "D1"), ("type", .str "Decision")],
   [("id", .str "S1"), ("type", .str "State")]]

/-- The three connections of the spec's scenario. -/
def scenarioConnections : List JObj :=
  [[("id", .str "E1->A1"), ("fromId", .str "E1"), ("toId", .str "A1")],
   [("id", .str "A1->D1"), ("fromId", .str "A1"), ("toId", .str "D1"),
    ("probability", .num "0.5")],
   [("id", .str "D1->S1"), ("fromId", .str "D1"), ("toId", .str "S1")]]

/-- The lines the converter emits for the scenario. -/
def scenarioLines : List String :=
  ((convert (.ok scenarioElements) (.ok scenarioConnections)
    .missing .missing).toOption).getD []

set_option maxRecDepth 100000 in
/-- C2: on the scenario input, the converter maps the four elements to the
tags `startEvent`, `sendTask`, `exclusiveGateway`, `endEvent` respectively,
emits exactly 3 `sequenceFlow` entries, exactly one `conditionExpression`
(inside the `A1->D1` flow), and a DI section with exactly 4 `BPMNShape` and
3 `BPMNEdge` entries. -/
theorem C2_scenario :
    (convert (.ok scenarioElements) (.ok scenarioConnections) .missing
      .missing).toOption = some scenarioLines ∧
    elementTag [("id", .str "E1"), ("type", .str "Resource")] = "startEvent" ∧
    elementTag [("id", .str "A1"), ("type", .str "Action"),
      ("subType", .str "Mail Outgoing")] = "sendTask" ∧
    elementTag [("id", .str "D1"), ("type", .str "Decision")]
      = "exclusiveGateway" ∧
    elementTag [("id", .str "S1"), ("type", .str "State")] = "endEvent" ∧
    scenarioLines.contains "    <startEvent id=\"E1\" name=\"\">" = true ∧
    scenarioLines.contains "    <sendTask id=\"A1\" name=\"\">" = true ∧
    scenarioLines.contains "    <exclusiveGateway id=\"D1\" name=\"\">" = true ∧
    scenarioLines.contains "    <endEvent id=\"S1\" name=\"\">" = true ∧
    countContain "<sequenceFlow " scenarioLines = 3 ∧
    countContain "<conditionExpression" scenarioLines = 1 ∧
    listInfix
     ["    <sequenceFlow id=\"A1_to_D1\" sourceRef=\"A1\" targetRef=\"D1\">",
      "      <conditionExpression xsi:type=\"tFormalExpression\">",
     "        $\x7bMath.random() &lt;= 0.5\x7d",
     "      </conditionExpression>",
     "    </sequenceFlow>"] scenarioLines = true ∧
    countContain "<bpmndi:BPMNShape" scenarioLines = 4 ∧
    countContain "<bpmndi:BPMNEdge" scenarioLines = 3 := by
  decide

/-! ### Claim C9: grid fallback positions in the DI builder -/

lemma le_ceilSqrtLoop (n : Nat) : ∀ f k, k ≤ ceilSqrtLoop n f k := by
  intro f
  induction f with
  | zero => intro k; exact Nat.le_refl k
  | succ f ih =>
    intro k
    rw [ceilSqrtLoop]
    split_ifs with h
    · exact Nat.le_refl k
    · exact Nat.le_trans (Nat.le_succ k) (ih (k + 1))

lemma one_le_ceilSqrt {n : Nat} (h : 1 ≤ n) : 1 ≤ ceilSqrt n := by
  unfold ceilSqrt
  rcases n with _ | m
  · omega
  · rw [ceilSqrtLoop, if_neg (by simp)]
    exact le_ceilSqrtLoop _ _ _

lemma diCols_eq {n : Nat} (h : 1 ≤ n) : diCols n = ceilSqrt n := by
  unfold diCols
  rw [Nat.max_eq_right h, Nat.max_eq_right (one_le_ceilSqrt h)]

lemma dget_cons {α : Type} (k1 : String) (v1 : α) (l : List (String × α))
    (k : String) :
    dget ((k1, v1) :: l) k = if k1 = k then some v1 else dget l k := by
  simp only [dget, List.find?]
  by_cases h : k1 = k
  · simp [h]
  · simp [h]

lemma dget_append {α : Type} (l1 l2 : List (String × α)) (k : String) :
    dget (l1 ++ l2) k = ((dget l1 k).or (dget l2 k)) := by
  induction l1 with
  | nil => simp [dget]
  | cons q rest ih =>
    rw [List.cons_append, show q = (q.1, q.2) from rfl, dget_cons, dget_cons]
    split_ifs with h
    · rfl
    · rw [ih]

lemma dget_none_key {α : Type} :
    ∀ {l : List (String × α)} {k : String}, dget l k = none →
      ∀ p ∈ l, p.1 ≠ k := by
  intro l
  induction l with
  | nil => intro k _ p hp; simp at hp
  | cons q rest ih =>
    intro k h p hp
    rw [show q = (q.1, q.2) from rfl, dget_cons] at h
    by_cases hqk : q.1 = k
    · rw [if_pos hqk] at h
      exact Option.noConfusion h
    · rw [if_neg hqk] at h
      rcases List.mem_cons.mp hp with rfl | hp2
      · exact hqk
      · exact ih h p hp2

lemma dinsert_fresh {α : Type} (v : α) :
    ∀ {l : List (String × α)} {k : String}, dget l k = none →
      dinsert k v l = l ++ [(k, v)] := by
  intro l
  induction l with
  | nil => intro k _; rfl
  | cons q rest ih =>
    intro k h
    have hk : q.1 ≠ k := dget_none_key h q (List.mem_cons_self q rest)
    have hrest : dget rest k = none := by
      rw [show q = (q.1, q.2) from rfl, dget_cons, if_neg hk] at h
      exact h
    rw [show q = (q.1, q.2) from rfl]
    simp only [dinsert]
    rw [if_neg hk, List.cons_append, ih hrest]

lemma dget_of_mem_nodup {α : Type} {l : List (String × α)} {k : String} {v : α}
    (hnd : (l.map Prod.fst).Nodup) (hmem : (k, v) ∈ l) : dget l k = some v := by
  induction l with
  | nil => simp at hmem
  | cons q rest ih =>
    rw [List.map_cons, List.nodup_cons] at hnd
    rcases List.mem_cons.mp hmem with rfl | hmem'
    · rw [dget_cons, if_pos rfl]
    · rw [show q = (q.1, q.2) from rfl, dget_cons]
      have hne : q.1 ≠ k := by
        intro he
        exact hnd.1 (he ▸ (List.mem_map.mpr ⟨(k, v), hmem', rfl⟩))
      rw [if_neg hne]
      exact ih hnd.2 hmem'

lemma foldl_dinsert_eq_append {β : Type}
    (key : Nat × (String × String) → String)
    (f : Nat × (String × String) → β) :
    ∀ (l : List (Nat × (String × String))) (acc : List (String × β)),
      (∀ p ∈ l, dget acc (key p) = none) →
      List.Pairwise (fun p q => key p ≠ key q) l →
      l.foldl (fun b p => dinsert (key p) (f p) b) acc =
        acc ++ l.map (fun p => (key p, f p)) := by
  intro l
  induction l with
  | nil => intro acc _ _; simp
  | cons p rest ih =>
    intro acc hfresh hpw
    rw [List.foldl_cons, dinsert_fresh (f p) (hfresh p (List.mem_cons_self p rest)),
      ih (acc ++ [(key p, f p)]) ?_ (List.Pairwise.of_cons hpw)]
    · simp
    · intro q hq
      rw [dget_append, hfresh q (List.mem_cons_of_mem p hq)]
      have hne : key p ≠ key q := (List.pairwise_cons.mp hpw).1 q hq
      rw [dget_cons, if_neg hne]
      rfl

lemma enum_pairwise_keys {infos : List (String × String)}
    (hnd : (infos.map Prod.fst).Nodup) :
    List.Pairwise (fun p q : Nat × (String × String) => p.2.1 ≠ q.2.1)
      infos.enum := by
  rw [← List.enum_map_snd infos, List.map_map] at hnd
  exact List.pairwise_map.mp hnd

lemma diBounds_eq {infos : List (String × String)} (layout : JVal)
    (hnd : (infos.map Prod.fst).Nodup) :
    diBounds infos layout = infos.enum.map (fun p =>
      (p.2.1, diEntry (layout_map layout) (diCols infos.length) p)) := by
  unfold diBounds
  exact foldl_dinsert_eq_append (fun p => p.2.1)
    (diEntry (layout_map layout) (diCols infos.length)) infos.enum []
    (fun p _ => rfl) (enum_pairwise_keys hnd)

lemma dget_diBounds {infos : List (String × String)} {layout : JVal}
    {i : Nat} {e : String × String}
    (hnd : (infos.map Prod.fst).Nodup) (hi : infos[i]? = some e) :
    dget (diBounds infos layout) e.1 =
      some (diEntry (layout_map layout) (diCols infos.length) (i, e)) := by
  rw [diBounds_eq layout hnd]
  apply dget_of_mem_nodup
  · rw [List.map_map]
    exact List.pairwise_map.mpr (enum_pairwise_keys hnd)
  · exact List.mem_map.mpr ⟨(i, e), List.mk_mem_enum_iff_getElem?.mpr hi, rfl⟩

lemma gridPos_inj {c i j : Nat} (h : gridPos c i = gridPos c j) : i = j := by
  unfold gridPos at h
  rw [Prod.mk.injEq, Frac.mk.injEq, Frac.mk.injEq] at h
  obtain ⟨⟨h1, _⟩, h2, _⟩ := h
  have hm : i % c = j % c := by omega
  have hd : i / c = j / c := by omega
  have hi := Nat.div_add_mod i c
  have hj := Nat.div_add_mod j c
  rw [hm, hd] at hi
  omega

/-- C9: in the DI builder, every element whose id is not in the resolved
layout map is assigned the grid fallback position (column = index mod ⌈√N⌉,
row = index div ⌈√N⌉, 200×150 spacing, origin (100, 100)) together with its
tag-determined size — no second element required — and, moreover, no other
unlocated element ever receives the same (x, y). -/
theorem C9_di_grid_fallback (infos : List (String × String)) (layout : JVal)
    (i : Nat) (ei : String × String)
    (hnd : (infos.map Prod.fst).Nodup)
    (hi : infos[i]? = some ei)
    (hmi : dget (layout_map layout) ei.1 = none) :
    dget (diBounds infos layout) ei.1 = some
      (⟨100 + ((i % ceilSqrt infos.length : Nat) : Int) * 200, 1⟩,
       ⟨100 + ((i / ceilSqrt infos.length : Nat) : Int) * 150, 1⟩,
       ((dget sizeMap ei.2).getD (⟨100, 1⟩, ⟨80, 1⟩)).1,
       ((dget sizeMap ei.2).getD (⟨100, 1⟩, ⟨80, 1⟩)).2) ∧
    (∀ j ej, infos[j]? = some ej →
      dget (layout_map layout) ej.1 = none → i ≠ j →
      ∀ bi bj, dget (diBounds infos layout) ei.1 = some bi →
        dget (diBounds infos layout) ej.1 = some bj →
        (bi.1, bi.2.1) ≠ (bj.1, bj.2.1)) := by
  have hN : 1 ≤ infos.length := by
    rcases List.getElem?_eq_some_iff.mp hi with ⟨hlt, _⟩
    omega
  have hcols : diCols infos.length = ceilSqrt infos.length := diCols_eq hN
  have hvi : dget (diBounds infos layout) ei.1 =
      some (diEntry (layout_map layout) (diCols infos.length) (i, ei)) :=
    dget_diBounds hnd hi
  have hEi : diEntry (layout_map layout) (diCols infos.length) (i, ei) =
      (⟨100 + ((i % ceilSqrt infos.length : Nat) : Int) * 200, 1⟩,
       ⟨100 + ((i / ceilSqrt infos.length : Nat) : Int) * 150, 1⟩,
       ((dget sizeMap ei.2).getD (⟨100, 1⟩, ⟨80, 1⟩)).1,
       ((dget sizeMap ei.2).getD (⟨100, 1⟩, ⟨80, 1⟩)).2) := by
    unfold diEntry diPos
    rw [hmi, hcols]
    rfl
  refine ⟨by rw [hvi, hEi], ?_⟩
  intro j ej hj hmj hij bi bj hbi hbj hxy
  have hvj : dget (diBounds infos layout) ej.1 =
      some (diEntry (layout_map layout) (diCols infos.length) (j, ej)) :=
    dget_diBounds hnd hj
  rw [hvi] at hbi
  rw [hvj] at hbj
  injection hbi with hbi2
  injection hbj with hbj2
  subst hbi2
  subst hbj2
  have hgi : ((diEntry (layout_map layout) (diCols infos.length) (i, ei)).1,
      (diEntry (layout_map layout) (diCols infos.length) (i, ei)).2.1) =
      gridPos (diCols infos.length) i := by
    simp only [diEntry, diPos]
    rw [hmi]
  have hgj : ((diEntry (layout_map layout) (diCols infos.length) (j, ej)).1,
      (diEntry (layout_map layout) (diCols infos.length) (j, ej)).2.1) =
      gridPos (diCols infos.length) j := by
    simp only [diEntry, diPos]
    rw [hmj]
  rw [hgi, hgj] at hxy
  exact hij (gridPos_inj hxy)

/-- Witness for C9 at a singleton input with empty layout: the sole
element, with no partner, already receives the grid origin with the task
size. -/
theorem C9_di_grid_fallback_witness :
    dget (diBounds [("a", "task")] (.obj [])) "a" =
      some (⟨100, 1⟩, ⟨100, 1⟩, ⟨100, 1⟩, ⟨80, 1⟩) := by
  obtain ⟨h1, _⟩ := C9_di_grid_fallback [("a", "task")] (.obj [])
    0 ("a", "task") (by decide) (by decide) (by decide)
  rw [h1]
  decide

/-! ### Claim C4: when the forward converter raises -/

lemma mapExcept_step {α β : Type} (f : α → Except ConvErr β) (a : α)
    (rest : List α) :
    mapExcept f (a :: rest) =
      match f a with
      | .error e => .error e
      | .ok y =>
        match mapExcept f rest with
        | .error e => .error e
        | .ok ys => .ok (y :: ys) := by
  show (do
      let y ← f a
      let ys ← mapExcept f rest
      pure (y :: ys) : Except ConvErr (List β)) = _
  rcases f a with e | y
  · rfl
  · rcases mapExcept f rest with e | ys <;> rfl

/-! ### The XML layer: document trees, as `xml.etree.ElementTree` sees them

The text emitted by `convert` denotes a tree; attribute values and text are
stored exactly as written (escaped), and the accessors used by the reverse
converter unescape entities as ElementTree's parser does.  Namespace
resolution is modelled by the literal prefixed tag names the converter
emits (`process`, `bpmndi:BPMNShape`, …), with the default namespace mapped
to the un-prefixed name. -/
inductive XNode where
  | node (tag : String) (attrs : List (String × String)) (text : Option String)
      (children : List XNode)

/-- Tag of a node. -/
def XNode.tag : XNode → String
  | .node t _ _ _ => t

/-- Raw attributes of a node. -/
def XNode.attrs : XNode → List (String × String)
  | .node _ a _ _ => a

/-- Raw text content of a node. -/
def XNode.text : XNode → Option String
  | .node _ _ t _ => t

/-- Children of a node. -/
def XNode.children : XNode → List XNode
  | .node _ _ _ c => c

/-- Entity unescaping performed by the XML parser on attribute values and
text (the five entities the converter's escaping can produce; other
references are outside the emitted language). -/
def xmlUnescapeL : List Char → List Char
  | [] => []
  | '&' :: 'a' :: 'm' :: 'p' :: ';' :: t => '&' :: xmlUnescapeL t
  | '&' :: 'l' :: 't' :: ';' :: t => '<' :: xmlUnescapeL t
  | '&' :: 'g' :: 't' :: ';' :: t => '>' :: xmlUnescapeL t
  | '&' :: 'q' :: 'u' :: 'o' :: 't' :: ';' :: t => '"' :: xmlUnescapeL t
  | '&' :: 'a' :: 'p' :: 'o' :: 's' :: ';' :: t => '\'' :: xmlUnescapeL t
  | c :: t => c :: xmlUnescapeL t

/-- `el.get(attr)`: parsed (unescaped) attribute value. -/
def getAttr (n : XNode) (k : String) : Option String :=
  (dget n.attrs k).map (fun v => String.mk (xmlUnescapeL v.toList))

/-- `el.text`: parsed (unescaped) text content. -/
def XNode.textVal (n : XNode) : Option String :=
  n.text.map (fun v => String.mk (xmlUnescapeL v.toList))

/-- `el.find(tag)` over direct children. -/
def findTag (tag : String) (l : List XNode) : Option XNode :=
  l.find? (fun n => n.tag = tag)

/-- `el.findall(tag)` over direct children. -/
def findallTag (tag : String) (l : List XNode) : List XNode :=
  l.filter (fun n => n.tag = tag)

/-! ### Forward converter at tree level: the document denoted by `convert` -/

/-- The element node emitted by lines 299–337, with its DI info. -/
def elementNodeEmit (element : JObj) :
    Except ConvErr (XNode × (String × String)) := do
  let bpmn_type := elementTag element
  let idv ← dindex element "id"
  let element_id := make_xml_safe_id idv
  let element_name :=
    escape_xml_thoroughly ((dget element "name").getD (.str ""))
  let props := customProps element
  let propNodes := props.filterMap (fun kv =>
    let safe_key := make_xml_safe_id (.str kv.1)
    let safe_value := escape_xml_thoroughly (.str (pyStr kv.2))
    if safe_value ≠ "" then
      some (XNode.node "simsam:property"
        [("name", safe_key), ("value", safe_value)] none [])
    else none)
  let children :=
    if props.isEmpty then []
    else [XNode.node "extensionElements" [] none
      [XNode.node "simsam:properties" [] none propNodes]]
  pure (XNode.node bpmn_type
    [("id", element_id), ("name", element_name)] none children,
    (element_id, bpmn_type))

/-- The sequenceFlow node emitted by lines 343–362, with its DI info.  The
condition text is stored with the surrounding line whitespace the emitted
XML carries. -/
def connectionNodeEmit (connection : JObj) :
    Except ConvErr (XNode × (String × String × String)) := do
  let idv ← dindex connection "id"
  let idStr ← match idv with
    | .str s => Except.ok s
    | _ => Except.error ConvErr.attrError
  let conn_id := make_xml_safe_id (.str (pyReplace idStr "->" "_to_"))
  let fromv ← dindex connection "fromId"
  let source_ref := make_xml_safe_id fromv
  let tov ← dindex connection "toId"
  let target_ref := make_xml_safe_id tov
  let prob := (dget connection "probability").getD .null
  let condChildren :=
    if probEmits prob then
      [XNode.node "conditionExpression" [("xsi:type", "tFormalExpression")]
        (some ("\n        $\x7bMath.random() &lt;= " ++ pyStr prob ++
          "\x7d\n      ")) []]
    else []
  pure (XNode.node "sequenceFlow"
    [("id", conn_id), ("sourceRef", source_ref), ("targetRef", target_ref)]
    none condChildren,
    (conn_id, source_ref, target_ref))

/-- One DI shape node (lines 147–150). -/
def diShapeNode (kv : String × (Frac × Frac × Frac × Frac)) : XNode :=
  .node "bpmndi:BPMNShape" [("id", "DI_" ++ kv.1), ("bpmnElement", kv.1)] none
    [.node "dc:Bounds"
      [("x", fmt1 kv.2.1), ("y", fmt1 kv.2.2.1),
       ("width", fmt1 kv.2.2.2.1), ("height", fmt1 kv.2.2.2.2)] none []]

/-- One DI edge node (lines 153–167), when both endpoints have bounds. -/
def diEdgeNode (bounds : List (String × (Frac × Frac × Frac × Frac)))
    (ci : String × String × String) : Option XNode :=
  match dget bounds ci.2.1, dget bounds ci.2.2 with
  | some s, some t =>
    some (.node "bpmndi:BPMNEdge"
      [("id", "DI_" ++ ci.1), ("bpmnElement", ci.1)] none
      [.node "di:waypoint"
        [("x", fmt1 (s.1 + s.2.2.1 / ⟨2, 1⟩)),
         ("y", fmt1 (s.2.1 + s.2.2.2 / ⟨2, 1⟩))] none [],
       .node "di:waypoint"
        [("x", fmt1 (t.1 + t.2.2.1 / ⟨2, 1⟩)),
         ("y", fmt1 (t.2.1 + t.2.2.2 / ⟨2, 1⟩))] none []])
  | _, _ => none

/-- The DI section as a tree (`_build_di`). -/
def diTree (element_infos : List (String × String))
    (connection_infos : List (String × String × String)) (layout : JVal) :
    XNode :=
  let bounds := diBounds element_infos layout
  .node "bpmndi:BPMNDiagram" [("id", "BPMNDiagram_1")] none
    [.node "bpmndi:BPMNPlane"
      [("id", "BPMNPlane_1"), ("bpmnElement", "Process_simsam")] none
      (bounds.map diShapeNode ++ connection_infos.filterMap (diEdgeNode bounds))]

/-- The attributes of the `definitions` root (lines 283–290). -/
def definitionsAttrs : List (String × String) :=
  [("xmlns", "http://www.omg.org/spec/BPMN/20100524/MODEL"),
   ("xmlns:bpmndi", "http://www.omg.org/spec/BPMN/20100524/DI"),
   ("xmlns:dc", "http://www.omg.org/spec/DD/20100524/DC"),
   ("xmlns:di", "http://www.omg.org/spec/DD/20100524/DI"),
   ("xmlns:simsam", "http://simsam.process/extension"),
   ("xmlns:xsi", "http://www.w3.org/2001/XMLSchema-instance"),
   ("id", "Definitions_simsam"),
   ("targetNamespace", "http://bpmn.io/schema/bpmn")]

/-- The document tree denoted by the XML text `convert` emits (same
sub-computations, assembled structurally instead of as lines). -/
def convertTree (elements connections : List JObj) (layout : JVal) :
    Except ConvErr XNode := do
  let elemPairs ← mapExcept elementNodeEmit elements
  let connPairs ← mapExcept connectionNodeEmit connections
  let element_infos := elemPairs.map (·.2)
  let connection_infos := connPairs.map (·.2)
  pure (.node "definitions" definitionsAttrs none
    [.node "process" [("id", "Process_simsam"), ("isExecutable", "false")] none
      (elemPairs.map (·.1) ++ connPairs.map (·.1)),
     diTree element_infos connection_infos layout])

/-! ### Reverse converter (`convert_bpmn_to_json`, lines 384–526) -/

/-- Values in the reconstructed JSON records (after the read-back type
coercion: string, int, float, bool, null). -/
inductive RVal where
  | str (s : String)
  | int (n : Int)
  | float (q : Frac)
  | bool (b : Bool)
  | null
deriving DecidableEq

/-- Python `int(v)` on an already-stripped string: optional sign and at
least one digit (underscore forms are out of the claims' scope). -/
def intParse (s : String) : Option Int :=
  let p1 : Bool × List Char :=
    match s.toList with
    | '+' :: t => (true, t)
    | '-' :: t => (false, t)
    | t => (true, t)
  if p1.2.isEmpty || !p1.2.all Char.isDigit then none
  else some (if p1.1 then (digitsToNat p1.2 : Int) else -(digitsToNat p1.2 : Int))

/-- ASCII lower-casing, as `str.lower()` behaves on the tokens compared
here. -/
def asciiLower (s : String) : String := String.mk (s.toList.map Char.toLower)

/-- The value coercion of `_parse_simsam_properties` (lines 229–247):
`"true"`/`"false"` to booleans, `"none"`/`"null"` to null, numeric-looking
text to int or float (float only when a dot is present), everything else
kept as the original string. -/
def coerceProp (value : String) : RVal :=
  let v := pyStrip value
  if asciiLower v = "true" then .bool true
  else if asciiLower v = "false" then .bool false
  else if asciiLower v = "none" || asciiLower v = "null" then .null
  else if v.toList.contains '.' then
    match ratParse v with
    | some q => .float q
    | none => .str value
  else
    match intParse v with
    | some n => .int n
    | none => .str value

/-- `SimsamToBPMNFixed._parse_simsam_properties` (lines 213–248) over a
tree node: the ordered name → coerced-value map of the element's simsam
extension properties. -/
def parse_simsam_properties (el : XNode) : List (String × RVal) :=
  match findTag "extensionElements" el.children with
  | none => []
  | some ext =>
    match findTag "simsam:properties" ext.children with
    | none => []
    | some props_el =>
      (findallTag "simsam:property" props_el.children).foldl (fun props p =>
        match getAttr p "name" with
        | none => props
        | some name =>
          match getAttr p "value" with
          | some value => dinsert name (coerceProp value) props
          | none => dinsert name .null props) []

/-- The reverse tag mapping (lines 417–426). -/
def bpmn_to_type : List (String × String) :=
  [("startEvent", "Resource"), ("endEvent", "State"),
   ("exclusiveGateway", "Decision"), ("task", "Action"),
   ("userTask", "Action"), ("serviceTask", "Action"),
   ("sendTask", "Action"), ("receiveTask", "Action")]

/-- The fixed scan order of the reverse converter (line 430). -/
def element_tags : List String :=
  ["startEvent", "endEvent", "exclusiveGateway", "task", "userTask",
   "serviceTask", "sendTask", "receiveTask"]

/-- `self.element_schema` (lines 49–54), including the trailing
carriage-return artifact of the last field name. -/
def element_schema : List String :=
  ["id", "name", "incomingNumber", "variable", "type", "subType", "aOR",
   "execution", "account", "platform", "monitoring", "monitoredData",
   "description", "avgCostTime", "avgCost", "effectiveCost", "lastUpdate",
   "nextUpdate", "kPI", "scheduleStart", "scheduleEnd", "frequency\r"]

/-- The element record rebuilt from one BPMN node (lines 432–456): base
id/name/type, merged extension properties (never clobbering the base
fields), then schema padding with nulls. -/
def revElementRec (tag : String) (el : XNode) : List (String × RVal) :=
  let eid := (getAttr el "id").getD ""
  let name := (getAttr el "name").getD ""
  let simsam_type := (dget bpmn_to_type tag).getD "Action"
  let props := parse_simsam_properties el
  let rec1 := props.foldl (fun r kv =>
    if kv.1 = "id" || kv.1 = "name" || kv.1 = "type" then r
    else dinsert kv.1 kv.2 r)
    [("id", .str eid), ("name", .str name), ("type", .str simsam_type)]
  element_schema.foldl (fun r fld =>
    if (dget r fld).isSome then r else dinsert fld .null r) rec1

/-- The whitespace class of the regex `\s` (ASCII part; the emitted
condition text only contains spaces and newlines). -/
def isRegexSpace (c : Char) : Bool :=
  c = ' ' || c = '\t' || c = '\n' || c = '\r' ||
  c.toNat = 0x0b || c.toNat = 0x0c

/-- The greedy number part `[0-9]*\.?[0-9]+` of the probability pattern at
a fixed position (with the regex engine's backtracking behavior). -/
def numMatch (cs : List Char) : Option (List Char) :=
  let d1 := cs.takeWhile Char.isDigit
  let r1 := cs.dropWhile Char.isDigit
  match r1 with
  | '.' :: r2 =>
    let d2 := r2.takeWhile Char.isDigit
    if !d2.isEmpty then some (d1 ++ '.' :: d2)
    else if !d1.isEmpty then some d1
    else none
  | _ => if !d1.isEmpty then some d1 else none

/-- `re.search(r"<=\s*([0-9]*\.?[0-9]+)", txt)` (line 480): scan for the
first position where the pattern matches and return the captured group. -/
def probSearch : List Char → Option (List Char)
  | '<' :: '=' :: t =>
    match numMatch (t.dropWhile isRegexSpace) with
    | some g => some g
    | none => probSearch ('=' :: t)
  | _ :: t => probSearch t
  | [] => none

/-- A reconstructed connection record (lines 461–489).  The remaining
schema fields (`time`, `condition` aside, `execution`, `AOR`, `type`,
`description\r`) are always null and carried implicitly. -/
structure ConnRec where
  id : String
  fromId : String
  toId : String
  probability : Option Frac
  condition : Option String
deriving DecidableEq

/-- One `sequenceFlow` read back (lines 460–489): ids from attributes, and
either a probability parsed from a `<= number` condition pattern or the raw
condition text. -/
def revConnection (sf : XNode) : ConnRec :=
  let cid := (getAttr sf "id").getD ""
  let src := (getAttr sf "sourceRef").getD ""
  let tgt := (getAttr sf "targetRef").getD ""
  match findTag "conditionExpression" sf.children with
  | some cond =>
    match cond.textVal with
    | some txtRaw =>
      if txtRaw ≠ "" then
        let txt := pyStrip txtRaw
        match probSearch txt.toList with
        | some g =>
          { id := cid, fromId := src, toId := tgt,
            probability := ratParseL g, condition := none }
        | none =>
          { id := cid, fromId := src, toId := tgt,
            probability := none, condition := some txt }
      else
        { id := cid, fromId := src, toId := tgt,
          probability := none, condition := none }
    | none =>
      { id := cid, fromId := src, toId := tgt,
        probability := none, condition := none }
  | none =>
    { id := cid, fromId := src, toId := tgt,
      probability := none, condition := none }

/-- One DI shape read back into a layout node (lines 495–504). -/
def revShapeEntry (sh : XNode) : Option (String × Frac × Frac) :=
  match getAttr sh "bpmnElement" with
  | some be =>
    if be ≠ "" then
      match findTag "dc:Bounds" sh.children with
      | some b =>
        match (getAttr b "x").bind (fun s => ratParse (pyStrip s)),
            (getAttr b "y").bind (fun s => ratParse (pyStrip s)) with
        | some x, some y => some (be, x, y)
        | _, _ => none
      | none => none
    else none
  | none => none

/-- `Diagram/Plane` path lookup (line 493). -/
def findPath (t1 t2 : String) (root : XNode) : Option XNode :=
  (((findallTag t1 root.children).map
    (fun d => findallTag t2 d.children)).flatten).head?

/-- The reconstructed outputs (elements, connections, layout nodes); the
variables output is always the empty object and is carried implicitly. -/
structure RevOut where
  elements : List (List (String × RVal))
  connections : List ConnRec
  layoutNodes : List (String × Frac × Frac)

/-- `SimsamToBPMNFixed.convert_bpmn_to_json` (lines 384–526) up to file
I/O: fails (RuntimeError) when there is no process element, else rebuilds
element records tag group by tag group, connection records per
sequenceFlow, and layout nodes from the DI shapes. -/
def convert_bpmn_to_json (root : XNode) : Except String RevOut :=
  match findTag "process" root.children with
  | none => .error "No <bpmn:process> found in BPMN file"
  | some process =>
    let elements := (element_tags.map (fun tag =>
      (findallTag tag process.children).map (revElementRec tag))).flatten
    let connections :=
      (findallTag "sequenceFlow" process.children).map revConnection
    let layoutNodes :=
      match findPath "bpmndi:BPMNDiagram" "bpmndi:BPMNPlane" root with
      | none => []
      | some plane =>
        (findallTag "bpmndi:BPMNShape" plane.children).filterMap revShapeEntry
    .ok ⟨elements, connections, layoutNodes⟩

/-! ### Support lemmas for the round-trip claims -/

lemma pyReplaceL_id {c : Char} {old' new s : List Char} (h : c ∉ s) :
    pyReplaceL (c :: old') new s = s :=
  replLoop_id h

lemma mapExcept_ok_mem {α β : Type} {f : α → Except ConvErr β} :
    ∀ {l : List α} {ys : List β}, mapExcept f l = .ok ys →
      ∀ x ∈ l, ∃ y ∈ ys, f x = .ok y := by
  intro l
  induction l with
  | nil => intro ys _ x hx; simp at hx
  | cons a rest ih =>
    intro ys h x hx
    rw [mapExcept_step] at h
    rcases hf : f a with e | y
    · rw [hf] at h
      exact Except.noConfusion h
    · rw [hf] at h
      rcases hm : mapExcept f rest with e | ys2
      · rw [hm] at h
        exact Except.noConfusion h
      · rw [hm] at h
        injection h with h2
        subst h2
        rcases List.mem_cons.mp hx with rfl | hx2
        · exact ⟨y, List.mem_cons_self y ys2, hf⟩
        · obtain ⟨y2, hy2, hfy2⟩ := ih hm x hx2
          exact ⟨y2, List.mem_cons_of_mem y hy2, hfy2⟩

lemma dget_some_mem_values {α : Type} {tbl : List (String × α)} {k : String}
    {v : α} (h : dget tbl k = some v) : v ∈ tbl.map Prod.snd := by
  unfold dget at h
  rcases hf : tbl.find? (fun kv => kv.1 = k) with _ | p
  · rw [hf] at h
    exact Option.noConfusion h
  · rw [hf] at h
    injection h with h2
    subst h2
    exact List.mem_map.mpr ⟨p, List.mem_of_find?_eq_some hf, rfl⟩

lemma jkeyLookup_some_mem_values {tbl : List (String × String)} {v : JVal}
    {t : String} (h : jkeyLookup tbl v = some t) : t ∈ tbl.map Prod.snd := by
  cases v with
  | str s => exact dget_some_mem_values h
  | num s => exact Option.noConfusion h
  | bool b => exact Option.noConfusion h
  | null => exact Option.noConfusion h
  | arr xs => exact Option.noConfusion h
  | obj kvs => exact Option.noConfusion h

lemma elementTag_mem (e : JObj) : elementTag e ∈ element_tags := by
  simp only [elementTag]
  split
  · rename_i t h
    have hm := jkeyLookup_some_mem_values h
    have hall : ∀ x ∈ subtype_mapping.map Prod.snd, x ∈ element_tags := by
      decide
    exact hall t hm
  · rcases h2 : jkeyLookup type_mapping ((dget e "type").getD (.str "Action"))
      with _ | t2
    · decide
    · have hm := jkeyLookup_some_mem_values h2
      have hall : ∀ x ∈ type_mapping.map Prod.snd, x ∈ element_tags := by
        decide
      exact hall t2 hm

set_option maxHeartbeats 1000000 in
lemma xmlUnescapeL_cons_ne (c : Char) (t : List Char) (hc : c ≠ '&') :
    xmlUnescapeL (c :: t) = c :: xmlUnescapeL t := by
  rw [xmlUnescapeL.eq_def]
  split
  · rename_i heq; exact absurd heq (by simp)
  · rename_i _ heq; injection heq with h1 _; exact absurd h1 hc
  · rename_i _ heq; injection heq with h1 _; exact absurd h1 hc
  · rename_i _ heq; injection heq with h1 _; exact absurd h1 hc
  · rename_i _ heq; injection heq with h1 _; exact absurd h1 hc
  · rename_i _ heq; injection heq with h1 _; exact absurd h1 hc
  · rename_i c2 t2 heq; injection heq with h1 h2; rw [h1, h2]

lemma xmlUnescapeL_id : ∀ {s : List Char}, '&' ∉ s → xmlUnescapeL s = s := by
  intro s
  induction s with
  | nil => intro _; rfl
  | cons c t ih =>
    intro h
    have hc : c ≠ '&' := fun he => h (he ▸ List.mem_cons_self c t)
    have ht : '&' ∉ t := fun hm => h (List.mem_cons_of_mem c hm)
    rw [xmlUnescapeL_cons_ne c t hc, ih ht]

lemma dget_dinsert_ne {α : Type} {k' : String} (v : α) (k : String)
    (hne : k' ≠ k) :
    ∀ l : List (String × α), dget (dinsert k' v l) k = dget l k := by
  intro l
  induction l with
  | nil => simp [dinsert, dget_cons, hne]
  | cons q rest ih =>
    show dget (dinsert k' v ((q.1, q.2) :: rest)) k = _
    rw [dinsert]
    by_cases hq : q.1 = k'
    · rw [if_pos hq, dget_cons, dget_cons, if_neg hne, hq, if_neg hne]
    · rw [if_neg hq, dget_cons, dget_cons]
      by_cases hk : q.1 = k
      · rw [if_pos hk, if_pos hk]
      · rw [if_neg hk, if_neg hk, ih]

lemma dget_foldl_skip {β : Type} (k : String)
    (hk : k = "id" ∨ k = "name" ∨ k = "type") :
    ∀ (l : List (String × β)) (r0 : List (String × β)),
      dget (l.foldl (fun r kv =>
        if kv.1 = "id" || kv.1 = "name" || kv.1 = "type" then r
        else dinsert kv.1 kv.2 r) r0) k = dget r0 k := by
  intro l
  induction l with
  | nil => intro r0; rfl
  | cons kv rest ih =>
    intro r0
    rw [List.foldl_cons, ih]
    by_cases hP : (kv.1 = "id" || kv.1 = "name" || kv.1 = "type") = true
    · rw [if_pos hP]
    · rw [if_neg hP]
      simp only [Bool.or_eq_true, decide_eq_true_eq, not_or] at hP
      have hne : kv.1 ≠ k := by
        rcases hk with rfl | rfl | rfl
        · exact hP.1.1
        · exact hP.1.2
        · exact hP.2
      exact dget_dinsert_ne kv.2 k hne r0

lemma dget_foldl_pad {β : Type} (k : String) (v w : β) :
    ∀ (flds : List String) (r0 : List (String × β)), dget r0 k = some v →
      dget (flds.foldl (fun r fld =>
        if (dget r fld).isSome then r else dinsert fld w r) r0) k = some v := by
  intro flds
  induction flds with
  | nil => intro r0 h; exact h
  | cons fld rest ih =>
    intro r0 h
    rw [List.foldl_cons]
    by_cases hP : (dget r0 fld).isSome = true
    · rw [if_pos hP]; exact ih r0 h
    · rw [if_neg hP]
      have hne : fld ≠ k := by
        intro he
        subst he
        rw [h] at hP
        exact hP rfl
      refine ih _ ?_
      rw [dget_dinsert_ne w k hne r0]
      exact h

/-- The three base fields of a reconstructed element record: extension
properties never clobber them and the schema padding keeps them. -/
lemma revElementRec_base (tag : String) (el : XNode) :
    dget (revElementRec tag el) "id" =
      some (.str ((getAttr el "id").getD "")) ∧
    dget (revElementRec tag el) "name" =
      some (.str ((getAttr el "name").getD "")) ∧
    dget (revElementRec tag el) "type" =
      some (.str ((dget bpmn_to_type tag).getD "Action")) := by
  refine ⟨?_, ?_, ?_⟩ <;>
  · simp only [revElementRec]
    refine dget_foldl_pad _ _ _ _ _ ?_
    rw [dget_foldl_skip _ (by simp)]
    simp [dget_cons]

/-- A string the escaper passes through unchanged: no XML special, no
ampersand, no control character, and no leading/trailing Python whitespace. -/
def plainText (s : String) : Bool :=
  s.toList.all (fun c => c != '&' && c != '<' && c != '>' && c != '"' &&
    c != '\'' && !isCtrlChar c) &&
  (match s.toList.head? with | some c => !isPySpace c | none => true) &&
  (match s.toList.getLast? with | some c => !isPySpace c | none => true)

lemma plainText_notMem {s : String} (h : plainText s = true) (c : Char)
    (hc : (c = '&' ∨ c = '<' ∨ c = '>' ∨ c = '"' ∨ c = '\'') ∨
      isCtrlChar c = true) : c ∉ s.toList := by
  intro hmem
  have h1 := h
  simp only [plainText, Bool.and_eq_true, List.all_eq_true] at h1
  have hx := h1.1.1 c hmem
  simp only [Bool.and_eq_true, bne_iff_ne, ne_eq, Bool.not_eq_true'] at hx
  rcases hc with (rfl | rfl | rfl | rfl | rfl) | hctrl
  · exact hx.1.1.1.1.1 rfl
  · exact hx.1.1.1.1.2 rfl
  · exact hx.1.1.1.2 rfl
  · exact hx.1.1.2 rfl
  · exact hx.1.2 rfl
  · rw [hx.2] at hctrl
    exact Bool.noConfusion hctrl

lemma escape_plain {s : String} (h : plainText s = true) :
    escapeXmlStr s = s := by
  by_cases hs : s = ""
  · subst hs; rfl
  · have htrue : JVal.truthy (.str s) = true := by
      simp [JVal.truthy, hs]
    rw [escapeXmlStr, escape_xml_thoroughly, if_neg (by simp [htrue])]
    have hstep : escapeSteps (pyStr (.str s)).toList = s.toList := by
      show escapeSteps s.toList = s.toList
      rw [escapeSteps_eq]
      rw [pyReplaceL_id (plainText_notMem h '&' (Or.inl (Or.inl rfl)))]
      rw [pyReplaceL_id (plainText_notMem h '<'
        (Or.inl (Or.inr (Or.inl rfl))))]
      rw [pyReplaceL_id (plainText_notMem h '>'
        (Or.inl (Or.inr (Or.inr (Or.inl rfl)))))]
      rw [pyReplaceL_id (plainText_notMem h '"'
        (Or.inl (Or.inr (Or.inr (Or.inr (Or.inl rfl))))))]
      rw [pyReplaceL_id (plainText_notMem h '\''
        (Or.inl (Or.inr (Or.inr (Or.inr (Or.inr rfl))))))]
      rw [pyReplaceL_id (plainText_notMem h '\r' (Or.inr (by decide)))]
      rw [pyReplaceL_id (plainText_notMem h '\n' (Or.inr (by decide)))]
      rw [pyReplaceL_id (plainText_notMem h '\r' (Or.inr (by decide)))]
      rw [pyReplaceL_id (plainText_notMem h '\t' (Or.inr (by decide)))]
    have hfilter : s.toList.filter (fun c => !isCtrlRemoved c) = s.toList := by
      refine List.filter_eq_self.mpr ?_
      intro c hc
      have hcc : isCtrlChar c = false := by
        have h1 := h
        simp only [plainText, Bool.and_eq_true, List.all_eq_true] at h1
        have hx := h1.1.1 c hc
        simp only [Bool.and_eq_true, Bool.not_eq_true'] at hx
        exact hx.2
      rw [isCtrlRemoved_of_not_ctrlChar hcc]
      rfl
    have hstrip : pyStripL s.toList = s.toList := by
      refine pyStripL_eq_self_of_ends ?_ ?_
      · intro c hc
        have h1 := h
        simp only [plainText, Bool.and_eq_true] at h1
        have := h1.1.2
        rw [hc] at this
        simpa using this
      · intro c hc
        have h1 := h
        simp only [plainText, Bool.and_eq_true] at h1
        have := h1.2
        rw [hc] at this
        simpa using this
    rw [escapeCore, hstep, hfilter, hstrip]
    exact mk_toList s

lemma matchesIdPattern_no_amp {s : String} (h : matchesIdPattern s = true) :
    '&' ∉ s.toList := by
  intro hmem
  unfold matchesIdPattern at h
  rcases hl : s.toList with _ | ⟨c, rest⟩
  · rw [hl] at hmem
    simp at hmem
  · rw [hl] at h hmem
    have hh := Bool.and_eq_true_iff.mp h
    rcases List.mem_cons.mp hmem with rfl | hr
    · exact absurd hh.1 (by decide)
    · have h2 := List.all_eq_true.mp hh.2 '&' hr
      exact absurd h2 (by decide)

lemma convertTree_ok {elements connections : List JObj} {layout : JVal}
    {doc : XNode} (h : convertTree elements connections layout = .ok doc) :
    ∃ elemPairs connPairs,
      mapExcept elementNodeEmit elements = .ok elemPairs ∧
      mapExcept connectionNodeEmit connections = .ok connPairs ∧
      doc = .node "definitions" definitionsAttrs none
        [.node "process" [("id", "Process_simsam"), ("isExecutable", "false")]
          none (elemPairs.map (·.1) ++ connPairs.map (·.1)),
         diTree (elemPairs.map (·.2)) (connPairs.map (·.2)) layout] := by
  unfold convertTree at h
  rcases he : mapExcept elementNodeEmit elements with e | ep
  · rw [he] at h
    simp only [Bind.bind, Except.bind] at h
    exact Except.noConfusion h
  · rw [he] at h
    rcases hc : mapExcept connectionNodeEmit connections with e | cp
    · rw [hc] at h
      simp only [Bind.bind, Except.bind] at h
      exact Except.noConfusion h
    · rw [hc] at h
      simp only [Bind.bind, Except.bind, Pure.pure, Except.pure] at h
      injection h with h2
      exact ⟨ep, cp, rfl, rfl, h2.symm⟩

lemma elementNodeEmit_ok {e : JObj} {idS : String}
    (hid : dget e "id" = some (.str idS)) :
    ∃ children, elementNodeEmit e = .ok
      (XNode.node (elementTag e)
        [("id", safeIdStr idS),
         ("name", escape_xml_thoroughly ((dget e "name").getD (.str "")))]
        none children,
       (safeIdStr idS, elementTag e)) := by
  refine ⟨(if (customProps e).isEmpty then [] else
    [XNode.node "extensionElements" [] none
      [XNode.node "simsam:properties" [] none
        ((customProps e).filterMap (fun kv =>
          if escape_xml_thoroughly (.str (pyStr kv.2)) ≠ "" then
            some (XNode.node "simsam:property"
              [("name", make_xml_safe_id (.str kv.1)),
               ("value", escape_xml_thoroughly (.str (pyStr kv.2)))] none [])
          else none))]]), ?_⟩
  simp only [elementNodeEmit, dindex, hid, safeIdStr, Bind.bind, Except.bind,
    Pure.pure, Except.pure]

lemma findTag_head (tag : String) (attrs : List (String × String))
    (text : Option String) (ch rest : List XNode) :
    findTag tag (XNode.node tag attrs text ch :: rest) =
      some (XNode.node tag attrs text ch) := by
  simp [findTag, List.find?, XNode.tag]

/-- The layout-node part of the reverse converter, as a named function so
statements about the other parts leave it unevaluated. -/
def revLayoutNodes (root : XNode) : List (String × Frac × Frac) :=
  match findPath "bpmndi:BPMNDiagram" "bpmndi:BPMNPlane" root with
  | none => []
  | some plane =>
    (findallTag "bpmndi:BPMNShape" plane.children).filterMap revShapeEntry

lemma convert_bpmn_to_json_eq (root process : XNode)
    (hp : findTag "process" root.children = some process) :
    convert_bpmn_to_json root = .ok
      ⟨(element_tags.map (fun tag =>
          (findallTag tag process.children).map (revElementRec tag))).flatten,
       (findallTag "sequenceFlow" process.children).map revConnection,
       revLayoutNodes root⟩ := by
  simp only [convert_bpmn_to_json, hp, revLayoutNodes]

/-- Reverse conversion of any document of the exact shape `convertTree`
produces (the DI subtree abstract). -/
lemma convertTree_reverse (elemNodes connNodes : List XNode) (dn : XNode) :
    convert_bpmn_to_json
      (XNode.node "definitions" definitionsAttrs none
        [XNode.node "process"
          [("id", "Process_simsam"), ("isExecutable", "false")] none
          (elemNodes ++ connNodes), dn]) = .ok
      ⟨(element_tags.map (fun tag =>
          (findallTag tag (elemNodes ++ connNodes)).map
            (revElementRec tag))).flatten,
       (findallTag "sequenceFlow" (elemNodes ++ connNodes)).map revConnection,
       revLayoutNodes (XNode.node "definitions" definitionsAttrs none
        [XNode.node "process"
          [("id", "Process_simsam"), ("isExecutable", "false")] none
          (elemNodes ++ connNodes), dn])⟩ :=
  convert_bpmn_to_json_eq
    (XNode.node "definitions" definitionsAttrs none
      [XNode.node "process"
        [("id", "Process_simsam"), ("isExecutable", "false")] none
        (elemNodes ++ connNodes), dn])
    (XNode.node "process"
      [("id", "Process_simsam"), ("isExecutable", "false")] none
      (elemNodes ++ connNodes))
    (findTag_head "process"
      [("id", "Process_simsam"), ("isExecutable", "false")]
      none (elemNodes ++ connNodes) [dn])

lemma mem_rev_elements {procCh : List XNode} {node : XNode}
    (hmem : node ∈ procCh) (htag : node.tag ∈ element_tags) :
    revElementRec node.tag node ∈
      (element_tags.map (fun tag =>
        (findallTag tag procCh).map (revElementRec tag))).flatten := by
  refine List.mem_flatten.mpr ⟨_, List.mem_map.mpr ⟨node.tag, htag, rfl⟩, ?_⟩
  exact List.mem_map.mpr
    ⟨node, List.mem_filter.mpr ⟨hmem, by simp⟩, rfl⟩

set_option maxHeartbeats 2000000 in
/-- **C1 (amended)**: an element whose id is already XML-safe, whose name
the escaper passes through unchanged, and whose tag maps back unambiguously,
round-trips: some reconstructed record carries the original id, name and
type. -/
theorem C1_element_roundtrip
    (elements connections : List JObj) (layout : JVal) (doc : XNode)
    (out : RevOut) (e : JObj) (idS nm ty : String)
    (hdoc : convertTree elements connections layout = .ok doc)
    (hout : convert_bpmn_to_json doc = .ok out)
    (hmem : e ∈ elements)
    (hid : dget e "id" = some (.str idS))
    (hidSafe : safeIdStr idS = idS)
    (hname : dget e "name" = some (.str nm))
    (hnm : plainText nm = true)
    (hty : dget e "type" = some (.str ty))
    (hunamb : dget bpmn_to_type (elementTag e) = some ty) :
    ∃ r ∈ out.elements,
      dget r "id" = some (.str idS) ∧
      dget r "name" = some (.str nm) ∧
      dget r "type" = some (.str ty) := by
  obtain ⟨ep, cp, he, hc, hdocEq⟩ := convertTree_ok hdoc
  obtain ⟨children, hch⟩ := elementNodeEmit_ok hid
  obtain ⟨pair, hpmem, hpe⟩ := mapExcept_ok_mem he e hmem
  rw [hch] at hpe
  injection hpe with hpair
  subst hdocEq
  have hjson := convertTree_reverse (ep.map (·.1)) (cp.map (·.1))
    (diTree (ep.map (·.2)) (cp.map (·.2)) layout)
  rw [hout] at hjson
  injection hjson with houteq
  subst houteq
  have hmemNode : (XNode.node (elementTag e)
      [("id", safeIdStr idS),
       ("name", escape_xml_thoroughly ((dget e "name").getD (.str "")))]
      none children) ∈ ep.map (·.1) ++ cp.map (·.1) :=
    List.mem_append_left _ (List.mem_map.mpr ⟨pair, hpmem, by rw [← hpair]⟩)
  have hr := mem_rev_elements hmemNode
    (show (XNode.node (elementTag e) _ none children).tag ∈ element_tags from
      elementTag_mem e)
  refine ⟨_, hr, ?_, ?_, ?_⟩ <;>
    rcases revElementRec_base
      ((XNode.node (elementTag e)
        [("id", safeIdStr idS),
         ("name", escape_xml_thoroughly ((dget e "name").getD (.str "")))]
        none children).tag)
      (XNode.node (elementTag e)
        [("id", safeIdStr idS),
         ("name", escape_xml_thoroughly ((dget e "name").getD (.str "")))]
        none children) with ⟨hb1, hb2, hb3⟩
  · rw [hb1]
    have hga : getAttr (XNode.node (elementTag e)
        [("id", safeIdStr idS),
         ("name", escape_xml_thoroughly ((dget e "name").getD (.str "")))]
        none children) "id" =
        some (String.mk (xmlUnescapeL (safeIdStr idS).toList)) := by
      simp [getAttr, XNode.attrs, dget_cons]
    rw [hga]
    have hpat : matchesIdPattern idS = true := by
      rw [← hidSafe]
      exact make_xml_safe_id_matches (.str idS)
    rw [hidSafe, xmlUnescapeL_id (matchesIdPattern_no_amp hpat), mk_toList]
    rfl
  · rw [hb2]
    have hesc : escape_xml_thoroughly ((dget e "name").getD (.str "")) = nm := by
      rw [hname]
      exact escape_plain hnm
    have hga : getAttr (XNode.node (elementTag e)
        [("id", safeIdStr idS),
         ("name", escape_xml_thoroughly ((dget e "name").getD (.str "")))]
        none children) "name" =
        some (String.mk (xmlUnescapeL
          (escape_xml_thoroughly ((dget e "name").getD (.str ""))).toList)) := by
      simp [getAttr, XNode.attrs, dget_cons]
    rw [hga, hesc,
      xmlUnescapeL_id (plainText_notMem hnm '&' (Or.inl (Or.inl rfl))),
      mk_toList]
    rfl
  · rw [hb3]
    have : (XNode.node (elementTag e)
        [("id", safeIdStr idS),
         ("name", escape_xml_thoroughly ((dget e "name").getD (.str "")))]
        none children).tag = elementTag e := rfl
    rw [this, hunamb]
    rfl

/-- A C1 counterexample input: its type maps unambiguously
(`Resource` → `startEvent` → `Resource`) but its id has a space and its
name has leading whitespace. -/
def ceElement : JObj :=
  [("id", .str "a b"), ("name", .str " x"), ("type", .str "Resource")]

set_option maxRecDepth 100000 in
/-- **C1 (counterexample to the claim as stated)**: the element
`{id: "a b", name: " x", type: "Resource"}` maps unambiguously, yet its
round trip yields no record with the original id, name and type — the id is
sanitized to `a_b` and the name stripped to `x` on the way. -/
theorem C1_roundtrip_counterexample :
    dget bpmn_to_type (elementTag ceElement) = some "Resource" ∧
    ((convertTree [ceElement] [] (.obj [])).toOption.bind (fun doc =>
      (convert_bpmn_to_json doc).toOption.map (fun out =>
        out.elements.all (fun r =>
          !(decide (dget r "id" = some (.str "a b")) &&
            decide (dget r "name" = some (.str " x")) &&
            decide (dget r "type" = some (.str "Resource"))))))) = some true ∧
    ((convertTree [ceElement] [] (.obj [])).toOption.bind (fun doc =>
      (convert_bpmn_to_json doc).toOption.map (fun out =>
        out.elements.map (fun r => (dget r "id", dget r "name"))))) =
      some [(some (.str "a_b"), some (.str "x"))] := by
  refine ⟨rfl, ?_, ?_⟩ <;> decide

/-- Witness input for the amended C1 statement. -/
def c1wElem : JObj :=
  [("id", .str "E1"), ("name", .str "go"), ("type", .str "Resource")]

/-- The document the forward converter produces for the witness input. -/
def c1wDoc : XNode :=
  (convertTree [c1wElem] [] (.obj [])).toOption.getD (XNode.node "" [] none [])

/-- The reverse-converted output for the witness input. -/
def c1wOut : RevOut :=
  (convert_bpmn_to_json c1wDoc).toOption.getD ⟨[], [], []⟩

set_option maxRecDepth 100000 in
theorem C1_element_roundtrip_witness :
    ∃ r ∈ c1wOut.elements,
      dget r "id" = some (.str "E1") ∧
      dget r "name" = some (.str "go") ∧
      dget r "type" = some (.str "Resource") :=
  C1_element_roundtrip [c1wElem] [] (.obj []) c1wDoc c1wOut c1wElem
    "E1" "go" "Resource" rfl rfl (List.mem_singleton.mpr rfl) rfl
    (by decide) rfl (by decide) rfl (by decide)

lemma connectionNodeEmit_ok_inv {c : JObj} {idS : String}
    {p : XNode × (String × String × String)}
    (hid : dget c "id" = some (.str idS))
    (h : connectionNodeEmit c = .ok p) :
    ∃ fromv tov, dget c "fromId" = some fromv ∧ dget c "toId" = some tov ∧
      p = (XNode.node "sequenceFlow"
        [("id", make_xml_safe_id (.str (pyReplace idS "->" "_to_"))),
         ("sourceRef", make_xml_safe_id fromv),
         ("targetRef", make_xml_safe_id tov)] none
        (if probEmits ((dget c "probability").getD .null) then
          [XNode.node "conditionExpression"
            [("xsi:type", "tFormalExpression")]
            (some ("\n        $\x7bMath.random() &lt;= " ++
              pyStr ((dget c "probability").getD .null) ++ "\x7d\n      ")) []]
         else []),
        (make_xml_safe_id (.str (pyReplace idS "->" "_to_")),
         make_xml_safe_id fromv, make_xml_safe_id tov)) := by
  simp only [connectionNodeEmit, dindex, hid, Bind.bind, Except.bind] at h
  rcases hf : dget c "fromId" with _ | fromv
  · rw [hf] at h
    exact Except.noConfusion h
  · rw [hf] at h
    rcases ht : dget c "toId" with _ | tov
    · rw [ht] at h
      exact Except.noConfusion h
    · rw [ht] at h
      simp only [Pure.pure, Except.pure] at h
      injection h with h2
      exact ⟨fromv, tov, rfl, rfl, h2.symm⟩

set_option maxRecDepth 100000 in
/-- `revConnection` on a sequenceFlow carrying the emitted `0.7` condition
text: the probability is parsed back as 7/10 and no raw condition is kept. -/
lemma revConnection_prob07 (cid src tgt : String) :
    revConnection (XNode.node "sequenceFlow"
      [("id", cid), ("sourceRef", src), ("targetRef", tgt)] none
      [XNode.node "conditionExpression" [("xsi:type", "tFormalExpression")]
        (some ("\n        $\x7bMath.random() &lt;= 0.7\x7d\n      ")) []]) =
    { id := String.mk (xmlUnescapeL cid.toList),
      fromId := String.mk (xmlUnescapeL src.toList),
      toId := String.mk (xmlUnescapeL tgt.toList),
      probability := some ⟨7, 10⟩, condition := none } := rfl

/-- **C5**: a connection carrying probability `0.7` is emitted as a
sequenceFlow with a conditionExpression whose text contains `0.7`, and the
reverse converter recovers probability 7/10 for some connection record. -/
theorem C5_probability_roundtrip
    (elements connections : List JObj) (layout : JVal) (doc : XNode)
    (out : RevOut) (c : JObj) (idS : String)
    (hdoc : convertTree elements connections layout = .ok doc)
    (hout : convert_bpmn_to_json doc = .ok out)
    (hmem : c ∈ connections)
    (hid : dget c "id" = some (.str idS))
    (hprob : dget c "probability" = some (.num "0.7")) :
    (∃ pair, connectionNodeEmit c = .ok pair ∧
      pair.1.tag = "sequenceFlow" ∧
      ∃ cond ∈ findallTag "conditionExpression" pair.1.children,
        ∃ t, cond.text = some t ∧
          listInfix "0.7".toList t.toList = true) ∧
    ∃ rec ∈ out.connections, rec.probability = some ⟨7, 10⟩ := by
  obtain ⟨ep, cp, he, hc, hdocEq⟩ := convertTree_ok hdoc
  obtain ⟨pair, hpmem, hpe⟩ := mapExcept_ok_mem hc c hmem
  obtain ⟨fromv, tov, hf, ht, hpair⟩ := connectionNodeEmit_ok_inv hid hpe
  rw [hprob] at hpair
  simp only [Option.getD] at hpair
  rw [if_pos (by decide : probEmits (JVal.num "0.7") = true)] at hpair
  have htxt : ("\n        $\x7bMath.random() &lt;= " ++
      pyStr (JVal.num "0.7") ++ "\x7d\n      ") =
      "\n        $\x7bMath.random() &lt;= 0.7\x7d\n      " := rfl
  rw [htxt] at hpair
  subst hpair
  subst hdocEq
  have hjson := convertTree_reverse (ep.map (·.1)) (cp.map (·.1))
    (diTree (ep.map (·.2)) (cp.map (·.2)) layout)
  rw [hout] at hjson
  injection hjson with houteq
  subst houteq
  constructor
  · refine ⟨_, hpe, rfl, ?_⟩
    refine ⟨XNode.node "conditionExpression"
      [("xsi:type", "tFormalExpression")]
      (some ("\n        $\x7bMath.random() &lt;= 0.7\x7d\n      ")) [],
      ?_, ?_⟩
    · simp [findallTag, XNode.tag, XNode.children]
    · exact ⟨_, rfl, by decide⟩
  · refine ⟨_, List.mem_map.mpr
      ⟨_, List.mem_filter.mpr
        ⟨List.mem_append_right _ (List.mem_map.mpr ⟨_, hpmem, rfl⟩),
         by rfl⟩, rfl⟩, ?_⟩
    rw [revConnection_prob07]

/-- Witness connection for C5. -/
def c5wConn : JObj :=
  [("id", .str "A->B"), ("fromId", .str "A"), ("toId", .str "B"),
   ("probability", .num "0.7")]

/-- Forward document for the C5 witness. -/
def c5wDoc : XNode :=
  (convertTree [] [c5wConn] (.obj [])).toOption.getD (XNode.node "" [] none [])

/-- Reverse output for the C5 witness. -/
def c5wOut : RevOut :=
  (convert_bpmn_to_json c5wDoc).toOption.getD ⟨[], [], []⟩

set_option maxRecDepth 100000 in
theorem C5_probability_roundtrip_witness :
    (∃ pair, connectionNodeEmit c5wConn = .ok pair ∧
      pair.1.tag = "sequenceFlow" ∧
      ∃ cond ∈ findallTag "conditionExpression" pair.1.children,
        ∃ t, cond.text = some t ∧
          listInfix "0.7".toList t.toList = true) ∧
    ∃ rec ∈ c5wOut.connections, rec.probability = some ⟨7, 10⟩ :=
  C5_probability_roundtrip [] [c5wConn] (.obj []) c5wDoc c5wOut c5wConn
    "A->B" rfl rfl (List.mem_singleton.mpr rfl) rfl rfl

lemma revConnection_nocond (cid src tgt : String) :
    revConnection (XNode.node "sequenceFlow"
      [("id", cid), ("sourceRef", src), ("targetRef", tgt)] none []) =
    { id := String.mk (xmlUnescapeL cid.toList),
      fromId := String.mk (xmlUnescapeL src.toList),
      toId := String.mk (xmlUnescapeL tgt.toList),
      probability := none, condition := none } := rfl

/-- **C6**: a connection whose probability is absent, null, or `1` gets a
sequenceFlow with no condition expression (no children at all), and the
reverse converter leaves both probability and condition null. -/
theorem C6_no_condition
    (elements connections : List JObj) (layout : JVal) (doc : XNode)
    (out : RevOut) (c : JObj) (idS : String)
    (hdoc : convertTree elements connections layout = .ok doc)
    (hout : convert_bpmn_to_json doc = .ok out)
    (hmem : c ∈ connections)
    (hid : dget c "id" = some (.str idS))
    (hprob : dget c "probability" = none ∨
      dget c "probability" = some .null ∨
      dget c "probability" = some (.num "1")) :
    (∃ pair, connectionNodeEmit c = .ok pair ∧
      pair.1.tag = "sequenceFlow" ∧ pair.1.children = [] ∧
      findTag "conditionExpression" pair.1.children = none) ∧
    ∃ rec ∈ out.connections,
      rec.probability = none ∧ rec.condition = none := by
  obtain ⟨ep, cp, he, hc, hdocEq⟩ := convertTree_ok hdoc
  obtain ⟨pair, hpmem, hpe⟩ := mapExcept_ok_mem hc c hmem
  obtain ⟨fromv, tov, hf, ht, hpair⟩ := connectionNodeEmit_ok_inv hid hpe
  have hcond : (if probEmits ((dget c "probability").getD .null) then
      [XNode.node "conditionExpression"
        [("xsi:type", "tFormalExpression")]
        (some ("\n        $\x7bMath.random() &lt;= " ++
          pyStr ((dget c "probability").getD .null) ++ "\x7d\n      ")) []]
     else []) = ([] : List XNode) := by
    rcases hprob with hp | hp | hp <;>
      rw [hp] <;> simp only [Option.getD] <;>
      rw [if_neg (by decide)]
  rw [hcond] at hpair
  subst hpair
  subst hdocEq
  have hjson := convertTree_reverse (ep.map (·.1)) (cp.map (·.1))
    (diTree (ep.map (·.2)) (cp.map (·.2)) layout)
  rw [hout] at hjson
  injection hjson with houteq
  subst houteq
  refine ⟨⟨_, hpe, rfl, rfl, rfl⟩, ?_⟩
  refine ⟨_, List.mem_map.mpr
    ⟨_, List.mem_filter.mpr
      ⟨List.mem_append_right _ (List.mem_map.mpr ⟨_, hpmem, rfl⟩),
       by rfl⟩, rfl⟩, ?_⟩
  rw [revConnection_nocond]
  exact ⟨rfl, rfl⟩

/-- Witness connection for C6 (probability literally 1). -/
def c6wConn : JObj :=
  [("id", .str "A->B"), ("fromId", .str "A"), ("toId", .str "B"),
   ("probability", .num "1")]

/-- Forward document for the C6 witness. -/
def c6wDoc : XNode :=
  (convertTree [] [c6wConn] (.obj [])).toOption.getD (XNode.node "" [] none [])

/-- Reverse output for the C6 witness. -/
def c6wOut : RevOut :=
  (convert_bpmn_to_json c6wDoc).toOption.getD ⟨[], [], []⟩

set_option maxRecDepth 100000 in
theorem C6_no_condition_witness :
    (∃ pair, connectionNodeEmit c6wConn = .ok pair ∧
      pair.1.tag = "sequenceFlow" ∧ pair.1.children = [] ∧
      findTag "conditionExpression" pair.1.children = none) ∧
    ∃ rec ∈ c6wOut.connections,
      rec.probability = none ∧ rec.condition = none :=
  C6_no_condition [] [c6wConn] (.obj []) c6wDoc c6wOut c6wConn
    "A->B" rfl rfl (List.mem_singleton.mpr rfl) rfl (Or.inr (Or.inr rfl))

/-- A document whose process children are interleaved (endEvent, an unknown
tag, startEvent) to exhibit the reverse converter's regrouping. -/
def c10Root : XNode :=
  XNode.node "definitions" [] none
    [XNode.node "process" [] none
      [XNode.node "endEvent" [("id", "a")] none [],
       XNode.node "foo" [("id", "x")] none [],
       XNode.node "startEvent" [("id", "b")] none []]]

set_option maxRecDepth 100000 in
/-- **C10**: reverse-converted element records are grouped by BPMN tag in
the fixed scan order (only known tags contribute, so the record count is
the sum of the per-tag counts), and on a document with interleaved children
the startEvent record comes out before the endEvent record while the
unknown-tag child yields no record. -/
theorem C10_scan_order (root process : XNode)
    (hp : findTag "process" root.children = some process) :
    (∃ out, convert_bpmn_to_json root = .ok out ∧
      out.elements = (element_tags.map (fun tag =>
        (findallTag tag process.children).map (revElementRec tag))).flatten ∧
      out.elements.length = (element_tags.map (fun tag =>
        (findallTag tag process.children).length)).sum) ∧
    (convert_bpmn_to_json c10Root).toOption.map (fun out =>
      out.elements.map (fun r => dget r "id")) =
      some [some (.str "b"), some (.str "a")] := by
  constructor
  · refine ⟨_, convert_bpmn_to_json_eq root process hp, rfl, ?_⟩
    simp only [List.length_flatten, List.map_map]
    congr 1
    refine List.map_congr_left ?_
    intro tag _
    simp [Function.comp, List.length_map]
  · decide

set_option maxRecDepth 100000 in
theorem C10_scan_order_witness :
    (∃ out, convert_bpmn_to_json c10Root = .ok out ∧
      out.elements = (element_tags.map (fun tag =>
        (findallTag tag (XNode.node "process" [] none
          [XNode.node "endEvent" [("id", "a")] none [],
           XNode.node "foo" [("id", "x")] none [],
           XNode.node "startEvent" [("id", "b")] none []]).children).map
          (revElementRec tag))).flatten ∧
      out.elements.length = (element_tags.map (fun tag =>
        (findallTag tag (XNode.node "process" [] none
          [XNode.node "endEvent" [("id", "a")] none [],
           XNode.node "foo" [("id", "x")] none [],
           XNode.node "startEvent" [("id", "b")] none []]).children).length)).sum) ∧
    (convert_bpmn_to_json c10Root).toOption.map (fun out =>
      out.elements.map (fun r => dget r "id")) =
      some [some (.str "b"), some (.str "a")] :=
  C10_scan_order c10Root
    (XNode.node "process" [] none
      [XNode.node "endEvent" [("id", "a")] none [],
       XNode.node "foo" [("id", "x")] none [],
       XNode.node "startEvent" [("id", "b")] none []]) rfl

/-! ### Claim C3: an XML grammar for the emitted document -/

/-- XML whitespace (`S`). -/
def isXmlWs (c : Char) : Bool :=
  c = ' ' || c = '\t' || c = '\n' || c = '\r'

/-- Characters legal in an XML 1.0 document (`Char`), on the code points the
converter can emit. -/
def xmlCharOk (c : Char) : Bool :=
  c = '\t' || c = '\n' || c = '\r' || 0x20 ≤ c.toNat

/-- `NameStartChar` restricted to ASCII (all emitted names are ASCII). -/
def isNameStart (c : Char) : Bool := isAsciiAlpha c || c = '_' || c = ':'

/-- `NameChar` restricted to ASCII. -/
def isNameChar (c : Char) : Bool :=
  isNameStart c || c.isDigit || c = '.' || c = '-'

/-- An XML `Name`. -/
def xmlNameOk : List Char → Bool
  | [] => false
  | c :: t => isNameStart c && t.all isNameChar

/-- A double-quoted attribute value: no `<`, no `"`, legal characters, and
every `&` starting one of the five predefined entities. -/
def attrValOk (v : List Char) : Bool :=
  v.all (fun c => xmlCharOk c && c != '<' && c != '"') && ampOk v

/-- No `]]>` occurrence (forbidden in character data). -/
def noCde : List Char → Bool
  | [] => true
  | [_] => true
  | [_, _] => true
  | a :: b :: c :: t => !(a = ']' && b = ']' && c = '>') && noCde (b :: c :: t)

/-- Character data: no `<`, legal characters, entity-shaped ampersands, no
`]]>`. -/
def charDataOk (d : List Char) : Bool :=
  d.all (fun c => xmlCharOk c && c != '<') && ampOk d && noCde d

/-- The character-data chunks this converter emits: additionally free of
`]` (which makes `]]>` impossible compositionally). -/
def textOk (d : List Char) : Bool :=
  d.all (fun c => xmlCharOk c && c != '<' && c != ']') && ampOk d

/-- A well-formed attribute region: whitespace and space-led
`name="value"` attributes. -/
inductive AttrsOk : List Char → Prop where
  | nil : AttrsOk []
  | ws (c : Char) (rest : List Char) :
      isXmlWs c = true → AttrsOk rest → AttrsOk (c :: rest)
  | attr (name value rest : List Char) :
      xmlNameOk name = true → attrValOk value = true → AttrsOk rest →
      AttrsOk (' ' :: name ++ '=' :: '"' :: value ++ '"' :: rest)

/-- The generative grammar of elements (`Gram true`) and element content
(`Gram false`): character data, child elements, self-closed and normally
tagged elements with matching close tags. -/
inductive Gram : Bool → List Char → Prop where
  | cnil : Gram false []
  | ctext (d rest : List Char) :
      charDataOk d = true → Gram false rest → Gram false (d ++ rest)
  | celem (e rest : List Char) :
      Gram true e → Gram false rest → Gram false (e ++ rest)
  | selfClose (name attrs : List Char) :
      xmlNameOk name = true → AttrsOk attrs →
      Gram true ('<' :: name ++ attrs ++ ['/', '>'])
  | tagged (name attrs content : List Char) :
      xmlNameOk name = true → AttrsOk attrs → Gram false content →
      Gram true ('<' :: name ++ attrs ++
        '>' :: content ++ '<' :: '/' :: name ++ ['>'])

/-- The exact prolog line `convert` emits. -/
def prologChars : List Char :=
  "<?xml version=\"1.0\" encoding=\"UTF-8\"?>".toList

/-- A syntactically well-formed document of the shape the converter emits:
the exact prolog line, a newline, and one root element. -/
def DocOk (s : List Char) : Prop :=
  ∃ e, Gram true e ∧ s = prologChars ++ '\n' :: e

/-- `'\n'.join(lines)` as characters — the string `convert` writes. -/
def joinNLL : List String → List Char
  | [] => []
  | [s] => s.toList
  | s :: r :: rest => s.toList ++ '\n' :: joinNLL (r :: rest)

/-- Each line followed by a newline (the join of an initial segment). -/
def unl (ls : List String) : List Char :=
  (ls.map (fun s => s.toList ++ ['\n'])).flatten

lemma unl_append (a b : List String) : unl (a ++ b) = unl a ++ unl b := by
  simp [unl]

lemma unl_cons (s : String) (rest : List String) :
    unl (s :: rest) = s.toList ++ '\n' :: unl rest := by
  simp [unl]

lemma joinNLL_concat (a : List String) (last : String) :
    joinNLL (a ++ [last]) = unl a ++ last.toList := by
  induction a with
  | nil => rfl
  | cons x a ih =>
    cases a with
    | nil => simp [joinNLL, unl]
    | cons y a2 =>
      have hstep : joinNLL ((x :: y :: a2) ++ [last]) =
          x.toList ++ '\n' :: joinNLL ((y :: a2) ++ [last]) := rfl
      rw [hstep, ih]
      simp [unl_cons, List.append_assoc]

lemma toList_append (a b : String) : (a ++ b).toList = a.toList ++ b.toList := by
  cases a
  cases b
  rfl

lemma isPrefixOf_extend {b : List Char} :
    ∀ {l m : List Char}, b.isPrefixOf l = true →
      b.isPrefixOf (l ++ m) = true := by
  induction b with
  | nil => intro l m _; simp [List.isPrefixOf]
  | cons c b' ih =>
    intro l m h
    cases l with
    | nil => simp [List.isPrefixOf] at h
    | cons d l' =>
      simp only [List.isPrefixOf, List.cons_append, Bool.and_eq_true] at h ⊢
      exact ⟨h.1, ih h.2⟩

lemma bodiesPre_extend {t m : List Char} (h : bodiesPre t = true) :
    bodiesPre (t ++ m) = true := by
  simp only [bodiesPre, List.any_eq_true] at h ⊢
  obtain ⟨b, hb, hp⟩ := h
  exact ⟨b, hb, isPrefixOf_extend hp⟩

lemma ampOk_append : ∀ {a b : List Char}, ampOk a = true → ampOk b = true →
    ampOk (a ++ b) = true := by
  intro a
  induction a with
  | nil => intro b _ hb; exact hb
  | cons c t ih =>
    intro b ha hb
    rw [List.cons_append, ampOk_cons]
    rw [ampOk_cons, Bool.and_eq_true] at ha
    refine Bool.and_eq_true_iff.mpr ⟨?_, ih ha.2 hb⟩
    rcases Bool.or_eq_true_iff.mp ha.1 with h1 | h1
    · exact Bool.or_eq_true_iff.mpr (Or.inl h1)
    · exact Bool.or_eq_true_iff.mpr (Or.inr (bodiesPre_extend h1))

lemma ampOk_of_no_amp : ∀ {s : List Char}, (∀ c ∈ s, c ≠ '&') →
    ampOk s = true := by
  intro s
  induction s with
  | nil => intro _; rfl
  | cons c t ih =>
    intro h
    refine ampOk_cons_nonAmp ?_ (ih (fun x hx => h x (List.mem_cons_of_mem c hx)))
    simp [h c (List.mem_cons_self c t)]

lemma textOk_append {a b : List Char} (ha : textOk a = true)
    (hb : textOk b = true) : textOk (a ++ b) = true := by
  simp only [textOk, Bool.and_eq_true] at ha hb
  simp only [textOk, List.all_append, Bool.and_eq_true]
  exact ⟨⟨ha.1, hb.1⟩, ampOk_append ha.2 hb.2⟩

lemma noCde_of_no_rb : ∀ s : List Char, (∀ c ∈ s, c ≠ ']') → noCde s = true
  | [], _ => rfl
  | [_], _ => rfl
  | [_, _], _ => rfl
  | a :: b :: c :: t, h => by
    rw [noCde]
    have ha : a ≠ ']' := h a (List.mem_cons_self a _)
    refine Bool.and_eq_true_iff.mpr
      ⟨?_, noCde_of_no_rb (b :: c :: t)
        (fun x hx => h x (List.mem_cons_of_mem a hx))⟩
    simp [ha]

lemma charDataOk_of_textOk {d : List Char} (h : textOk d = true) :
    charDataOk d = true := by
  simp only [textOk, Bool.and_eq_true, List.all_eq_true] at h
  simp only [charDataOk, Bool.and_eq_true, List.all_eq_true]
  refine ⟨⟨?_, h.2⟩, ?_⟩
  · intro c hc
    have := h.1 c hc
    simp only [Bool.and_eq_true] at this ⊢
    exact ⟨this.1.1, this.1.2⟩
  · refine noCde_of_no_rb d (fun c hc => ?_)
    have := h.1 c hc
    simp only [Bool.and_eq_true, bne_iff_ne, ne_eq] at this
    exact this.2

lemma gtext {d : List Char} (h : textOk d = true) : Gram false d := by
  have := Gram.ctext d [] (charDataOk_of_textOk h) Gram.cnil
  simpa using this

lemma gram_append_aux {bb : Bool} {a : List Char} (ha : Gram bb a) :
    ∀ b : List Char, bb = false → Gram false b → Gram false (a ++ b) := by
  induction ha with
  | cnil => intro b _ hb; exact hb
  | ctext d rest hd _ ih =>
    intro b _ hb
    rw [List.append_assoc]
    exact Gram.ctext d (rest ++ b) hd (ih b rfl hb)
  | celem e rest he hrest ihe ih =>
    intro b _ hb
    rw [List.append_assoc]
    exact Gram.celem e (rest ++ b) he (ih b rfl hb)
  | selfClose name attrs hn hA =>
    intro b hbb _
    exact absurd hbb (by simp)
  | tagged name attrs content hn hA hc ih =>
    intro b hbb _
    exact absurd hbb (by simp)

lemma gappend {a b : List Char} (ha : Gram false a) (hb : Gram false b) :
    Gram false (a ++ b) :=
  gram_append_aux ha b rfl hb

lemma gelem {e : List Char} (h : Gram true e) : Gram false e := by
  have := Gram.celem e [] h Gram.cnil
  simpa using this

lemma attrsOk_append {a b : List Char} (ha : AttrsOk a) (hb : AttrsOk b) :
    AttrsOk (a ++ b) := by
  induction ha with
  | nil => exact hb
  | ws c rest hc _ ih => exact AttrsOk.ws c (rest ++ b) hc ih
  | attr name value rest hn hv _ ih =>
    have := AttrsOk.attr name value (rest ++ b) hn hv ih
    rw [List.cons_append]
    simpa [List.append_assoc] using this

lemma attrsOk_ws {s : List Char} (h : ∀ c ∈ s, isXmlWs c = true) :
    AttrsOk s := by
  induction s with
  | nil => exact AttrsOk.nil
  | cons c t ih =>
    exact AttrsOk.ws c t (h c (List.mem_cons_self c t))
      (ih (fun x hx => h x (List.mem_cons_of_mem c hx)))

lemma attrsOk_one (name value : String) (rest : List Char)
    (hn : xmlNameOk name.toList = true) (hv : attrValOk value.toList = true)
    (hr : AttrsOk rest) :
    AttrsOk (' ' :: name.toList ++ '=' :: '"' :: value.toList ++ '"' :: rest) :=
  AttrsOk.attr name.toList value.toList rest hn hv hr

/-- Scanner: every `<` is immediately followed by `/` or a name-start
character, and no string ends in `<`.  Every string the grammar derives
passes it; the escaper-bypassing probability text does not. -/
def noLtB : List Char → Bool
  | [] => true
  | [c] => c != '<'
  | a :: b :: t => (a != '<' || (b = '/' || isNameStart b)) && noLtB (b :: t)

lemma noLtB_cons_ne {c : Char} (hc : c ≠ '<') {z : List Char}
    (h : noLtB z = true) : noLtB (c :: z) = true := by
  cases z with
  | nil => simpa [noLtB] using hc
  | cons b t =>
    rw [noLtB]
    refine Bool.and_eq_true_iff.mpr ⟨?_, h⟩
    simp [hc]

lemma noLtB_append {y : List Char} (hy : noLtB y = true) :
    ∀ x : List Char, noLtB x = true → noLtB (x ++ y) = true
  | [], _ => hy
  | [c], hx => by
    have hc : c ≠ '<' := by simpa [noLtB] using hx
    exact noLtB_cons_ne hc hy
  | a :: b :: t, hx => by
    rw [noLtB, Bool.and_eq_true] at hx
    have ih := noLtB_append hy (b :: t) hx.2
    rw [List.cons_append]
    have hstep : noLtB (a :: (b :: t ++ y)) =
        ((a != '<' || (b = '/' || isNameStart b)) && noLtB (b :: t ++ y)) := by
      rw [List.cons_append]
      rfl
    rw [hstep]
    exact Bool.and_eq_true_iff.mpr ⟨hx.1, ih⟩

lemma noLtB_of_no_lt : ∀ {s : List Char}, (∀ c ∈ s, c ≠ '<') →
    noLtB s = true := by
  intro s
  induction s with
  | nil => intro _; rfl
  | cons c t ih =>
    intro h
    exact noLtB_cons_ne (h c (List.mem_cons_self c t))
      (ih (fun x hx => h x (List.mem_cons_of_mem c hx)))

lemma noLtB_cons_lt {z : List Char} (hz : noLtB z = true)
    (hh : ∀ b, z.head? = some b → b = '/' ∨ isNameStart b = true) :
    z ≠ [] → noLtB ('<' :: z) = true := by
  intro hne
  cases z with
  | nil => exact absurd rfl hne
  | cons b t =>
    rw [noLtB]
    refine Bool.and_eq_true_iff.mpr ⟨?_, hz⟩
    rcases hh b rfl with rfl | hb
    · simp
    · simp [hb]

lemma isNameChar_ne_lt {c : Char} (h : isNameChar c = true) : c ≠ '<' := by
  intro he
  subst he
  exact absurd h (by decide)

lemma isNameStart_ne_lt {c : Char} (h : isNameStart c = true) : c ≠ '<' := by
  intro he
  subst he
  exact absurd h (by decide)

lemma xmlNameOk_shape {name : List Char} (h : xmlNameOk name = true) :
    name ≠ [] ∧ (∀ c ∈ name, c ≠ '<') ∧
    (∀ b, name.head? = some b → b = '/' ∨ isNameStart b = true) := by
  cases name with
  | nil => exact absurd h (by decide)
  | cons c t =>
    rw [xmlNameOk, Bool.and_eq_true] at h
    refine ⟨List.cons_ne_nil c t, ?_, ?_⟩
    · intro x hx
      rcases List.mem_cons.mp hx with rfl | hx2
      · exact isNameStart_ne_lt h.1
      · exact isNameChar_ne_lt (List.all_eq_true.mp h.2 x hx2)
    · intro b hb
      injection hb with hb2
      subst hb2
      exact Or.inr h.1

lemma noLtB_name {name : List Char} (h : xmlNameOk name = true) :
    noLtB ('<' :: name) = true := by
  obtain ⟨hne, hlt, hhd⟩ := xmlNameOk_shape h
  exact noLtB_cons_lt (noLtB_of_no_lt hlt) hhd hne

lemma attrsOk_noLtB {a : List Char} (h : AttrsOk a) : noLtB a = true := by
  induction h with
  | nil => rfl
  | ws c rest hc _ ih =>
    refine noLtB_cons_ne ?_ ih
    intro he
    subst he
    exact absurd hc (by decide)
  | attr name value rest hn hv _ ih =>
    have hvlt : ∀ c ∈ value, c ≠ '<' := by
      intro c hc
      have := List.all_eq_true.mp
        (Bool.and_eq_true_iff.mp hv).1 c hc
      simp only [Bool.and_eq_true, bne_iff_ne, ne_eq] at this
      exact this.1.2
    obtain ⟨hne, hnlt, _⟩ := xmlNameOk_shape hn
    have h1 : noLtB ('"' :: rest) = true :=
      noLtB_cons_ne (by decide) ih
    have h2 : noLtB (value ++ '"' :: rest) = true :=
      noLtB_append h1 value (noLtB_of_no_lt hvlt)
    have h3 : noLtB (('=' :: '"' :: value) ++ '"' :: rest) = true := by
      rw [List.cons_append, List.cons_append]
      exact noLtB_cons_ne (by decide) (noLtB_cons_ne (by decide) h2)
    have h5 : noLtB (' ' :: name) = true :=
      noLtB_cons_ne (by decide) (noLtB_of_no_lt hnlt)
    rw [List.append_assoc]
    exact noLtB_append h3 (' ' :: name) h5

lemma charDataOk_no_lt {d : List Char} (h : charDataOk d = true) :
    ∀ c ∈ d, c ≠ '<' := by
  intro c hc
  have := List.all_eq_true.mp
    (Bool.and_eq_true_iff.mp (Bool.and_eq_true_iff.mp h).1).1 c hc
  simp only [Bool.and_eq_true, bne_iff_ne, ne_eq] at this
  exact this.2

lemma gram_noLtB {bb : Bool} {s : List Char} (h : Gram bb s) :
    noLtB s = true := by
  induction h with
  | cnil => rfl
  | ctext d rest hd _ ih =>
    exact noLtB_append ih d (noLtB_of_no_lt (charDataOk_no_lt hd))
  | celem e rest _ _ ihe ih =>
    exact noLtB_append ih e ihe
  | selfClose name attrs hn hA =>
    obtain ⟨hne, hnlt, hhd⟩ := xmlNameOk_shape hn
    have h1 : noLtB (attrs ++ ['/', '>']) = true :=
      noLtB_append (by decide) attrs (attrsOk_noLtB hA)
    have h2 : noLtB (name ++ (attrs ++ ['/', '>'])) = true :=
      noLtB_append h1 name (noLtB_of_no_lt hnlt)
    have h3 : noLtB ('<' :: (name ++ (attrs ++ ['/', '>']))) = true := by
      refine noLtB_cons_lt h2 ?_ ?_
      · intro b hb
        cases name with
        | nil => exact absurd rfl hne
        | cons c t =>
          rw [List.cons_append] at hb
          injection hb with hb2
          subst hb2
          exact hhd _ rfl
      · cases name with
        | nil => exact absurd rfl hne
        | cons c t => simp
    have hshape : ('<' :: name ++ attrs ++ ['/', '>']) =
        '<' :: (name ++ (attrs ++ ['/', '>'])) := by
      simp [List.append_assoc]
    rw [hshape]
    exact h3
  | tagged name attrs content hn hA hc ih =>
    obtain ⟨hne, hnlt, hhd⟩ := xmlNameOk_shape hn
    have h45 : noLtB (('<' :: '/' :: name) ++ ['>']) = true := by
      rw [List.cons_append, List.cons_append]
      refine noLtB_cons_lt ?_ ?_ (List.cons_ne_nil _ _)
      · exact noLtB_cons_ne (by decide)
          (noLtB_append (by decide) name (noLtB_of_no_lt hnlt))
      · intro b hb
        injection hb with hb2
        subst hb2
        exact Or.inl rfl
    have h345 : noLtB (('>' :: content) ++ (('<' :: '/' :: name) ++ ['>']))
        = true := by
      rw [List.cons_append]
      exact noLtB_cons_ne (by decide) (noLtB_append h45 content ih)
    have h2345 : noLtB (attrs ++ (('>' :: content) ++
        (('<' :: '/' :: name) ++ ['>']))) = true :=
      noLtB_append h345 attrs (attrsOk_noLtB hA)
    have h1 : noLtB (name ++ (attrs ++ (('>' :: content) ++
        (('<' :: '/' :: name) ++ ['>'])))) = true :=
      noLtB_append h2345 name (noLtB_of_no_lt hnlt)
    have h0 : noLtB ('<' :: (name ++ (attrs ++ (('>' :: content) ++
        (('<' :: '/' :: name) ++ ['>']))))) = true := by
      refine noLtB_cons_lt h1 ?_ ?_
      · intro b hb
        cases name with
        | nil => exact absurd rfl hne
        | cons c t =>
          rw [List.cons_append] at hb
          injection hb with hb2
          subst hb2
          exact hhd _ rfl
      · cases name with
        | nil => exact absurd rfl hne
        | cons c t => simp
    have hshape : ('<' :: name ++ attrs ++
        '>' :: content ++ '<' :: '/' :: name ++ ['>']) =
        '<' :: (name ++ (attrs ++ (('>' :: content) ++
          (('<' :: '/' :: name) ++ ['>'])))) := by
      simp [List.append_assoc]
    rw [hshape]
    exact h0

/-- Any document of the converter's shape passes the `<`-successor scan on
its root-element region. -/
lemma docOk_noLtB {s : List Char} (h : DocOk s) :
    noLtB (s.drop (prologChars.length + 1)) = true := by
  obtain ⟨e, he, hs⟩ := h
  have : s.drop (prologChars.length + 1) = e := by
    rw [hs]
    have : prologChars ++ '\n' :: e = (prologChars ++ ['\n']) ++ e := by
      simp
    rw [this]
    have hlen : (prologChars ++ ['\n']).length = prologChars.length + 1 := by
      simp
    rw [← hlen, List.drop_left]
  rw [this]
  exact gram_noLtB he

/-- A C3 counterexample input: a valid connection record whose probability
string is `<` — the conversion succeeds but embeds the `<` unescaped in the
condition text. -/
def c3ceConn : JObj :=
  [("id", .str "c"), ("fromId", .str "A"), ("toId", .str "B"),
   ("probability", .str "<")]

set_option maxRecDepth 100000 in
/-- **C3 (counterexample to the claim as stated)**: on a valid input the
converter emits a document containing a raw `<` followed by `}` inside
element content, so the output is not well-formed XML — no root-element
derivation exists, since any derived document passes the `<`-successor
scan. -/
theorem C3_wellformed_counterexample :
    ∃ lines, convertCore [] [c3ceConn] (.obj []) = .ok lines ∧
      listInfix ['<', '}'] (joinNLL lines) = true ∧
      ¬ DocOk (joinNLL lines) := by
  refine ⟨_, rfl, by decide, fun hD => ?_⟩
  have h := docOk_noLtB hD
  exact absurd h (by decide)

lemma attrValOk_of_chars {s : List Char}
    (h : ∀ c ∈ s, xmlCharOk c = true ∧ c ≠ '<' ∧ c ≠ '"' ∧ c ≠ '&') :
    attrValOk s = true := by
  refine Bool.and_eq_true_iff.mpr ⟨?_, ampOk_of_no_amp (fun c hc => (h c hc).2.2.2)⟩
  refine List.all_eq_true.mpr (fun c hc => ?_)
  obtain ⟨h1, h2, h3, _⟩ := h c hc
  simp [h1, h2, h3]

lemma isSafeIdChar_attr {c : Char} (h : isSafeIdChar c = true) :
    xmlCharOk c = true ∧ c ≠ '<' ∧ c ≠ '"' ∧ c ≠ '&' := by
  simp only [isSafeIdChar, Bool.or_eq_true, Bool.and_eq_true,
    decide_eq_true_eq] at h
  have hn : 0x20 ≤ c.toNat ∧ c.toNat ≠ 0x3c ∧ c.toNat ≠ 0x22 ∧
      c.toNat ≠ 0x26 := by omega
  refine ⟨?_, ?_, ?_, ?_⟩
  · simp only [xmlCharOk, Bool.or_eq_true, decide_eq_true_eq]
    exact Or.inr hn.1
  · intro he; subst he; exact hn.2.1 rfl
  · intro he; subst he; exact hn.2.2.1 rfl
  · intro he; subst he; exact hn.2.2.2 rfl

lemma isAsciiAlpha_attr {c : Char} (h : isAsciiAlpha c = true) :
    xmlCharOk c = true ∧ c ≠ '<' ∧ c ≠ '"' ∧ c ≠ '&' := by
  refine isSafeIdChar_attr ?_
  simp only [isAsciiAlpha, Bool.or_eq_true, Bool.and_eq_true,
    decide_eq_true_eq] at h
  simp only [isSafeIdChar, Bool.or_eq_true, Bool.and_eq_true,
    decide_eq_true_eq]
  omega

lemma attrValOk_pattern {s : String} (h : matchesIdPattern s = true) :
    attrValOk s.toList = true := by
  refine attrValOk_of_chars (fun c hc => ?_)
  rcases hl : s.toList with _ | ⟨c0, rest⟩
  · rw [hl] at hc; simp at hc
  · unfold matchesIdPattern at h
    rw [hl] at h hc
    rw [Bool.and_eq_true] at h
    rcases List.mem_cons.mp hc with rfl | hc2
    · rcases Bool.or_eq_true_iff.mp h.1 with h1 | h1
      · exact isAsciiAlpha_attr h1
      · have : c = '_' := by simpa using h1
        subst this
        exact isSafeIdChar_attr (by decide)
    · exact isSafeIdChar_attr (List.all_eq_true.mp h.2 c hc2)

lemma attrValOk_append {a b : List Char} (ha : attrValOk a = true)
    (hb : attrValOk b = true) : attrValOk (a ++ b) = true := by
  rw [attrValOk, Bool.and_eq_true] at ha hb
  rw [attrValOk, List.all_append]
  refine Bool.and_eq_true_iff.mpr
    ⟨Bool.and_eq_true_iff.mpr ⟨ha.1, hb.1⟩, ampOk_append ha.2 hb.2⟩

lemma attrValOk_DI {s : String} (h : matchesIdPattern s = true) :
    attrValOk ("DI_" ++ s).toList = true := by
  rw [toList_append]
  exact attrValOk_append (by decide) (attrValOk_pattern h)

lemma xmlCharOk_of_not_ctrl {c : Char} (h : isCtrlChar c = false) :
    xmlCharOk c = true := by
  simp only [isCtrlChar, Bool.or_eq_false_iff, decide_eq_false_iff_not] at h
  simp only [xmlCharOk, Bool.or_eq_true, decide_eq_true_eq]
  omega

lemma attrValOk_escape (v : JVal) :
    attrValOk (escape_xml_thoroughly v).toList = true := by
  unfold escape_xml_thoroughly
  by_cases hT : v.truthy = true
  · rw [if_neg (not_not_intro hT), toList_mk]
    refine Bool.and_eq_true_iff.mpr
      ⟨?_, escapeCore_ampOk (pyStr v).toList⟩
    refine List.all_eq_true.mpr (fun c hc => ?_)
    have h := escapeCore_chars (pyStr v).toList c hc
    simp only [Bool.and_eq_true, bne_iff_ne, ne_eq, Bool.not_eq_true'] at h
    have h1 := xmlCharOk_of_not_ctrl h.2
    simp [h1, h.1.1.1.1, h.1.1.2]
  · rw [if_pos (by simpa using hT)]
    decide

lemma digitChar_safe : ∀ d : Nat, isSafeIdChar (digitChar d) = true
  | 0 => rfl
  | 1 => rfl
  | 2 => rfl
  | 3 => rfl
  | 4 => rfl
  | 5 => rfl
  | 6 => rfl
  | 7 => rfl
  | 8 => rfl
  | 9 => rfl
  | _ + 10 => rfl

lemma natDigits_safe : ∀ (f n : Nat) (c : Char), c ∈ natDigits f n →
    isSafeIdChar c = true := by
  intro f
  induction f with
  | zero => intro n c h; simp [natDigits] at h
  | succ f ih =>
    intro n c h
    rw [natDigits] at h
    split_ifs at h with h1
    · rcases List.mem_singleton.mp h with rfl
      exact digitChar_safe n
    · rcases List.mem_append.mp h with h2 | h2
      · exact ih (n / 10) c h2
      · rcases List.mem_singleton.mp h2 with rfl
        exact digitChar_safe (n % 10)

lemma attrValOk_fmt1 (q : Frac) : attrValOk (fmt1 q).toList = true := by
  rw [fmt1]
  rw [toList_append, toList_append, toList_append]
  refine attrValOk_append (attrValOk_append (attrValOk_append ?_ ?_) ?_) ?_
  · split_ifs
    · decide
    · decide
  · rw [toList_mk]
    refine attrValOk_of_chars (fun c hc => ?_)
    exact isSafeIdChar_attr (natDigits_safe _ _ c hc)
  · decide
  · rw [toList_mk]
    refine attrValOk_of_chars (fun c hc => ?_)
    rcases List.mem_singleton.mp hc with rfl
    exact isSafeIdChar_attr (digitChar_safe _)

/-- A block of emitted lines whose newline-terminated text can extend any
well-formed content. -/
def BlockOk (ls : List String) : Prop :=
  ∀ rest : List Char, Gram false rest → Gram false (unl ls ++ rest)

lemma blockOk_nil : BlockOk [] := fun rest hrest => hrest

lemma blockOk_append {a b : List String} (ha : BlockOk a) (hb : BlockOk b) :
    BlockOk (a ++ b) := by
  intro rest hrest
  rw [unl_append, List.append_assoc]
  exact ha _ (hb rest hrest)

lemma blockOk_flatten : ∀ {bs : List (List String)},
    (∀ b ∈ bs, BlockOk b) → BlockOk bs.flatten := by
  intro bs
  induction bs with
  | nil => intro _; exact blockOk_nil
  | cons b rest ih =>
    intro h
    rw [List.flatten_cons]
    exact blockOk_append (h b (List.mem_cons_self b rest))
      (ih (fun x hx => h x (List.mem_cons_of_mem b hx)))

lemma blockOk_each : ∀ {ls : List String},
    (∀ l ∈ ls, BlockOk [l]) → BlockOk ls := by
  intro ls
  induction ls with
  | nil => intro _; exact blockOk_nil
  | cons l rest ih =>
    intro h
    have := blockOk_append (h l (List.mem_cons_self l rest))
      (ih (fun x hx => h x (List.mem_cons_of_mem l hx)))
    simpa using this

lemma blockOk_text {l : String} (h : textOk l.toList = true) :
    BlockOk [l] := by
  intro rest hrest
  have hg : Gram false ((l.toList ++ ['\n']) ++ rest) :=
    gappend (gtext (textOk_append h (by decide))) hrest
  simpa [unl, List.append_assoc] using hg

/-- Master lemma for a tagged element spanning an open line, inner lines,
and a close line at the same indentation. -/
lemma blockOk_tagged (indent tag : String) (attrsL : List Char)
    (inner : List String) (openLine closeLine : String)
    (hind : textOk indent.toList = true)
    (htag : xmlNameOk tag.toList = true) (hA : AttrsOk attrsL)
    (hinner : BlockOk inner)
    (hopen : openLine.toList =
      indent.toList ++ '<' :: tag.toList ++ attrsL ++ ['>'])
    (hclose : closeLine.toList =
      indent.toList ++ '<' :: '/' :: tag.toList ++ ['>']) :
    BlockOk (openLine :: inner ++ [closeLine]) := by
  intro rest hrest
  have hcontent : Gram false ('\n' :: (unl inner ++ indent.toList)) := by
    have := gappend (gtext (show textOk ['\n'] = true by decide))
      (hinner indent.toList (gtext hind))
    simpa using this
  have E : Gram true ('<' :: tag.toList ++ attrsL ++
      '>' :: ('\n' :: (unl inner ++ indent.toList)) ++
      '<' :: '/' :: tag.toList ++ ['>']) :=
    Gram.tagged tag.toList attrsL ('\n' :: (unl inner ++ indent.toList))
      htag hA hcontent
  have hnl : Gram false ('\n' :: rest) := by
    have := gappend (gtext (show textOk ['\n'] = true by decide)) hrest
    simpa using this
  have hg : Gram false (indent.toList ++
      (('<' :: tag.toList ++ attrsL ++
        '>' :: ('\n' :: (unl inner ++ indent.toList)) ++
        '<' :: '/' :: tag.toList ++ ['>']) ++ ('\n' :: rest))) :=
    gappend (gtext hind) (gappend (gelem E) hnl)
  rw [unl_append, unl_cons]
  have hunl1 : unl [closeLine] = closeLine.toList ++ ['\n'] := by
    simp [unl]
  rw [hunl1, hopen, hclose]
  simp only [List.append_assoc, List.cons_append] at hg ⊢
  exact hg

/-- Master lemma for a one-line self-closed element. -/
lemma blockOk_selfClose (indent tag : String) (attrsL : List Char)
    (line : String)
    (hind : textOk indent.toList = true)
    (htag : xmlNameOk tag.toList = true) (hA : AttrsOk attrsL)
    (hline : line.toList =
      indent.toList ++ '<' :: tag.toList ++ attrsL ++ ['/', '>']) :
    BlockOk [line] := by
  intro rest hrest
  have hnl : Gram false ('\n' :: rest) := by
    have := gappend (gtext (show textOk ['\n'] = true by decide)) hrest
    simpa using this
  have E : Gram true ('<' :: tag.toList ++ attrsL ++ ['/', '>']) :=
    Gram.selfClose tag.toList attrsL htag hA
  have hg : Gram false (indent.toList ++
      (('<' :: tag.toList ++ attrsL ++ ['/', '>']) ++ ('\n' :: rest))) :=
    gappend (gtext hind) (gappend (gelem E) hnl)
  have hunl : unl [line] = line.toList ++ ['\n'] := by simp [unl]
  rw [hunl, hline]
  simp only [List.append_assoc, List.cons_append] at hg ⊢
  exact hg

/-- One emitted `simsam:property` line. -/
lemma blockOk_propLine (k v : String)
    (hk : attrValOk k.toList = true) (hv : attrValOk v.toList = true) :
    BlockOk ["          <simsam:property name=\"" ++ k ++
      "\" value=\"" ++ v ++ "\" />"] := by
  refine blockOk_selfClose "          " "simsam:property"
    (' ' :: "name".toList ++ '=' :: '"' :: k.toList ++ '"' ::
      (' ' :: "value".toList ++ '=' :: '"' :: v.toList ++ '"' :: [' ']))
    _ (by decide) (by decide) ?_ ?_
  · exact attrsOk_one "name" k _ (by decide) hk
      (attrsOk_one "value" v [' '] (by decide) hv
        (attrsOk_ws (by decide)))
  · simp only [toList_append, List.append_assoc, List.cons_append]
    rfl

/-- The extension block wrapping a list of property lines. -/
lemma blockOk_ext (propLines : List String)
    (h : ∀ l ∈ propLines, BlockOk [l]) :
    BlockOk (["      <extensionElements>", "        <simsam:properties>"] ++
      propLines ++
      ["        </simsam:properties>", "      </extensionElements>"]) := by
  have hinner : BlockOk ("        <simsam:properties>" :: propLines ++
      ["        </simsam:properties>"]) :=
    blockOk_tagged "        " "simsam:properties" [] propLines _ _
      (by decide) (by decide) AttrsOk.nil (blockOk_each h)
      (by decide) (by decide)
  have houter : BlockOk ("      <extensionElements>" ::
      ("        <simsam:properties>" :: propLines ++
        ["        </simsam:properties>"]) ++
      ["      </extensionElements>"]) :=
    blockOk_tagged "      " "extensionElements" []
      ("        <simsam:properties>" :: propLines ++
        ["        </simsam:properties>"]) _ _
      (by decide) (by decide) AttrsOk.nil hinner
      (by decide) (by decide)
  have heq : ("      <extensionElements>" ::
      ("        <simsam:properties>" :: propLines ++
        ["        </simsam:properties>"]) ++
      ["      </extensionElements>"]) =
      (["      <extensionElements>", "        <simsam:properties>"] ++
        propLines ++
        ["        </simsam:properties>", "      </extensionElements>"]) := by
    simp
  rw [heq] at houter
  exact houter

/-- One whole element block (open line, optional extension block, close
line, blank line). -/
lemma blockOk_element (tag eid nm : String) (ext : List String)
    (htag : xmlNameOk tag.toList = true)
    (hid : attrValOk eid.toList = true) (hnm : attrValOk nm.toList = true)
    (hext : BlockOk ext) :
    BlockOk (("    <" ++ tag ++ " id=\"" ++ eid ++ "\" name=\"" ++ nm ++
      "\">") :: ext ++ ["    </" ++ tag ++ ">", ""]) := by
  have hmain : BlockOk (("    <" ++ tag ++ " id=\"" ++ eid ++ "\" name=\"" ++
      nm ++ "\">") :: ext ++ ["    </" ++ tag ++ ">"]) := by
    refine blockOk_tagged "    " tag
      (' ' :: "id".toList ++ '=' :: '"' :: eid.toList ++ '"' ::
        (' ' :: "name".toList ++ '=' :: '"' :: nm.toList ++ '"' :: []))
      ext _ _ (by decide) htag ?_ hext ?_ ?_
    · exact attrsOk_one "id" eid _ (by decide) hid
        (attrsOk_one "name" nm [] (by decide) hnm AttrsOk.nil)
    · simp only [toList_append, List.append_assoc, List.cons_append]
      rfl
    · simp only [toList_append, List.append_assoc, List.cons_append]
      rfl
  have hfull := blockOk_append hmain (blockOk_text
    (show textOk ("" : String).toList = true by decide))
  have heq : ((("    <" ++ tag ++ " id=\"" ++ eid ++ "\" name=\"" ++ nm ++
      "\">") :: ext ++ ["    </" ++ tag ++ ">"]) ++ [""]) =
      (("    <" ++ tag ++ " id=\"" ++ eid ++ "\" name=\"" ++ nm ++
        "\">") :: ext ++ ["    </" ++ tag ++ ">", ""]) := by
    simp
  rw [heq] at hfull
  exact hfull

/-- The condition block for an emitted probability text. -/
lemma blockOk_cond (probS : String)
    (hp : textOk probS.toList = true) :
    BlockOk ["      <conditionExpression xsi:type=\"tFormalExpression\">",
      "        $\x7bMath.random() &lt;= " ++ probS ++ "\x7d",
      "      </conditionExpression>"] := by
  have htext : BlockOk ["        $\x7bMath.random() &lt;= " ++ probS ++
      "\x7d"] := by
    refine blockOk_text ?_
    rw [toList_append, toList_append]
    exact textOk_append (textOk_append (by decide) hp) (by decide)
  have h := blockOk_tagged "      " "conditionExpression"
    (' ' :: "xsi:type".toList ++ '=' :: '"' ::
      "tFormalExpression".toList ++ '"' :: [])
    ["        $\x7bMath.random() &lt;= " ++ probS ++ "\x7d"]
    "      <conditionExpression xsi:type=\"tFormalExpression\">"
    "      </conditionExpression>"
    (by decide) (by decide)
    (attrsOk_one "xsi:type" "tFormalExpression" [] (by decide) (by decide)
      AttrsOk.nil)
    (blockOk_each (fun l hl => by
      rcases List.mem_singleton.mp hl with rfl
      exact htext))
    (by decide) (by decide)
  simpa using h

/-- One whole sequenceFlow block. -/
lemma blockOk_connection (cid src tgt : String) (cond : List String)
    (hid : attrValOk cid.toList = true) (hsrc : attrValOk src.toList = true)
    (htgt : attrValOk tgt.toList = true) (hcond : BlockOk cond) :
    BlockOk (("    <sequenceFlow id=\"" ++ cid ++ "\" sourceRef=\"" ++ src ++
      "\" targetRef=\"" ++ tgt ++ "\">") :: cond ++
      ["    </sequenceFlow>", ""]) := by
  have hmain : BlockOk (("    <sequenceFlow id=\"" ++ cid ++
      "\" sourceRef=\"" ++ src ++ "\" targetRef=\"" ++ tgt ++ "\">") ::
      cond ++ ["    </sequenceFlow>"]) := by
    refine blockOk_tagged "    " "sequenceFlow"
      (' ' :: "id".toList ++ '=' :: '"' :: cid.toList ++ '"' ::
        (' ' :: "sourceRef".toList ++ '=' :: '"' :: src.toList ++ '"' ::
          (' ' :: "targetRef".toList ++ '=' :: '"' :: tgt.toList ++
            '"' :: [])))
      cond _ _ (by decide) (by decide) ?_ hcond ?_ ?_
    · exact attrsOk_one "id" cid _ (by decide) hid
        (attrsOk_one "sourceRef" src _ (by decide) hsrc
          (attrsOk_one "targetRef" tgt [] (by decide) htgt AttrsOk.nil))
    · simp only [toList_append, List.append_assoc, List.cons_append]
      rfl
    · simp only [toList_append, List.append_assoc, List.cons_append]
      rfl
  have hfull := blockOk_append hmain (blockOk_text
    (show textOk ("" : String).toList = true by decide))
  have heq : ((("    <sequenceFlow id=\"" ++ cid ++ "\" sourceRef=\"" ++
      src ++ "\" targetRef=\"" ++ tgt ++ "\">") :: cond ++
      ["    </sequenceFlow>"]) ++ [""]) =
      (("    <sequenceFlow id=\"" ++ cid ++ "\" sourceRef=\"" ++ src ++
        "\" targetRef=\"" ++ tgt ++ "\">") :: cond ++
        ["    </sequenceFlow>", ""]) := by
    simp
  rw [heq] at hfull
  exact hfull

/-- One DI shape block (3 lines). -/
lemma blockOk_shape (eid : String) (x y w h : Frac)
    (hid : attrValOk eid.toList = true) :
    BlockOk ["      <bpmndi:BPMNShape id=\"DI_" ++ eid ++
        "\" bpmnElement=\"" ++ eid ++ "\">",
      "        <dc:Bounds x=\"" ++ fmt1 x ++ "\" y=\"" ++ fmt1 y ++
        "\" width=\"" ++ fmt1 w ++ "\" height=\"" ++ fmt1 h ++ "\" />",
      "      </bpmndi:BPMNShape>"] := by
  have hDI : attrValOk ("DI_" ++ eid).toList = true := by
    rw [toList_append]
    exact attrValOk_append (by decide) hid
  have hbounds : BlockOk ["        <dc:Bounds x=\"" ++ fmt1 x ++
      "\" y=\"" ++ fmt1 y ++ "\" width=\"" ++ fmt1 w ++
      "\" height=\"" ++ fmt1 h ++ "\" />"] := by
    refine blockOk_selfClose "        " "dc:Bounds"
      (' ' :: "x".toList ++ '=' :: '"' :: (fmt1 x).toList ++ '"' ::
        (' ' :: "y".toList ++ '=' :: '"' :: (fmt1 y).toList ++ '"' ::
          (' ' :: "width".toList ++ '=' :: '"' :: (fmt1 w).toList ++ '"' ::
            (' ' :: "height".toList ++ '=' :: '"' :: (fmt1 h).toList ++
              '"' :: [' ']))))
      _ (by decide) (by decide) ?_ ?_
    · exact attrsOk_one "x" (fmt1 x) _ (by decide) (attrValOk_fmt1 x)
        (attrsOk_one "y" (fmt1 y) _ (by decide) (attrValOk_fmt1 y)
          (attrsOk_one "width" (fmt1 w) _ (by decide) (attrValOk_fmt1 w)
            (attrsOk_one "height" (fmt1 h) [' '] (by decide)
              (attrValOk_fmt1 h) (attrsOk_ws (by decide)))))
    · simp only [toList_append, List.append_assoc, List.cons_append]
      rfl
  have h := blockOk_tagged "      " "bpmndi:BPMNShape"
    (' ' :: "id".toList ++ '=' :: '"' :: ("DI_" ++ eid).toList ++ '"' ::
      (' ' :: "bpmnElement".toList ++ '=' :: '"' :: eid.toList ++
        '"' :: []))
    ["        <dc:Bounds x=\"" ++ fmt1 x ++ "\" y=\"" ++ fmt1 y ++
      "\" width=\"" ++ fmt1 w ++ "\" height=\"" ++ fmt1 h ++ "\" />"]
    ("      <bpmndi:BPMNShape id=\"DI_" ++ eid ++ "\" bpmnElement=\"" ++
      eid ++ "\">")
    "      </bpmndi:BPMNShape>"
    (by decide) (by decide)
    (attrsOk_one "id" ("DI_" ++ eid) _ (by decide) hDI
      (attrsOk_one "bpmnElement" eid [] (by decide) hid AttrsOk.nil))
    (blockOk_each (fun l hl => by
      rcases List.mem_singleton.mp hl with rfl
      exact hbounds))
    (by simp only [toList_append, List.append_assoc, List.cons_append]; rfl)
    (by decide)
  simpa using h

/-- One DI edge block (4 lines). -/
lemma blockOk_edge (cid : String) (x1 y1 x2 y2 : Frac)
    (hid : attrValOk cid.toList = true) :
    BlockOk ["      <bpmndi:BPMNEdge id=\"DI_" ++ cid ++
        "\" bpmnElement=\"" ++ cid ++ "\">",
      "        <di:waypoint x=\"" ++ fmt1 x1 ++ "\" y=\"" ++ fmt1 y1 ++
        "\" />",
      "        <di:waypoint x=\"" ++ fmt1 x2 ++ "\" y=\"" ++ fmt1 y2 ++
        "\" />",
      "      </bpmndi:BPMNEdge>"] := by
  have hDI : attrValOk ("DI_" ++ cid).toList = true := by
    rw [toList_append]
    exact attrValOk_append (by decide) hid
  have hwp : ∀ a b : Frac, BlockOk ["        <di:waypoint x=\"" ++ fmt1 a ++
      "\" y=\"" ++ fmt1 b ++ "\" />"] := by
    intro a b
    refine blockOk_selfClose "        " "di:waypoint"
      (' ' :: "x".toList ++ '=' :: '"' :: (fmt1 a).toList ++ '"' ::
        (' ' :: "y".toList ++ '=' :: '"' :: (fmt1 b).toList ++
          '"' :: [' ']))
      _ (by decide) (by decide) ?_ ?_
    · exact attrsOk_one "x" (fmt1 a) _ (by decide) (attrValOk_fmt1 a)
        (attrsOk_one "y" (fmt1 b) [' '] (by decide) (attrValOk_fmt1 b)
          (attrsOk_ws (by decide)))
    · simp only [toList_append, List.append_assoc, List.cons_append]
      rfl
  have h := blockOk_tagged "      " "bpmndi:BPMNEdge"
    (' ' :: "id".toList ++ '=' :: '"' :: ("DI_" ++ cid).toList ++ '"' ::
      (' ' :: "bpmnElement".toList ++ '=' :: '"' :: cid.toList ++
        '"' :: []))
    ["        <di:waypoint x=\"" ++ fmt1 x1 ++ "\" y=\"" ++ fmt1 y1 ++
        "\" />",
     "        <di:waypoint x=\"" ++ fmt1 x2 ++ "\" y=\"" ++ fmt1 y2 ++
        "\" />"]
    ("      <bpmndi:BPMNEdge id=\"DI_" ++ cid ++ "\" bpmnElement=\"" ++
      cid ++ "\">")
    "      </bpmndi:BPMNEdge>"
    (by decide) (by decide)
    (attrsOk_one "id" ("DI_" ++ cid) _ (by decide) hDI
      (attrsOk_one "bpmnElement" cid [] (by decide) hid AttrsOk.nil))
    (blockOk_each (fun l hl => by
      rcases List.mem_cons.mp hl with rfl | hl2
      · exact hwp x1 y1
      · rcases List.mem_singleton.mp hl2 with rfl
        exact hwp x2 y2))
    (by simp only [toList_append, List.append_assoc, List.cons_append]; rfl)
    (by decide)
  simpa using h

/-- The attribute region of the emitted `definitions` open tag (it spans
header lines 2–9; the line breaks are attribute-separating whitespace). -/
def defnAttrsChars : List Char :=
  (" xmlns=\"http://www.omg.org/spec/BPMN/20100524/MODEL\"\n" ++
   "  xmlns:bpmndi=\"http://www.omg.org/spec/BPMN/20100524/DI\"\n" ++
   "  xmlns:dc=\"http://www.omg.org/spec/DD/20100524/DC\"\n" ++
   "  xmlns:di=\"http://www.omg.org/spec/DD/20100524/DI\"\n" ++
   "  xmlns:simsam=\"http://simsam.process/extension\"\n" ++
   "  xmlns:xsi=\"http://www.w3.org/2001/XMLSchema-instance\"\n" ++
   "  id=\"Definitions_simsam\"\n" ++
   "  targetNamespace=\"http://bpmn.io/schema/bpmn\"").toList

lemma attrsOk_defn : AttrsOk defnAttrsChars := by
  refine attrsOk_one "xmlns" "http://www.omg.org/spec/BPMN/20100524/MODEL"
    _ (by decide) (by decide) ?_
  refine AttrsOk.ws '\n' _ (by decide) (AttrsOk.ws ' ' _ (by decide) ?_)
  refine attrsOk_one "xmlns:bpmndi" "http://www.omg.org/spec/BPMN/20100524/DI"
    _ (by decide) (by decide) ?_
  refine AttrsOk.ws '\n' _ (by decide) (AttrsOk.ws ' ' _ (by decide) ?_)
  refine attrsOk_one "xmlns:dc" "http://www.omg.org/spec/DD/20100524/DC"
    _ (by decide) (by decide) ?_
  refine AttrsOk.ws '\n' _ (by decide) (AttrsOk.ws ' ' _ (by decide) ?_)
  refine attrsOk_one "xmlns:di" "http://www.omg.org/spec/DD/20100524/DI"
    _ (by decide) (by decide) ?_
  refine AttrsOk.ws '\n' _ (by decide) (AttrsOk.ws ' ' _ (by decide) ?_)
  refine attrsOk_one "xmlns:simsam" "http://simsam.process/extension"
    _ (by decide) (by decide) ?_
  refine AttrsOk.ws '\n' _ (by decide) (AttrsOk.ws ' ' _ (by decide) ?_)
  refine attrsOk_one "xmlns:xsi" "http://www.w3.org/2001/XMLSchema-instance"
    _ (by decide) (by decide) ?_
  refine AttrsOk.ws '\n' _ (by decide) (AttrsOk.ws ' ' _ (by decide) ?_)
  refine attrsOk_one "id" "Definitions_simsam" _ (by decide) (by decide) ?_
  refine AttrsOk.ws '\n' _ (by decide) (AttrsOk.ws ' ' _ (by decide) ?_)
  exact attrsOk_one "targetNamespace" "http://bpmn.io/schema/bpmn" []
    (by decide) (by decide) AttrsOk.nil

/-- The DI wrapper: diagram and plane around the shape and edge blocks. -/
lemma blockOk_di (se : List String) (hse : BlockOk se) :
    BlockOk (["  <bpmndi:BPMNDiagram id=\"BPMNDiagram_1\">",
      "    <bpmndi:BPMNPlane id=\"BPMNPlane_1\" bpmnElement=\"Process_simsam\">"]
      ++ se ++ ["    </bpmndi:BPMNPlane>", "  </bpmndi:BPMNDiagram>"]) := by
  have hplane : BlockOk
      ("    <bpmndi:BPMNPlane id=\"BPMNPlane_1\" bpmnElement=\"Process_simsam\">"
        :: se ++ ["    </bpmndi:BPMNPlane>"]) :=
    blockOk_tagged "    " "bpmndi:BPMNPlane"
      (' ' :: "id".toList ++ '=' :: '"' :: "BPMNPlane_1".toList ++ '"' ::
        (' ' :: "bpmnElement".toList ++ '=' :: '"' ::
          "Process_simsam".toList ++ '"' :: []))
      se _ _ (by decide) (by decide)
      (attrsOk_one "id" "BPMNPlane_1" _ (by decide) (by decide)
        (attrsOk_one "bpmnElement" "Process_simsam" [] (by decide)
          (by decide) AttrsOk.nil))
      hse (by decide) (by decide)
  have hdiag : BlockOk
      ("  <bpmndi:BPMNDiagram id=\"BPMNDiagram_1\">" ::
        ("    <bpmndi:BPMNPlane id=\"BPMNPlane_1\" bpmnElement=\"Process_simsam\">"
          :: se ++ ["    </bpmndi:BPMNPlane>"]) ++
        ["  </bpmndi:BPMNDiagram>"]) :=
    blockOk_tagged "  " "bpmndi:BPMNDiagram"
      (' ' :: "id".toList ++ '=' :: '"' :: "BPMNDiagram_1".toList ++
        '"' :: [])
      ("    <bpmndi:BPMNPlane id=\"BPMNPlane_1\" bpmnElement=\"Process_simsam\">"
        :: se ++ ["    </bpmndi:BPMNPlane>"]) _ _
      (by decide) (by decide)
      (attrsOk_one "id" "BPMNDiagram_1" [] (by decide) (by decide)
        AttrsOk.nil)
      hplane (by decide) (by decide)
  have heq : ("  <bpmndi:BPMNDiagram id=\"BPMNDiagram_1\">" ::
      ("    <bpmndi:BPMNPlane id=\"BPMNPlane_1\" bpmnElement=\"Process_simsam\">"
        :: se ++ ["    </bpmndi:BPMNPlane>"]) ++
      ["  </bpmndi:BPMNDiagram>"]) =
      (["  <bpmndi:BPMNDiagram id=\"BPMNDiagram_1\">",
        "    <bpmndi:BPMNPlane id=\"BPMNPlane_1\" bpmnElement=\"Process_simsam\">"]
        ++ se ++ ["    </bpmndi:BPMNPlane>", "  </bpmndi:BPMNDiagram>"]) := by
    simp
  rw [heq] at hdiag
  exact hdiag

/-- The process element: its open line, the element and connection blocks,
and its close line. -/
lemma blockOk_process (pm : List String) (hpm : BlockOk pm) :
    BlockOk (("  <process id=\"Process_simsam\" isExecutable=\"false\">") ::
      pm ++ ["  </process>"]) :=
  blockOk_tagged "  " "process"
    (' ' :: "id".toList ++ '=' :: '"' :: "Process_simsam".toList ++ '"' ::
      (' ' :: "isExecutable".toList ++ '=' :: '"' :: "false".toList ++
        '"' :: []))
    pm _ _ (by decide) (by decide)
    (attrsOk_one "id" "Process_simsam" _ (by decide) (by decide)
      (attrsOk_one "isExecutable" "false" [] (by decide) (by decide)
        AttrsOk.nil))
    hpm (by decide) (by decide)

lemma elementEmit_lines {e : JObj} {pr : List String × (String × String)}
    (h : elementEmit e = .ok pr) :
    ∃ idv, dget e "id" = some idv ∧
      pr.2 = (make_xml_safe_id idv, elementTag e) ∧
      pr.1 = ("    <" ++ elementTag e ++ " id=\"" ++ make_xml_safe_id idv ++
        "\" name=\"" ++
        escape_xml_thoroughly ((dget e "name").getD (.str "")) ++ "\">") ::
        (if (customProps e).isEmpty then [] else
          ["      <extensionElements>", "        <simsam:properties>"] ++
          (customProps e).filterMap (fun kv =>
            if escape_xml_thoroughly (.str (pyStr kv.2)) ≠ "" then
              some ("          <simsam:property name=\"" ++
                make_xml_safe_id (.str kv.1) ++ "\" value=\"" ++
                escape_xml_thoroughly (.str (pyStr kv.2)) ++ "\" />")
            else none) ++
          ["        </simsam:properties>", "      </extensionElements>"]) ++
        ["    </" ++ elementTag e ++ ">", ""] := by
  rcases hid : dget e "id" with _ | idv
  · simp only [elementEmit, dindex, hid, Bind.bind, Except.bind] at h
    exact Except.noConfusion h
  · refine ⟨idv, rfl, ?_⟩
    simp only [elementEmit, dindex, hid, Bind.bind, Except.bind,
      Pure.pure, Except.pure] at h
    injection h with h2
    rw [← h2]
    exact ⟨rfl, rfl⟩

lemma connectionEmit_lines {c : JObj}
    {pr : List String × (String × String × String)}
    (h : connectionEmit c = .ok pr) :
    ∃ idS fromv tov, dget c "id" = some (.str idS) ∧
      dget c "fromId" = some fromv ∧ dget c "toId" = some tov ∧
      pr.2 = (make_xml_safe_id (.str (pyReplace idS "->" "_to_")),
        make_xml_safe_id fromv, make_xml_safe_id tov) ∧
      pr.1 = ("    <sequenceFlow id=\"" ++
        make_xml_safe_id (.str (pyReplace idS "->" "_to_")) ++
        "\" sourceRef=\"" ++ make_xml_safe_id fromv ++
        "\" targetRef=\"" ++ make_xml_safe_id tov ++ "\">") ::
        (if probEmits ((dget c "probability").getD .null) then
          ["      <conditionExpression xsi:type=\"tFormalExpression\">",
           "        $\x7bMath.random() &lt;= " ++
             pyStr ((dget c "probability").getD .null) ++ "\x7d",
           "      </conditionExpression>"]
         else []) ++
        ["    </sequenceFlow>", ""] := by
  rcases hid : dget c "id" with _ | idv
  · simp only [connectionEmit, dindex, hid, Bind.bind, Except.bind] at h
    exact Except.noConfusion h
  · simp only [connectionEmit, dindex, hid, Bind.bind, Except.bind] at h
    rcases idv with s | s | b | _ | xs | kvs
    all_goals try exact Except.noConfusion h
    rcases hf : dget c "fromId" with _ | fromv
    · rw [hf] at h
      exact Except.noConfusion h
    · rw [hf] at h
      rcases ht : dget c "toId" with _ | tov
      · rw [ht] at h
        exact Except.noConfusion h
      · rw [ht] at h
        simp only [Pure.pure, Except.pure] at h
        injection h with h2
        refine ⟨s, fromv, tov, rfl, rfl, rfl, ?_⟩
        rw [← h2]
        exact ⟨rfl, rfl⟩

lemma mem_dinsert {α : Type} {k : String} {v : α} :
    ∀ {l : List (String × α)} {x : String × α},
      x ∈ dinsert k v l → x = (k, v) ∨ x ∈ l := by
  intro l
  induction l with
  | nil =>
    intro x hx
    rcases List.mem_singleton.mp hx with rfl
    exact Or.inl rfl
  | cons q rest ih =>
    intro x hx
    rw [show q = (q.1, q.2) from rfl, dinsert] at hx
    split_ifs at hx with hq
    · rcases List.mem_cons.mp hx with rfl | hx2
      · exact Or.inl rfl
      · exact Or.inr (List.mem_cons_of_mem _ hx2)
    · rcases List.mem_cons.mp hx with rfl | hx2
      · exact Or.inr (List.mem_cons_self _ _)
      · rcases ih hx2 with h1 | h1
        · exact Or.inl h1
        · exact Or.inr (List.mem_cons_of_mem _ h1)

lemma foldl_dinsert_keys {β : Type} (g : Nat × (String × String) → β) :
    ∀ (l : List (Nat × (String × String)))
      (acc : List (String × β)) (kv : String × β),
      kv ∈ l.foldl (fun b p => dinsert p.2.1 (g p) b) acc →
      kv.1 ∈ acc.map Prod.fst ∨ kv.1 ∈ l.map (fun p => p.2.1) := by
  intro l
  induction l with
  | nil =>
    intro acc kv h
    exact Or.inl (List.mem_map.mpr ⟨kv, h, rfl⟩)
  | cons p rest ih =>
    intro acc kv h
    rw [List.foldl_cons] at h
    rcases ih _ kv h with h1 | h1
    · rcases List.mem_map.mp h1 with ⟨x, hx, hx2⟩
      rcases mem_dinsert hx with rfl | hx3
      · exact Or.inr (by rw [← hx2]; exact List.mem_cons_self _ _)
      · exact Or.inl (List.mem_map.mpr ⟨x, hx3, hx2⟩)
    · exact Or.inr (List.mem_cons_of_mem _ h1)

lemma diBounds_keys {infos : List (String × String)} {layout : JVal}
    {kv : String × (Frac × Frac × Frac × Frac)}
    (h : kv ∈ diBounds infos layout) : kv.1 ∈ infos.map Prod.fst := by
  unfold diBounds at h
  rcases foldl_dinsert_keys _ _ _ _ h with h1 | h1
  · simp at h1
  · have : infos.enum.map (fun p => p.2.1) = infos.map Prod.fst := by
      rw [show (fun p : Nat × (String × String) => p.2.1) =
        (Prod.fst ∘ Prod.snd) from rfl]
      rw [← List.map_map, List.enum_map_snd]
    rwa [this] at h1

/-- The probability guard of the amended C3 statement: either the
connection emits no condition, or its probability text is free of `<`,
`&`, `]` and control characters. -/
def probTextSafe (c : JObj) : Bool :=
  !probEmits ((dget c "probability").getD .null) ||
    (pyStr ((dget c "probability").getD .null)).toList.all (fun ch =>
      xmlCharOk ch && ch != '<' && ch != '&' && ch != ']')

lemma textOk_of_probChars {s : List Char}
    (h : s.all (fun ch =>
      xmlCharOk ch && ch != '<' && ch != '&' && ch != ']') = true) :
    textOk s = true := by
  simp only [List.all_eq_true, Bool.and_eq_true] at h
  refine Bool.and_eq_true_iff.mpr ⟨?_, ?_⟩
  · refine List.all_eq_true.mpr (fun c hc => ?_)
    obtain ⟨⟨⟨h1, h2⟩, _⟩, h4⟩ := h c hc
    simp only [Bool.and_eq_true]
    exact ⟨⟨h1, h2⟩, h4⟩
  · refine ampOk_of_no_amp (fun c hc => ?_)
    obtain ⟨⟨_, h3⟩, _⟩ := h c hc
    simpa using h3

lemma mapExcept_ok_mem_rev {α β : Type} {f : α → Except ConvErr β} :
    ∀ {l : List α} {ys : List β}, mapExcept f l = .ok ys →
      ∀ y ∈ ys, ∃ x ∈ l, f x = .ok y := by
  intro l
  induction l with
  | nil =>
    intro ys h y hy
    rw [show mapExcept f [] = .ok [] from rfl] at h
    injection h with h2
    subst h2
    simp at hy
  | cons a rest ih =>
    intro ys h y hy
    rw [mapExcept_step] at h
    rcases hf : f a with e | z
    · rw [hf] at h
      exact Except.noConfusion h
    · rw [hf] at h
      rcases hm : mapExcept f rest with e | ys2
      · rw [hm] at h
        exact Except.noConfusion h
      · rw [hm] at h
        injection h with h2
        subst h2
        rcases List.mem_cons.mp hy with rfl | hy2
        · exact ⟨a, List.mem_cons_self a rest, hf⟩
        · obtain ⟨x, hx, hfx⟩ := ih hm y hy2
          exact ⟨x, List.mem_cons_of_mem a hx, hfx⟩

lemma convertCore_ok {elements connections : List JObj} {layout : JVal}
    {lines : List String}
    (h : convertCore elements connections layout = .ok lines) :
    ∃ ep cp, mapExcept elementEmit elements = .ok ep ∧
      mapExcept connectionEmit connections = .ok cp ∧
      lines = headerLines ++ (ep.map (·.1)).flatten ++
        (cp.map (·.1)).flatten ++ ["  </process>"] ++
        build_di (ep.map (·.2)) (cp.map (·.2)) layout ++
        ["</definitions>"] := by
  unfold convertCore at h
  rcases he : mapExcept elementEmit elements with e | ep
  · rw [he] at h
    simp only [Bind.bind, Except.bind] at h
    exact Except.noConfusion h
  · rw [he] at h
    rcases hc : mapExcept connectionEmit connections with e | cp
    · rw [hc] at h
      simp only [Bind.bind, Except.bind] at h
      exact Except.noConfusion h
    · rw [hc] at h
      simp only [Bind.bind, Except.bind, Pure.pure, Except.pure] at h
      injection h with h2
      exact ⟨ep, cp, rfl, rfl, h2.symm⟩

lemma blockOk_elementEmit {e : JObj} {pr : List String × (String × String)}
    (h : elementEmit e = .ok pr) : BlockOk pr.1 := by
  obtain ⟨idv, hid, hinfo, hlines⟩ := elementEmit_lines h
  rw [hlines]
  have htag : xmlNameOk (elementTag e).toList = true := by
    have hm := elementTag_mem e
    have hall : ∀ t ∈ element_tags, xmlNameOk t.toList = true := by decide
    exact hall _ hm
  refine blockOk_element (elementTag e) _ _ _ htag
    (attrValOk_pattern (make_xml_safe_id_matches idv))
    (attrValOk_escape _) ?_
  split_ifs with hP
  · exact blockOk_nil
  · refine blockOk_ext _ (fun l hl => ?_)
    rcases List.mem_filterMap.mp hl with ⟨kv, hkv, hline⟩
    split_ifs at hline with hv
    injection hline with hline2
    rw [← hline2]
    exact blockOk_propLine _ _
      (attrValOk_pattern (make_xml_safe_id_matches _))
      (attrValOk_escape _)

lemma blockOk_connectionEmit {c : JObj}
    {pr : List String × (String × String × String)}
    (h : connectionEmit c = .ok pr) (hsafe : probTextSafe c = true) :
    BlockOk pr.1 := by
  obtain ⟨idS, fromv, tov, hid, hf, ht, hinfo, hlines⟩ :=
    connectionEmit_lines h
  rw [hlines]
  refine blockOk_connection _ _ _ _
    (attrValOk_pattern (make_xml_safe_id_matches _))
    (attrValOk_pattern (make_xml_safe_id_matches _))
    (attrValOk_pattern (make_xml_safe_id_matches _)) ?_
  split_ifs with hP
  · refine blockOk_cond _ (textOk_of_probChars ?_)
    rw [probTextSafe, hP] at hsafe
    simpa using hsafe
  · exact blockOk_nil

lemma blockOk_shapeLines
    (bounds : List (String × (Frac × Frac × Frac × Frac)))
    (hids : ∀ kv ∈ bounds, matchesIdPattern kv.1 = true) :
    BlockOk ((bounds.map (fun kv =>
      ["      <bpmndi:BPMNShape id=\"DI_" ++ kv.1 ++ "\" bpmnElement=\"" ++
         kv.1 ++ "\">",
       "        <dc:Bounds x=\"" ++ fmt1 kv.2.1 ++ "\" y=\"" ++
         fmt1 kv.2.2.1 ++ "\" width=\"" ++ fmt1 kv.2.2.2.1 ++
         "\" height=\"" ++ fmt1 kv.2.2.2.2 ++ "\" />",
       "      </bpmndi:BPMNShape>"])).flatten) := by
  refine blockOk_flatten (fun b hb => ?_)
  rcases List.mem_map.mp hb with ⟨kv, hkv, rfl⟩
  exact blockOk_shape kv.1 _ _ _ _ (attrValOk_pattern (hids kv hkv))

lemma blockOk_edgeLines
    (bounds : List (String × (Frac × Frac × Frac × Frac)))
    (cinfos : List (String × String × String))
    (hids : ∀ ci ∈ cinfos, matchesIdPattern ci.1 = true) :
    BlockOk ((cinfos.filterMap (fun ci =>
      match dget bounds ci.2.1, dget bounds ci.2.2 with
      | some s, some t =>
        some ["      <bpmndi:BPMNEdge id=\"DI_" ++ ci.1 ++
                "\" bpmnElement=\"" ++ ci.1 ++ "\">",
              "        <di:waypoint x=\"" ++ fmt1 (s.1 + s.2.2.1 / ⟨2, 1⟩) ++
                "\" y=\"" ++ fmt1 (s.2.1 + s.2.2.2 / ⟨2, 1⟩) ++ "\" />",
              "        <di:waypoint x=\"" ++ fmt1 (t.1 + t.2.2.1 / ⟨2, 1⟩) ++
                "\" y=\"" ++ fmt1 (t.2.1 + t.2.2.2 / ⟨2, 1⟩) ++ "\" />",
              "      </bpmndi:BPMNEdge>"]
      | _, _ => none)).flatten) := by
  refine blockOk_flatten (fun b hb => ?_)
  rcases List.mem_filterMap.mp hb with ⟨ci, hci, hmatch⟩
  rcases h1 : dget bounds ci.2.1 with _ | s
  · rw [h1] at hmatch
    exact Option.noConfusion hmatch
  · rw [h1] at hmatch
    rcases h2 : dget bounds ci.2.2 with _ | t
    · rw [h2] at hmatch
      exact Option.noConfusion hmatch
    · rw [h2] at hmatch
      injection hmatch with hm2
      rw [← hm2]
      exact blockOk_edge ci.1 _ _ _ _ (attrValOk_pattern (hids ci hci))

lemma blockOk_build_di (infos : List (String × String))
    (cinfos : List (String × String × String)) (layout : JVal)
    (hinfos : ∀ id ∈ infos.map Prod.fst, matchesIdPattern id = true)
    (hcinfos : ∀ ci ∈ cinfos, matchesIdPattern ci.1 = true) :
    BlockOk (build_di infos cinfos layout) := by
  have hshapes := blockOk_shapeLines (diBounds infos layout)
    (fun kv hkv => hinfos kv.1 (diBounds_keys hkv))
  have hedges := blockOk_edgeLines (diBounds infos layout) cinfos hcinfos
  have hdi := blockOk_di _ (blockOk_append hshapes hedges)
  have heq : build_di infos cinfos layout =
      (["  <bpmndi:BPMNDiagram id=\"BPMNDiagram_1\">",
        "    <bpmndi:BPMNPlane id=\"BPMNPlane_1\" bpmnElement=\"Process_simsam\">"]
        ++ ((diBounds infos layout).map (fun kv =>
          ["      <bpmndi:BPMNShape id=\"DI_" ++ kv.1 ++
             "\" bpmnElement=\"" ++ kv.1 ++ "\">",
           "        <dc:Bounds x=\"" ++ fmt1 kv.2.1 ++ "\" y=\"" ++
             fmt1 kv.2.2.1 ++ "\" width=\"" ++ fmt1 kv.2.2.2.1 ++
             "\" height=\"" ++ fmt1 kv.2.2.2.2 ++ "\" />",
           "      </bpmndi:BPMNShape>"])).flatten ++
        (cinfos.filterMap (fun ci =>
          match dget (diBounds infos layout) ci.2.1,
              dget (diBounds infos layout) ci.2.2 with
          | some s, some t =>
            some ["      <bpmndi:BPMNEdge id=\"DI_" ++ ci.1 ++
                    "\" bpmnElement=\"" ++ ci.1 ++ "\">",
                  "        <di:waypoint x=\"" ++
                    fmt1 (s.1 + s.2.2.1 / ⟨2, 1⟩) ++ "\" y=\"" ++
                    fmt1 (s.2.1 + s.2.2.2 / ⟨2, 1⟩) ++ "\" />",
                  "        <di:waypoint x=\"" ++
                    fmt1 (t.1 + t.2.2.1 / ⟨2, 1⟩) ++ "\" y=\"" ++
                    fmt1 (t.2.1 + t.2.2.2 / ⟨2, 1⟩) ++ "\" />",
                  "      </bpmndi:BPMNEdge>"]
          | _, _ => none)).flatten ++
        ["    </bpmndi:BPMNPlane>", "  </bpmndi:BPMNDiagram>"]) := by
    simp only [build_di]
  rw [heq]
  have hlist : (["  <bpmndi:BPMNDiagram id=\"BPMNDiagram_1\">",
      "    <bpmndi:BPMNPlane id=\"BPMNPlane_1\" bpmnElement=\"Process_simsam\">"]
      ++ ((diBounds infos layout).map (fun kv =>
        ["      <bpmndi:BPMNShape id=\"DI_" ++ kv.1 ++
           "\" bpmnElement=\"" ++ kv.1 ++ "\">",
         "        <dc:Bounds x=\"" ++ fmt1 kv.2.1 ++ "\" y=\"" ++
           fmt1 kv.2.2.1 ++ "\" width=\"" ++ fmt1 kv.2.2.2.1 ++
           "\" height=\"" ++ fmt1 kv.2.2.2.2 ++ "\" />",
         "      </bpmndi:BPMNShape>"])).flatten ++
      (cinfos.filterMap (fun ci =>
        match dget (diBounds infos layout) ci.2.1,
            dget (diBounds infos layout) ci.2.2 with
        | some s, some t =>
          some ["      <bpmndi:BPMNEdge id=\"DI_" ++ ci.1 ++
                  "\" bpmnElement=\"" ++ ci.1 ++ "\">",
                "        <di:waypoint x=\"" ++
                  fmt1 (s.1 + s.2.2.1 / ⟨2, 1⟩) ++ "\" y=\"" ++
                  fmt1 (s.2.1 + s.2.2.2 / ⟨2, 1⟩) ++ "\" />",
                "        <di:waypoint x=\"" ++
                  fmt1 (t.1 + t.2.2.1 / ⟨2, 1⟩) ++ "\" y=\"" ++
                  fmt1 (t.2.1 + t.2.2.2 / ⟨2, 1⟩) ++ "\" />",
                "      </bpmndi:BPMNEdge>"]
        | _, _ => none)).flatten ++
      ["    </bpmndi:BPMNPlane>", "  </bpmndi:BPMNDiagram>"]) =
      (["  <bpmndi:BPMNDiagram id=\"BPMNDiagram_1\">",
        "    <bpmndi:BPMNPlane id=\"BPMNPlane_1\" bpmnElement=\"Process_simsam\">"]
        ++ (((diBounds infos layout).map (fun kv =>
          ["      <bpmndi:BPMNShape id=\"DI_" ++ kv.1 ++
             "\" bpmnElement=\"" ++ kv.1 ++ "\">",
           "        <dc:Bounds x=\"" ++ fmt1 kv.2.1 ++ "\" y=\"" ++
             fmt1 kv.2.2.1 ++ "\" width=\"" ++ fmt1 kv.2.2.2.1 ++
             "\" height=\"" ++ fmt1 kv.2.2.2.2 ++ "\" />",
           "      </bpmndi:BPMNShape>"])).flatten ++
          (cinfos.filterMap (fun ci =>
            match dget (diBounds infos layout) ci.2.1,
                dget (diBounds infos layout) ci.2.2 with
            | some s, some t =>
              some ["      <bpmndi:BPMNEdge id=\"DI_" ++ ci.1 ++
                      "\" bpmnElement=\"" ++ ci.1 ++ "\">",
                    "        <di:waypoint x=\"" ++
                      fmt1 (s.1 + s.2.2.1 / ⟨2, 1⟩) ++ "\" y=\"" ++
                      fmt1 (s.2.1 + s.2.2.2 / ⟨2, 1⟩) ++ "\" />",
                    "        <di:waypoint x=\"" ++
                      fmt1 (t.1 + t.2.2.1 / ⟨2, 1⟩) ++ "\" y=\"" ++
                      fmt1 (t.2.1 + t.2.2.2 / ⟨2, 1⟩) ++ "\" />",
                    "      </bpmndi:BPMNEdge>"]
            | _, _ => none)).flatten) ++
        ["    </bpmndi:BPMNPlane>", "  </bpmndi:BPMNDiagram>"]) := by
    simp [List.append_assoc]
  rw [hlist]
  exact hdi

lemma unl_nil : unl [] = [] := rfl

set_option maxRecDepth 100000 in
set_option maxHeartbeats 1000000 in
/-- **C3 (amended)**: whenever the converter succeeds and every
connection's emitted probability text is free of `<`, `&`, `]` and control
characters, the joined output is a well-formed XML document: the exact
prolog followed by one grammatically derivable root element. -/
theorem C3_wellformed_xml (elements connections : List JObj) (layout : JVal)
    (lines : List String)
    (hok : convertCore elements connections layout = .ok lines)
    (hsafe : ∀ c ∈ connections, probTextSafe c = true) :
    DocOk (joinNLL lines) := by
  obtain ⟨ep, cp, he, hc, hlines⟩ := convertCore_ok hok
  subst hlines
  have hPM : BlockOk ((ep.map (·.1)).flatten ++ (cp.map (·.1)).flatten) := by
    refine blockOk_append ?_ ?_
    · refine blockOk_flatten (fun b hb => ?_)
      rcases List.mem_map.mp hb with ⟨pr, hpr, rfl⟩
      obtain ⟨x, hx, hfx⟩ := mapExcept_ok_mem_rev he pr hpr
      exact blockOk_elementEmit hfx
    · refine blockOk_flatten (fun b hb => ?_)
      rcases List.mem_map.mp hb with ⟨pr, hpr, rfl⟩
      obtain ⟨x, hx, hfx⟩ := mapExcept_ok_mem_rev hc pr hpr
      exact blockOk_connectionEmit hfx (hsafe x hx)
  have hinfos : ∀ id ∈ ((ep.map (·.2)).map Prod.fst),
      matchesIdPattern id = true := by
    intro id hid
    rcases List.mem_map.mp hid with ⟨info, hinfo, rfl⟩
    rcases List.mem_map.mp hinfo with ⟨pr, hpr, rfl⟩
    obtain ⟨x, hx, hfx⟩ := mapExcept_ok_mem_rev he pr hpr
    obtain ⟨idv, _, hinfo2, _⟩ := elementEmit_lines hfx
    rw [hinfo2]
    exact make_xml_safe_id_matches idv
  have hcinfos : ∀ ci ∈ (cp.map (·.2)), matchesIdPattern ci.1 = true := by
    intro ci hci
    rcases List.mem_map.mp hci with ⟨pr, hpr, rfl⟩
    obtain ⟨x, hx, hfx⟩ := mapExcept_ok_mem_rev hc pr hpr
    obtain ⟨idS, fromv, tov, _, _, _, hinfo2, _⟩ := connectionEmit_lines hfx
    rw [hinfo2]
    exact make_xml_safe_id_matches _
  have hdi := blockOk_build_di (ep.map (·.2)) (cp.map (·.2)) layout
    hinfos hcinfos
  have hMID : BlockOk (("" ::
      ("  <process id=\"Process_simsam\" isExecutable=\"false\">" ::
        ((ep.map (·.1)).flatten ++ (cp.map (·.1)).flatten) ++
        ["  </process>"])) ++
      build_di (ep.map (·.2)) (cp.map (·.2)) layout) := by
    refine blockOk_append ?_ hdi
    have h1 := blockOk_append
      (blockOk_text (show textOk ("" : String).toList = true by decide))
      (blockOk_process _ hPM)
    simpa using h1
  have hContent : Gram false ('\n' :: unl (("" ::
      ("  <process id=\"Process_simsam\" isExecutable=\"false\">" ::
        ((ep.map (·.1)).flatten ++ (cp.map (·.1)).flatten) ++
        ["  </process>"])) ++
      build_di (ep.map (·.2)) (cp.map (·.2)) layout)) := by
    have h0 := hMID [] Gram.cnil
    rw [List.append_nil] at h0
    have h1 := gappend (gtext (show textOk ['\n'] = true by decide)) h0
    simpa using h1
  refine ⟨'<' :: "definitions".toList ++ defnAttrsChars ++
    '>' :: ('\n' :: unl (("" ::
      ("  <process id=\"Process_simsam\" isExecutable=\"false\">" ::
        ((ep.map (·.1)).flatten ++ (cp.map (·.1)).flatten) ++
        ["  </process>"])) ++
      build_di (ep.map (·.2)) (cp.map (·.2)) layout)) ++
    '<' :: '/' :: "definitions".toList ++ ['>'],
    Gram.tagged "definitions".toList defnAttrsChars _
      (by decide) attrsOk_defn hContent, ?_⟩
  rw [joinNLL_concat]
  rw [unl_append, unl_append, unl_append, unl_append]
  have hH : unl headerLines = prologChars ++ '\n' ::
      ('<' :: "definitions".toList ++ defnAttrsChars ++
        '>' :: '\n' :: '\n' ::
        ("  <process id=\"Process_simsam\" isExecutable=\"false\">".toList ++
          ['\n'])) := by decide
  rw [hH]
  simp only [unl_append, unl_cons, unl_nil, List.append_assoc,
    List.cons_append, List.append_nil, List.nil_append]
  rfl

/-- Witness input for the amended C3 statement: one element, one
probability-bearing connection. -/
def c3wElems : List JObj := [[("id", .str "E1"), ("type", .str "Resource")]]

/-- Witness connections for the amended C3 statement. -/
def c3wConns : List JObj :=
  [[("id", .str "E1->A"), ("fromId", .str "E1"), ("toId", .str "A"),
    ("probability", .num "0.5")]]

/-- The emitted lines for the C3 witness input. -/
def c3wLines : List String :=
  (convertCore c3wElems c3wConns (.obj [])).toOption.getD []

set_option maxRecDepth 100000 in
theorem C3_wellformed_xml_witness : DocOk (joinNLL c3wLines) :=
  C3_wellformed_xml c3wElems c3wConns (.obj []) c3wLines rfl (by decide)
